import Mathlib

/-!
# Kvad: a region quadtree (`src/src/kvad.c`, `src/src/kvad.h`)

A shallow embedding of the quadtree and a verification of its contract.

Conventions of the embedding.

* Coordinates (`double` in the source) are rationals `ℚ`. The functions named as
  in the source compute on them without rounding. The functions with the suffix
  `_fl` take the rounding `rnd` of every arithmetic result as a parameter:
  `round_double` is the rounding of IEEE 754 binary64, which the code computes
  with, and `id` gives back the functions without rounding. Infinities and NaN are
  not modelled.
* The data model is LP64: `unsigned int` is 32 bits wide, so the fields
  `data_count` and `level` are natural numbers updated modulo `2 ^ 32`;
  `unsigned long` is 64 bits wide and only ever counts live heap cells, which a
  64-bit address space cannot hold `2 ^ 64` of, so the counts returned by
  `Find`, `Walk` and `RemovePayload` are plain natural numbers.
* A value of type `kvad_node` is a `kvad_node*`: either `NULL` or a node record.
  Dereferencing `NULL` has no result (`none`).
* A `void*` payload is its address, a natural number; payloads are compared by
  address only.
* A leaf's linked list of `kvad_data` cells is a `List kvad_data`, head first.
* `malloc` is taken to succeed.
* Assertions are compiled out (`KVAD_ASSERTS` is not defined).
* In-place mutation becomes a returned new value.
* The recursion of `_kvad_node_insert` is bounded by an explicit budget of
  nested calls; running out of budget has no result (`none`).
-/

namespace Kvad

/-! ## Data model -/

/-- The number of values of an `unsigned int`. -/
def UINT_RANGE : Nat := 2 ^ 32

/-- Source: `typedef struct { double x; double y; } kvad_point;` -/
structure kvad_point where
  x : ℚ
  y : ℚ
deriving DecidableEq

/-- Source: `typedef struct { double width; double height; } kvad_size;` -/
structure kvad_size where
  width : ℚ
  height : ℚ
deriving DecidableEq

/-- Source: `typedef struct { kvad_point origin; kvad_size size; } kvad_rect;` -/
structure kvad_rect where
  origin : kvad_point
  size : kvad_size
deriving DecidableEq

/-- Source: `struct _kvad_data`; the `next` pointer is the tail of the list the
cell sits in. -/
structure kvad_data where
  point : kvad_point
  payload : Nat
deriving DecidableEq

/-- Source: `struct _kvad_node`, seen through a pointer: `NULL` or a record with
the fields `level`, `rect`, `subnodes[0..3]`, `data`, `data_count`. -/
inductive kvad_node where
  | NULL : kvad_node
  | node (level : Nat) (rect : kvad_rect)
      (subnodes0 subnodes1 subnodes2 subnodes3 : kvad_node)
      (data : List kvad_data) (data_count : Nat) : kvad_node
deriving DecidableEq

/-- Source: `struct _kvad_tree`. -/
structure kvad_tree where
  max_levels : Nat
  max_points_per_node : Nat
  root_node : kvad_node
deriving DecidableEq

/-- Source: `typedef void (*kvad_callback)(double x, double y, void* payload, void* context);`
The callback acts on whatever `context` designates, here a value of type `σ`. -/
abbrev kvad_callback (σ : Type) : Type := ℚ → ℚ → Nat → σ → σ

/-- The test `if (p)` on a node pointer. -/
def kvad_node.is_null : kvad_node → Bool
  | .NULL => true
  | .node _ _ _ _ _ _ _ _ => false

/-! ## Geometric predicates -/

/-- Source: `_kvad_rect_contains_point`, the sums taken without rounding; with
rounding it is `_kvad_rect_contains_point_fl`. -/
def _kvad_rect_contains_point (rect : kvad_rect) (point : kvad_point) : Bool :=
  decide (point.x ≥ rect.origin.x) && decide (point.x ≤ rect.origin.x + rect.size.width) &&
    decide (point.y ≥ rect.origin.y) && decide (point.y ≤ rect.origin.y + rect.size.height)

/-- Source: `_kvad_rect_intersects_rect`, the sums taken without rounding; with
rounding it is `_kvad_rect_intersects_rect_fl`. -/
def _kvad_rect_intersects_rect (r0 r1 : kvad_rect) : Bool :=
  let r0_max_x := r0.origin.x + r0.size.width
  let r1_max_x := r1.origin.x + r1.size.width
  let r0_max_y := r0.origin.y + r0.size.height
  let r1_max_y := r1.origin.y + r1.size.height
  if decide (r0_max_x < r1.origin.x) || decide (r0.origin.x > r1_max_x) ||
      decide (r0_max_y < r1.origin.y) || decide (r0.origin.y > r1_max_y) then
    false
  else
    true

/-! ## Node operations -/

/-- Source: `_kvad_node_create`. -/
def _kvad_node_create (rect : kvad_rect) (level : Nat) : kvad_node :=
  .node level rect .NULL .NULL .NULL .NULL [] 0

/-- The index computed in `_kvad_node_subnode_at_point`:
`quadrant = (point.y > mid_y) * 2 + (point.x > mid_x)`, the midpoint taken without
rounding; with rounding it is `kvad_quadrant_fl`. -/
def kvad_quadrant (rect : kvad_rect) (point : kvad_point) : Nat :=
  let mid_x := rect.origin.x + rect.size.width / 2
  let mid_y := rect.origin.y + rect.size.height / 2
  (if point.y > mid_y then 1 else 0) * 2 + (if point.x > mid_x then 1 else 0)

/-- Source: `_kvad_node_subnode_at_point`: `node->subnodes[quadrant]`. -/
def _kvad_node_subnode_at_point (node : kvad_node) (point : kvad_point) : Option kvad_node :=
  match node with
  | .NULL => none
  | .node _ rect s0 s1 s2 s3 _ _ =>
    match kvad_quadrant rect point with
    | 0 => some s0
    | 1 => some s1
    | 2 => some s2
    | 3 => some s3
    | _ => none

/-- The `while (data)` loop of `_kvad_node_remove_payload`, run on the cells from
`data` on with the current values of `count` and `node->data_count`; it returns
the cells that stay linked and the final `count` and `data_count`. -/
def _kvad_node_remove_payload_loop (payload : Nat) :
    List kvad_data → Nat → Nat → List kvad_data × Nat × Nat
  | [], count, data_count => ([], count, data_count)
  | d :: rest, count, data_count =>
    if d.payload = payload then
      _kvad_node_remove_payload_loop payload rest (count + 1)
        ((data_count + UINT_RANGE - 1) % UINT_RANGE)
    else
      let r := _kvad_node_remove_payload_loop payload rest count data_count
      (d :: r.1, r.2.1, r.2.2)

/-- Source: `_kvad_node_remove_payload`. The call on
`_kvad_node_subnode_at_point(node, point)` is the match on `kvad_quadrant`, the
selected child being updated in place. Returns the node after the call and the
count. -/
def _kvad_node_remove_payload : kvad_node → kvad_point → Nat → Option (kvad_node × Nat)
  | .NULL, _, _ => none
  | .node level rect s0 s1 s2 s3 data data_count, point, payload =>
    if !s0.is_null then
      match kvad_quadrant rect point with
      | 0 => do
        let r ← _kvad_node_remove_payload s0 point payload
        pure (.node level rect r.1 s1 s2 s3 data data_count, r.2)
      | 1 => do
        let r ← _kvad_node_remove_payload s1 point payload
        pure (.node level rect s0 r.1 s2 s3 data data_count, r.2)
      | 2 => do
        let r ← _kvad_node_remove_payload s2 point payload
        pure (.node level rect s0 s1 r.1 s3 data data_count, r.2)
      | 3 => do
        let r ← _kvad_node_remove_payload s3 point payload
        pure (.node level rect s0 s1 s2 r.1 data data_count, r.2)
      | _ => none
    else
      let r := _kvad_node_remove_payload_loop payload data 0 data_count
      some (.node level rect s0 s1 s2 s3 r.1 r.2.2, r.2.1)

/-- The rectangle `r` that the split loop of `_kvad_node_insert` builds for the
subnode of index `i` of a node with bounds `rect`, computed without rounding; with
rounding it is `kvad_subnode_rect_fl`. -/
def kvad_subnode_rect (rect : kvad_rect) (i : Nat) : kvad_rect :=
  let subnode_rect_size : kvad_size := ⟨rect.size.width / 2, rect.size.height / 2⟩
  ⟨⟨rect.origin.x + (if i % 2 = 1 then subnode_rect_size.width else 0),
    rect.origin.y + (if i > 1 then subnode_rect_size.height else 0)⟩,
   subnode_rect_size⟩

/-- Source: `_kvad_node_insert`, with `fuel` bounding the depth of nested calls.
The call on `_kvad_node_subnode_at_point(node, point)` is the match on
`kvad_quadrant`, the selected child being updated in place. Only `max_levels` and
`max_points_per_node` of `tree` are read. The arithmetic does not round; with
rounding the function is `_kvad_node_insert_fl`. -/
def _kvad_node_insert : Nat → kvad_tree → kvad_node → kvad_point → Nat → Option kvad_node
  | 0, _, _, _, _ => none
  | _ + 1, _, .NULL, _, _ => none
  | fuel + 1, tree, .node level rect s0 s1 s2 s3 data data_count, point, payload =>
    if !_kvad_rect_contains_point rect point then
      some (.node level rect s0 s1 s2 s3 data data_count)
    else if !s0.is_null then
      match kvad_quadrant rect point with
      | 0 => do
        let r ← _kvad_node_insert fuel tree s0 point payload
        pure (.node level rect r s1 s2 s3 data data_count)
      | 1 => do
        let r ← _kvad_node_insert fuel tree s1 point payload
        pure (.node level rect s0 r s2 s3 data data_count)
      | 2 => do
        let r ← _kvad_node_insert fuel tree s2 point payload
        pure (.node level rect s0 s1 r s3 data data_count)
      | 3 => do
        let r ← _kvad_node_insert fuel tree s3 point payload
        pure (.node level rect s0 s1 s2 r data data_count)
      | _ => none
    else
      let data := { point := point, payload := payload } :: data
      let data_count := (data_count + 1) % UINT_RANGE
      if level < tree.max_levels ∧ data_count > tree.max_points_per_node then
        let sub (i : Nat) : kvad_node :=
          _kvad_node_create (kvad_subnode_rect rect i) ((level + 1) % UINT_RANGE)
        data.foldlM (fun node d => _kvad_node_insert fuel tree node d.point d.payload)
          (.node level rect (sub 0) (sub 1) (sub 2) (sub 3) [] 0)
      else
        some (.node level rect s0 s1 s2 s3 data data_count)

/-- The statement `if (callback) callback(data->point.x, data->point.y, data->payload, context);`
shared by `_kvad_node_find` and `_kvad_node_walk`. -/
def kvad_invoke {σ : Type} (callback : Option (kvad_callback σ)) (d : kvad_data) (context : σ) : σ :=
  match callback with
  | some cb => cb d.point.x d.point.y d.payload context
  | none => context

/-- The `while (data)` loop at a leaf in `_kvad_node_find`. -/
def _kvad_node_find_loop {σ : Type} (rect : kvad_rect) (callback : Option (kvad_callback σ)) :
    List kvad_data → Nat → σ → Nat × σ
  | [], count, context => (count, context)
  | d :: rest, count, context =>
    if _kvad_rect_contains_point rect d.point then
      _kvad_node_find_loop rect callback rest (count + 1)
        (kvad_invoke callback d context)
    else
      _kvad_node_find_loop rect callback rest count context

/-- Read `node->rect`. -/
def kvad_node.rect? : kvad_node → Option kvad_rect
  | .NULL => none
  | .node _ rect _ _ _ _ _ _ => some rect

/-- Source: `_kvad_node_find`. Returns the count and the context after the
callback invocations. -/
def _kvad_node_find {σ : Type} (rect : kvad_rect) (callback : Option (kvad_callback σ)) :
    kvad_node → σ → Option (Nat × σ)
  | .NULL, _ => none
  | .node _ _ s0 s1 s2 s3 data _, context =>
    if !s0.is_null then do
      let count := 0
      let r0 ← s0.rect?
      let (count, context) ←
        if _kvad_rect_intersects_rect r0 rect then
          (_kvad_node_find rect callback s0 context).map (fun f => (count + f.1, f.2))
        else some (count, context)
      let r1 ← s1.rect?
      let (count, context) ←
        if _kvad_rect_intersects_rect r1 rect then
          (_kvad_node_find rect callback s1 context).map (fun f => (count + f.1, f.2))
        else some (count, context)
      let r2 ← s2.rect?
      let (count, context) ←
        if _kvad_rect_intersects_rect r2 rect then
          (_kvad_node_find rect callback s2 context).map (fun f => (count + f.1, f.2))
        else some (count, context)
      let r3 ← s3.rect?
      let (count, context) ←
        if _kvad_rect_intersects_rect r3 rect then
          (_kvad_node_find rect callback s3 context).map (fun f => (count + f.1, f.2))
        else some (count, context)
      pure (count, context)
    else
      some (_kvad_node_find_loop rect callback data 0 context)

/-- The `while (data)` loop at a leaf in `_kvad_node_walk`. -/
def _kvad_node_walk_loop {σ : Type} (callback : Option (kvad_callback σ)) :
    List kvad_data → Nat → σ → Nat × σ
  | [], count, context => (count, context)
  | d :: rest, count, context =>
    _kvad_node_walk_loop callback rest (count + 1)
      (kvad_invoke callback d context)

/-- Source: `_kvad_node_walk`. Returns the count and the context after the
callback invocations. -/
def _kvad_node_walk {σ : Type} (callback : Option (kvad_callback σ)) :
    kvad_node → σ → Option (Nat × σ)
  | .NULL, _ => none
  | .node _ _ s0 s1 s2 s3 data _, context =>
    if !s0.is_null then do
      let count := 0
      let w0 ← _kvad_node_walk callback s0 context
      let count := count + w0.1
      let w1 ← _kvad_node_walk callback s1 w0.2
      let count := count + w1.1
      let w2 ← _kvad_node_walk callback s2 w1.2
      let count := count + w2.1
      let w3 ← _kvad_node_walk callback s3 w2.2
      let count := count + w3.1
      pure (count, w3.2)
    else
      some (_kvad_node_walk_loop callback data 0 context)

/-! ## Public functions -/

/-- Source: `kvad_tree_create`. -/
def kvad_tree_create (x y width height : ℚ) (max_levels max_points_per_node : Nat) : kvad_tree :=
  let max_points_per_node := if max_points_per_node = 0 then 1 else max_points_per_node
  { max_levels := max_levels
    max_points_per_node := max_points_per_node
    root_node := _kvad_node_create ⟨⟨x, y⟩, ⟨width, height⟩⟩ 0 }

/-- The depth of nested `_kvad_node_insert` calls granted to one
`kvad_tree_insert`: a node of level `l` needs at most `2 * (max_levels - l) + 1`. -/
def kvad_tree_insert_fuel (tree : kvad_tree) : Nat := 2 * tree.max_levels + 1

/-- Source: `kvad_tree_insert`. Returns the tree after the call. -/
def kvad_tree_insert (tree : kvad_tree) (x y : ℚ) (payload : Nat) : Option kvad_tree :=
  (_kvad_node_insert (kvad_tree_insert_fuel tree) tree tree.root_node ⟨x, y⟩ payload).map
    (fun r => { tree with root_node := r })

/-- Source: `kvad_tree_remove_payload`. Returns the tree after the call and the
count. -/
def kvad_tree_remove_payload (tree : kvad_tree) (x y : ℚ) (payload : Nat) :
    Option (kvad_tree × Nat) :=
  (_kvad_node_remove_payload tree.root_node ⟨x, y⟩ payload).map
    (fun r => ({ tree with root_node := r.1 }, r.2))

/-- Source: `kvad_tree_find`. -/
def kvad_tree_find {σ : Type} (tree : kvad_tree) (x y width height : ℚ)
    (callback : Option (kvad_callback σ)) (context : σ) : Option (Nat × σ) :=
  _kvad_node_find ⟨⟨x, y⟩, ⟨width, height⟩⟩ callback tree.root_node context

/-- Source: `kvad_tree_walk`. -/
def kvad_tree_walk {σ : Type} (tree : kvad_tree) (callback : Option (kvad_callback σ))
    (context : σ) : Option (Nat × σ) :=
  _kvad_node_walk callback tree.root_node context

/-! ## Vocabulary of the specification -/

/-- The callback that records the triples `(x, y, payload)` it is called with, in
call order; its context is the list recorded so far. -/
def kvad_record : kvad_callback (List (ℚ × ℚ × Nat)) :=
  fun x y payload context => context ++ [(x, y, payload)]

/-- The triple a stored cell is reported as. -/
def kvad_data.triple (d : kvad_data) : ℚ × ℚ × Nat := (d.point.x, d.point.y, d.payload)

/-- Whether a reported triple lies in the query rectangle `(x, y, width, height)`. -/
def kvad_in_query (x y width height : ℚ) (e : ℚ × ℚ × Nat) : Bool :=
  _kvad_rect_contains_point ⟨⟨x, y⟩, ⟨width, height⟩⟩ ⟨e.1, e.2.1⟩

/-- Read `node->level`. -/
def kvad_node.level? : kvad_node → Option Nat
  | .NULL => none
  | .node level _ _ _ _ _ _ _ => some level

/-- A node without subnodes (`!node->subnodes[0]`). -/
def kvad_node.is_leaf : kvad_node → Bool
  | .NULL => false
  | .node _ _ s0 _ _ _ _ _ => s0.is_null

/-- The cells stored below a node, in the order of the traversal: a leaf's list head
first, the subtrees of an internal node in the order 0, 1, 2, 3. -/
def kvad_node.entries : kvad_node → List kvad_data
  | .NULL => []
  | .node _ _ s0 s1 s2 s3 data _ =>
    if s0.is_null then data else s0.entries ++ s1.entries ++ s2.entries ++ s3.entries

/-- Whether `point` passes the inclusive bounds test of a node. -/
def kvad_node.contains (n : kvad_node) (point : kvad_point) : Bool :=
  match n with
  | .NULL => false
  | .node _ rect _ _ _ _ _ _ => _kvad_rect_contains_point rect point

/-- Whether `(x, y)` passes the inclusive bounds test of the root node. -/
def kvad_tree_in_bounds (tree : kvad_tree) (x y : ℚ) : Bool :=
  tree.root_node.contains ⟨x, y⟩

/-- The trees a client can hold: made by `kvad_tree_create` with a positive width
and height and `unsigned int` limits, then changed by any calls of
`kvad_tree_insert` and `kvad_tree_remove_payload`. -/
inductive Reachable : kvad_tree → Prop
  | create (x y width height : ℚ) (max_levels max_points_per_node : Nat) :
      0 < width → 0 < height → max_levels < UINT_RANGE → max_points_per_node < UINT_RANGE →
      Reachable (kvad_tree_create x y width height max_levels max_points_per_node)
  | insert (tree tree1 : kvad_tree) (x y : ℚ) (payload : Nat) :
      Reachable tree → kvad_tree_insert tree x y payload = some tree1 → Reachable tree1
  | remove_payload (tree tree1 : kvad_tree) (x y : ℚ) (payload count : Nat) :
      Reachable tree → kvad_tree_remove_payload tree x y payload = some (tree1, count) →
      Reachable tree1

/-- The node reached from `n` by following the subnode indices of `path`; `NULL`
when the path leaves the tree. -/
def kvad_node.descend : kvad_node → List Nat → kvad_node
  | n, [] => n
  | .NULL, _ :: _ => .NULL
  | .node _ _ s0 _ _ _ _ _, 0 :: path => s0.descend path
  | .node _ _ _ s1 _ _ _ _, 1 :: path => s1.descend path
  | .node _ _ _ _ s2 _ _ _, 2 :: path => s2.descend path
  | .node _ _ _ _ _ s3 _ _, 3 :: path => s3.descend path
  | .node _ _ _ _ _ _ _ _, (_ + 4) :: _ => .NULL

/-- A leaf on the last level: `level == max_levels`. -/
def kvad_node.is_last_level_leaf (tree : kvad_tree) (n : kvad_node) : Bool :=
  n.is_leaf && n.level? == some tree.max_levels

/-- A depth of nested calls that suffices for `_kvad_node_insert` on a node of a
well-formed tree: `2 * (max_levels - level)`, plus one at a leaf. -/
def kvad_insert_depth (tree : kvad_tree) : kvad_node → Nat
  | .NULL => 0
  | .node level _ s0 _ _ _ _ _ =>
    2 * (tree.max_levels - level) + (if s0.is_null then 1 else 0)

/-- The structural invariant of the nodes of a tree with the limits of `tree`:
sizes are non-negative and levels at most `max_levels`; a leaf has no subnode at
all, a count that is the length of its list modulo `2 ^ 32`, only cells inside
its bounds and, when `max_points_per_node` is below `2 ^ 32 - 1` and the leaf above
the last level, at most `max_points_per_node` cells; an internal node has an empty list, a zero count, a level below
`max_levels`, and four subnodes one level down whose bounds are the four quarters
and whose cells are those that quadrant selection sends there. -/
def node_inv (tree : kvad_tree) : kvad_node → Prop
  | .NULL => False
  | .node level rect s0 s1 s2 s3 data data_count =>
    0 ≤ rect.size.width ∧ 0 ≤ rect.size.height ∧ level ≤ tree.max_levels ∧
    if s0.is_null then
      s1 = .NULL ∧ s2 = .NULL ∧ s3 = .NULL ∧ data_count = data.length % UINT_RANGE ∧
        (∀ d ∈ data, _kvad_rect_contains_point rect d.point = true) ∧
        (tree.max_points_per_node + 1 < UINT_RANGE → level < tree.max_levels →
          data.length ≤ tree.max_points_per_node)
    else
      data = [] ∧ data_count = 0 ∧ level < tree.max_levels ∧
      (node_inv tree s0 ∧ s0.level? = some (level + 1) ∧ s0.rect? = some (kvad_subnode_rect rect 0) ∧
        ∀ d ∈ s0.entries, kvad_quadrant rect d.point = 0) ∧
      (node_inv tree s1 ∧ s1.level? = some (level + 1) ∧ s1.rect? = some (kvad_subnode_rect rect 1) ∧
        ∀ d ∈ s1.entries, kvad_quadrant rect d.point = 1) ∧
      (node_inv tree s2 ∧ s2.level? = some (level + 1) ∧ s2.rect? = some (kvad_subnode_rect rect 2) ∧
        ∀ d ∈ s2.entries, kvad_quadrant rect d.point = 2) ∧
      (node_inv tree s3 ∧ s3.level? = some (level + 1) ∧ s3.rect? = some (kvad_subnode_rect rect 3) ∧
        ∀ d ∈ s3.entries, kvad_quadrant rect d.point = 3)

/-- What a call of `_kvad_node_insert` on the node `n` guarantees of the node `r`
it leaves behind: the invariant, the same level and bounds, an internal node still
internal, the stored cells of `n` plus the new one when it passed the bounds test,
and every last-level leaf still a leaf at its place. -/
def insert_post (tree : kvad_tree) (n : kvad_node) (point : kvad_point) (payload : Nat)
    (r : kvad_node) : Prop :=
  node_inv tree r ∧ r.level? = n.level? ∧ r.rect? = n.rect? ∧
    kvad_insert_depth tree r ≤ kvad_insert_depth tree n ∧
    (r.entries : Multiset kvad_data)
      = (if n.contains point then {⟨point, payload⟩} else 0) + (n.entries : Multiset kvad_data) ∧
    ∀ path, (n.descend path).is_last_level_leaf tree = true →
      (r.descend path).is_last_level_leaf tree = true

/-- The leaf that quadrant selection reaches from `n` for `point`, which is the
node whose list `_kvad_node_remove_payload` scans; `NULL` when the descent leaves
the tree. -/
def kvad_node.leaf_at : kvad_node → kvad_point → kvad_node
  | .NULL, _ => .NULL
  | .node level rect s0 s1 s2 s3 data data_count, point =>
    if s0.is_null then .node level rect s0 s1 s2 s3 data data_count
    else
      match kvad_quadrant rect point with
      | 0 => s0.leaf_at point
      | 1 => s1.leaf_at point
      | 2 => s2.leaf_at point
      | 3 => s3.leaf_at point
      | _ => .NULL

/-- The cells of the leaf selected for `point` that carry `payload`. -/
def kvad_node.matching (n : kvad_node) (point : kvad_point) (payload : Nat) : List kvad_data :=
  (n.leaf_at point).entries.filter (fun d => d.payload = payload)

/-- What a call of `_kvad_node_remove_payload` on the node `n` guarantees of the
node `r` it leaves behind and of the count `c` it returns: the invariant; the same
level, bounds and leaf status at every place of the tree; the cells removed are the
cells of the selected leaf that carry the payload, and `c` is their number; a call
that returns zero changes nothing. -/
def remove_post (tree : kvad_tree) (n : kvad_node) (point : kvad_point) (payload : Nat)
    (r : kvad_node) (c : Nat) : Prop :=
  node_inv tree r ∧
    (∀ path, (r.descend path).level? = (n.descend path).level? ∧
      (r.descend path).rect? = (n.descend path).rect? ∧
      (r.descend path).is_leaf = (n.descend path).is_leaf) ∧
    c = (n.matching point payload).length ∧
    (r.entries : Multiset kvad_data) + (n.matching point payload : Multiset kvad_data)
      = (n.entries : Multiset kvad_data) ∧
    (c = 0 → r = n)

/-- What holds of every reachable tree: the limits fit an `unsigned int`, the root
is at level 0 and satisfies the node invariant. -/
def tree_inv (tree : kvad_tree) : Prop :=
  tree.max_levels < UINT_RANGE ∧ tree.max_points_per_node < UINT_RANGE ∧
    tree.root_node.level? = some 0 ∧ node_inv tree tree.root_node

/-- A run of `kvad_tree_insert` calls, one for each triple of the list, in list
order. -/
def kvad_tree_insert_all (tree : kvad_tree) (l : List (ℚ × ℚ × Nat)) : Option kvad_tree :=
  l.foldlM (fun t e => kvad_tree_insert t e.1 e.2.1 e.2.2) tree

/-! ## Sample trees -/

/-- The bounds `(0, 0, 100, 100)`. -/
def sample_rect : kvad_rect := ⟨⟨0, 0⟩, ⟨100, 100⟩⟩

/-- An empty leaf at level 1 with the given bounds. -/
def sample_leaf (x y : ℚ) : kvad_node := .node 1 ⟨⟨x, y⟩, ⟨50, 50⟩⟩ .NULL .NULL .NULL .NULL [] 0

/-- `Create(0, 0, 100, 100, maxLevels = 1, maxPointsPerNode = 2)`. -/
def sample_tree0 : kvad_tree := kvad_tree_create 0 0 100 100 1 2

/-- The tree `sample_tree0` after `Insert(1, 1, 7)`. -/
def sample_tree1 : kvad_tree :=
  ⟨1, 2, .node 0 sample_rect .NULL .NULL .NULL .NULL [⟨⟨1, 1⟩, 7⟩] 1⟩

/-- The tree `sample_tree1` after `Insert(2, 2, 7)`. -/
def sample_tree2 : kvad_tree :=
  ⟨1, 2, .node 0 sample_rect .NULL .NULL .NULL .NULL [⟨⟨2, 2⟩, 7⟩, ⟨⟨1, 1⟩, 7⟩] 2⟩

/-- The tree `sample_tree2` after `Insert(3, 3, 8)`, which splits the root. -/
def sample_tree3 : kvad_tree :=
  ⟨1, 2, .node 0 sample_rect
    (.node 1 ⟨⟨0, 0⟩, ⟨50, 50⟩⟩ .NULL .NULL .NULL .NULL
      [⟨⟨1, 1⟩, 7⟩, ⟨⟨2, 2⟩, 7⟩, ⟨⟨3, 3⟩, 8⟩] 3)
    (sample_leaf 50 0) (sample_leaf 0 50) (sample_leaf 50 50) [] 0⟩

/-- The tree `sample_tree2` after `RemovePayload(1, 1, 7)`. -/
def sample_tree2_removed : kvad_tree :=
  ⟨1, 2, .node 0 sample_rect .NULL .NULL .NULL .NULL [] 0⟩

/-- The tree with `max_levels = 1` and `max_points_per_node = 4294967295`, the
largest `unsigned int`, whose root is a leaf with the bounds `(0, 0, 1, 1)` that
holds `k` cells `(0, 0)` with payload 0, its count being `k` modulo `2 ^ 32`. -/
def overflow_tree (k : Nat) : kvad_tree :=
  ⟨1, 4294967295, .node 0 ⟨⟨0, 0⟩, ⟨1, 1⟩⟩ .NULL .NULL .NULL .NULL
    (List.replicate k ⟨⟨0, 0⟩, 0⟩) (k % UINT_RANGE)⟩

/-- The cell with its payload renamed by `f`. -/
def kvad_data.relabel (f : Nat → Nat) (d : kvad_data) : kvad_data := ⟨d.point, f d.payload⟩

/-- The tree below a node with every payload renamed by `f`. -/
def kvad_node.relabel (f : Nat → Nat) : kvad_node → kvad_node
  | .NULL => .NULL
  | .node level rect s0 s1 s2 s3 data data_count =>
    .node level rect (s0.relabel f) (s1.relabel f) (s2.relabel f) (s3.relabel f)
      (data.map (kvad_data.relabel f)) data_count

/-! ## The scenario of the specification -/

/-- A leaf with square bounds whose count is the length of its list. -/
def scenario_leaf (level : Nat) (x y size : ℚ) (data : List kvad_data) : kvad_node :=
  .node level ⟨⟨x, y⟩, ⟨size, size⟩⟩ .NULL .NULL .NULL .NULL data data.length

/-- The scenario after `Insert(1, 1, a)`. -/
def scenario_tree1 (a : Nat) : kvad_tree :=
  ⟨4, 2, scenario_leaf 0 0 0 100 [⟨⟨1, 1⟩, a⟩]⟩

/-- The scenario after `Insert(2, 2, b)`. -/
def scenario_tree2 (a b : Nat) : kvad_tree :=
  ⟨4, 2, scenario_leaf 0 0 0 100 [⟨⟨2, 2⟩, b⟩, ⟨⟨1, 1⟩, a⟩]⟩

/-- The north-west subtree of the root once the given cells have gone down to the
leaf `(0, 0, 25/4, 25/4)` at level 4 through four nested splits. -/
def scenario_nw (data : List kvad_data) : kvad_node :=
  .node 1 ⟨⟨0, 0⟩, ⟨50, 50⟩⟩
    (.node 2 ⟨⟨0, 0⟩, ⟨25, 25⟩⟩
      (.node 3 ⟨⟨0, 0⟩, ⟨25 / 2, 25 / 2⟩⟩
        (scenario_leaf 4 0 0 (25 / 4) data)
        (scenario_leaf 4 (25 / 4) 0 (25 / 4) [])
        (scenario_leaf 4 0 (25 / 4) (25 / 4) [])
        (scenario_leaf 4 (25 / 4) (25 / 4) (25 / 4) []) [] 0)
      (scenario_leaf 3 (25 / 2) 0 (25 / 2) [])
      (scenario_leaf 3 0 (25 / 2) (25 / 2) [])
      (scenario_leaf 3 (25 / 2) (25 / 2) (25 / 2) []) [] 0)
    (scenario_leaf 2 25 0 25 []) (scenario_leaf 2 0 25 25 []) (scenario_leaf 2 25 25 25 []) [] 0

/-- The scenario tree whose root has split, with the given cells below its
north-west subnode and three empty leaves as the other subnodes. -/
def scenario_split (data : List kvad_data) : kvad_tree :=
  ⟨4, 2, .node 0 ⟨⟨0, 0⟩, ⟨100, 100⟩⟩ (scenario_nw data) (scenario_leaf 1 50 0 50 [])
    (scenario_leaf 1 0 50 50 []) (scenario_leaf 1 50 50 50 []) [] 0⟩

/-- The scenario after `Insert(3, 3, c)`. -/
def scenario_tree3 (a b c : Nat) : kvad_tree :=
  scenario_split [⟨⟨3, 3⟩, c⟩, ⟨⟨2, 2⟩, b⟩, ⟨⟨1, 1⟩, a⟩]

/-- The scenario after `RemovePayload(0, 0, b)`. -/
def scenario_tree4 (a c : Nat) : kvad_tree :=
  scenario_split [⟨⟨3, 3⟩, c⟩, ⟨⟨1, 1⟩, a⟩]

/-- The renaming of payloads that sends 0, 1 and any other number to `a`, `b`
and `c`. -/
def scenario_payload (a b c : Nat) (k : Nat) : Nat :=
  if k = 0 then a else if k = 1 then b else c

/-- Write `node->subnodes[i] = r`. -/
def kvad_node.set_subnode : kvad_node → Nat → kvad_node → kvad_node
  | .NULL, _, _ => .NULL
  | .node level rect _ s1 s2 s3 data data_count, 0, r =>
    .node level rect r s1 s2 s3 data data_count
  | .node level rect s0 _ s2 s3 data data_count, 1, r =>
    .node level rect s0 r s2 s3 data data_count
  | .node level rect s0 s1 _ s3 data data_count, 2, r =>
    .node level rect s0 s1 r s3 data data_count
  | .node level rect s0 s1 s2 _ data data_count, 3, r =>
    .node level rect s0 s1 s2 r data data_count
  | .node level rect s0 s1 s2 s3 data data_count, _ + 4, _ =>
    .node level rect s0 s1 s2 s3 data data_count

/-- The north-west subnode of the root of `sample_tree3`. -/
def sample_nw : kvad_node :=
  .node 1 ⟨⟨0, 0⟩, ⟨50, 50⟩⟩ .NULL .NULL .NULL .NULL
    [⟨⟨1, 1⟩, 7⟩, ⟨⟨2, 2⟩, 7⟩, ⟨⟨3, 3⟩, 8⟩] 3

/-- The tree with `max_levels = 0` and `max_points_per_node = 1` whose root, a leaf
on the last level with the bounds `(0, 0, 1, 1)`, holds `k` cells `(0, 0)` with
payload 0, its count being `k` modulo `2 ^ 32`. -/
def drift_tree (k : Nat) : kvad_tree :=
  ⟨0, 1, .node 0 ⟨⟨0, 0⟩, ⟨1, 1⟩⟩ .NULL .NULL .NULL .NULL
    (List.replicate k ⟨⟨0, 0⟩, 0⟩) (k % UINT_RANGE)⟩

/-- Read `node->data`, the list of the node itself. -/
def kvad_node.data? : kvad_node → Option (List kvad_data)
  | .NULL => none
  | .node _ _ _ _ _ _ data _ => some data

/-- Read `node->data_count`. -/
def kvad_node.data_count? : kvad_node → Option Nat
  | .NULL => none
  | .node _ _ _ _ _ _ _ data_count => some data_count

/-- The subnode indices that quadrant selection follows from `n` for `point` until
it stands on a node without subnodes, as the descent of
`_kvad_node_remove_payload` does. -/
def kvad_node.leaf_path : kvad_node → kvad_point → List Nat
  | .NULL, _ => []
  | .node _ rect s0 s1 s2 s3 _ _, point =>
    if s0.is_null then []
    else
      match kvad_quadrant rect point with
      | 0 => 0 :: s0.leaf_path point
      | 1 => 1 :: s1.leaf_path point
      | 2 => 2 :: s2.leaf_path point
      | 3 => 3 :: s3.leaf_path point
      | _ => []

/-- The function `_kvad_node_insert` with a ghost counter added: next to the node it
returns how deep the splits made by the call nest, which is 0 when the call splits
no leaf and, when it splits one, one more than the deepest nesting met while the
cells are re-inserted. -/
def _kvad_node_insert_splits :
    Nat → kvad_tree → kvad_node → kvad_point → Nat → Option (kvad_node × Nat)
  | 0, _, _, _, _ => none
  | _ + 1, _, .NULL, _, _ => none
  | fuel + 1, tree, .node level rect s0 s1 s2 s3 data data_count, point, payload =>
    if !_kvad_rect_contains_point rect point then
      some (.node level rect s0 s1 s2 s3 data data_count, 0)
    else if !s0.is_null then
      match kvad_quadrant rect point with
      | 0 => do
        let r ← _kvad_node_insert_splits fuel tree s0 point payload
        pure (.node level rect r.1 s1 s2 s3 data data_count, r.2)
      | 1 => do
        let r ← _kvad_node_insert_splits fuel tree s1 point payload
        pure (.node level rect s0 r.1 s2 s3 data data_count, r.2)
      | 2 => do
        let r ← _kvad_node_insert_splits fuel tree s2 point payload
        pure (.node level rect s0 s1 r.1 s3 data data_count, r.2)
      | 3 => do
        let r ← _kvad_node_insert_splits fuel tree s3 point payload
        pure (.node level rect s0 s1 s2 r.1 data data_count, r.2)
      | _ => none
    else
      let data := { point := point, payload := payload } :: data
      let data_count := (data_count + 1) % UINT_RANGE
      if level < tree.max_levels ∧ data_count > tree.max_points_per_node then
        let sub (i : Nat) : kvad_node :=
          _kvad_node_create (kvad_subnode_rect rect i) ((level + 1) % UINT_RANGE)
        (data.foldlM (fun (acc : kvad_node × Nat) (d : kvad_data) => do
            let r ← _kvad_node_insert_splits fuel tree acc.1 d.point d.payload
            pure (r.1, max acc.2 r.2))
          (.node level rect (sub 0) (sub 1) (sub 2) (sub 3) [] 0, 0)).map
          (fun (acc : kvad_node × Nat) => (acc.1, acc.2 + 1))
      else
        some (.node level rect s0 s1 s2 s3 data data_count, 0)

/-- The tree after `Create(0, 0, 100, 100, maxLevels = 2, maxPointsPerNode = 1)` and
`Insert(1, 1, 7)`: the root is a leaf with one cell. -/
def nested_tree : kvad_tree :=
  ⟨2, 1, .node 0 ⟨⟨0, 0⟩, ⟨100, 100⟩⟩ .NULL .NULL .NULL .NULL [⟨⟨1, 1⟩, 7⟩] 1⟩

/-- The square of side 50 at the origin. -/
def touching_rect0 : kvad_rect := ⟨⟨0, 0⟩, ⟨50, 50⟩⟩

/-- The square of side 50 whose origin is the far corner `(50, 50)` of
`touching_rect0`. -/
def touching_rect1 : kvad_rect := ⟨⟨50, 50⟩, ⟨50, 50⟩⟩

/-! ## Arithmetic in `double` -/

/-- The power `2 ^ e` for an integer exponent. -/
def kvad_pow2 (e : Int) : ℚ :=
  if 0 ≤ e then ((2 ^ e.toNat : Nat) : ℚ) else 1 / ((2 ^ (-e).toNat : Nat) : ℚ)

/-- The number of binary digits of `n`, computed with `fuel` halvings at most. -/
def kvad_bits_aux : Nat → Nat → Nat
  | 0, _ => 0
  | fuel + 1, n => if n = 0 then 0 else kvad_bits_aux fuel (n / 2) + 1

/-- The number of binary digits of `n`: the least `b` with `n < 2 ^ b`. -/
def kvad_bits (n : Nat) : Nat := kvad_bits_aux n n

/-- The exponent of the binade of a non-zero `q`: the `e` with
`2 ^ e ≤ |q| < 2 ^ (e + 1)`, and `-1022` below the normal range. -/
def double_exponent (q : ℚ) : Int :=
  let e0 : Int := (kvad_bits q.num.natAbs : Int) - (kvad_bits q.den : Int)
  let e : Int := if kvad_pow2 e0 ≤ |q| then e0 else e0 - 1
  max e (-1022)

/-- The multiple of `ulp` nearest to `q`, the one with an even multiplier when `q`
is half way between two. -/
def round_to_multiple (q ulp : ℚ) : ℚ :=
  let m : ℚ := q / ulp
  let k : Int := m.floor
  let r : ℚ := m - (k : ℚ)
  if r < 1 / 2 then (k : ℚ) * ulp
  else if 1 / 2 < r then ((k + 1 : Int) : ℚ) * ulp
  else if k % 2 = 0 then (k : ℚ) * ulp
  else ((k + 1 : Int) : ℚ) * ulp

/-- The value of the `double` nearest to `q`, ties to even (IEEE 754 binary64,
the default rounding of C arithmetic on `double`): 53 significant bits, the
spacing `2 ^ (e - 52)` in the binade of exponent `e`. Magnitudes of `2 ^ 1024` and
more, which overflow, are outside the model. -/
def round_double (q : ℚ) : ℚ :=
  if q = 0 then 0 else round_to_multiple q (kvad_pow2 (double_exponent q - 52))

/-! ## The operations with rounded arithmetic

The functions of the source that compute on coordinates, with `rnd` applied to the
result of every addition and division as the machine does for `double`; `rnd = id`
is arithmetic without rounding. -/

/-- Source: `_kvad_rect_contains_point`, each sum rounded by `rnd`. -/
def _kvad_rect_contains_point_fl (rnd : ℚ → ℚ) (rect : kvad_rect) (point : kvad_point) : Bool :=
  decide (point.x ≥ rect.origin.x) &&
    decide (point.x ≤ rnd (rect.origin.x + rect.size.width)) &&
    decide (point.y ≥ rect.origin.y) &&
    decide (point.y ≤ rnd (rect.origin.y + rect.size.height))

/-- The index computed in `_kvad_node_subnode_at_point`, each quotient and sum
rounded by `rnd`. -/
def kvad_quadrant_fl (rnd : ℚ → ℚ) (rect : kvad_rect) (point : kvad_point) : Nat :=
  let mid_x := rnd (rect.origin.x + rnd (rect.size.width / 2))
  let mid_y := rnd (rect.origin.y + rnd (rect.size.height / 2))
  (if point.y > mid_y then 1 else 0) * 2 + (if point.x > mid_x then 1 else 0)

/-- The rectangle `r` that the split loop of `_kvad_node_insert` builds for the
subnode of index `i`, each quotient and sum rounded by `rnd`. -/
def kvad_subnode_rect_fl (rnd : ℚ → ℚ) (rect : kvad_rect) (i : Nat) : kvad_rect :=
  let subnode_rect_size : kvad_size := ⟨rnd (rect.size.width / 2), rnd (rect.size.height / 2)⟩
  ⟨⟨rnd (rect.origin.x + (if i % 2 = 1 then subnode_rect_size.width else 0)),
    rnd (rect.origin.y + (if i > 1 then subnode_rect_size.height else 0))⟩,
   subnode_rect_size⟩

/-- Source: `_kvad_node_insert` with the arithmetic rounded by `rnd`; `fuel` bounds
the depth of nested calls. -/
def _kvad_node_insert_fl (rnd : ℚ → ℚ) :
    Nat → kvad_tree → kvad_node → kvad_point → Nat → Option kvad_node
  | 0, _, _, _, _ => none
  | _ + 1, _, .NULL, _, _ => none
  | fuel + 1, tree, .node level rect s0 s1 s2 s3 data data_count, point, payload =>
    if !_kvad_rect_contains_point_fl rnd rect point then
      some (.node level rect s0 s1 s2 s3 data data_count)
    else if !s0.is_null then
      match kvad_quadrant_fl rnd rect point with
      | 0 => do
        let r ← _kvad_node_insert_fl rnd fuel tree s0 point payload
        pure (.node level rect r s1 s2 s3 data data_count)
      | 1 => do
        let r ← _kvad_node_insert_fl rnd fuel tree s1 point payload
        pure (.node level rect s0 r s2 s3 data data_count)
      | 2 => do
        let r ← _kvad_node_insert_fl rnd fuel tree s2 point payload
        pure (.node level rect s0 s1 r s3 data data_count)
      | 3 => do
        let r ← _kvad_node_insert_fl rnd fuel tree s3 point payload
        pure (.node level rect s0 s1 s2 r data data_count)
      | _ => none
    else
      let data := { point := point, payload := payload } :: data
      let data_count := (data_count + 1) % UINT_RANGE
      if level < tree.max_levels ∧ data_count > tree.max_points_per_node then
        let sub (i : Nat) : kvad_node :=
          _kvad_node_create (kvad_subnode_rect_fl rnd rect i) ((level + 1) % UINT_RANGE)
        data.foldlM
          (fun node (d : kvad_data) => _kvad_node_insert_fl rnd fuel tree node d.point d.payload)
          (.node level rect (sub 0) (sub 1) (sub 2) (sub 3) [] 0)
      else
        some (.node level rect s0 s1 s2 s3 data data_count)

/-- Source: `_kvad_node_remove_payload` with the arithmetic rounded by `rnd`. -/
def _kvad_node_remove_payload_fl (rnd : ℚ → ℚ) :
    kvad_node → kvad_point → Nat → Option (kvad_node × Nat)
  | .NULL, _, _ => none
  | .node level rect s0 s1 s2 s3 data data_count, point, payload =>
    if !s0.is_null then
      match kvad_quadrant_fl rnd rect point with
      | 0 => do
        let r ← _kvad_node_remove_payload_fl rnd s0 point payload
        pure (.node level rect r.1 s1 s2 s3 data data_count, r.2)
      | 1 => do
        let r ← _kvad_node_remove_payload_fl rnd s1 point payload
        pure (.node level rect s0 r.1 s2 s3 data data_count, r.2)
      | 2 => do
        let r ← _kvad_node_remove_payload_fl rnd s2 point payload
        pure (.node level rect s0 s1 r.1 s3 data data_count, r.2)
      | 3 => do
        let r ← _kvad_node_remove_payload_fl rnd s3 point payload
        pure (.node level rect s0 s1 s2 r.1 data data_count, r.2)
      | _ => none
    else
      let r := _kvad_node_remove_payload_loop payload data 0 data_count
      some (.node level rect s0 s1 s2 s3 r.1 r.2.2, r.2.1)

/-- Source: `kvad_tree_insert` with the arithmetic rounded by `rnd`. -/
def kvad_tree_insert_fl (rnd : ℚ → ℚ) (tree : kvad_tree) (x y : ℚ) (payload : Nat) :
    Option kvad_tree :=
  (_kvad_node_insert_fl rnd (kvad_tree_insert_fuel tree) tree tree.root_node ⟨x, y⟩ payload).map
    (fun r => { tree with root_node := r })

/-- Source: `kvad_tree_remove_payload` with the arithmetic rounded by `rnd`. -/
def kvad_tree_remove_payload_fl (rnd : ℚ → ℚ) (tree : kvad_tree) (x y : ℚ) (payload : Nat) :
    Option (kvad_tree × Nat) :=
  (_kvad_node_remove_payload_fl rnd tree.root_node ⟨x, y⟩ payload).map
    (fun r => ({ tree with root_node := r.1 }, r.2))

/-- A run of `kvad_tree_insert` calls with the arithmetic rounded by `rnd`, one for
each triple of the list, in list order. -/
def kvad_tree_insert_all_fl (rnd : ℚ → ℚ) (tree : kvad_tree) (l : List (ℚ × ℚ × Nat)) :
    Option kvad_tree :=
  l.foldlM (fun t e => kvad_tree_insert_fl rnd t e.1 e.2.1 e.2.2) tree

/-- Whether `(x, y)` passes the bounds test of the root node, the sums rounded by
`rnd`. -/
def kvad_tree_in_bounds_fl (rnd : ℚ → ℚ) (tree : kvad_tree) (x y : ℚ) : Bool :=
  match tree.root_node with
  | .NULL => false
  | .node _ rect _ _ _ _ _ _ => _kvad_rect_contains_point_fl rnd rect ⟨x, y⟩

/-- The tree of `Create(0, 0, 100, 100, maxLevels = 61, maxPointsPerNode = 1)`. -/
def deep_tree0 : kvad_tree := kvad_tree_create 0 0 100 100 61 1

/-- The tree of `Create(2 ^ 53, 2 ^ 53, 2, 2, maxLevels = 1, maxPointsPerNode = 1)`,
whose arguments are integers that a `double` holds exactly. -/
def big_tree0 : kvad_tree := kvad_tree_create 9007199254740992 9007199254740992 2 2 1 1

/-- The bounds of the root of `big_tree0`. -/
def big_rect : kvad_rect := ⟨⟨9007199254740992, 9007199254740992⟩, ⟨2, 2⟩⟩

/-- The tree of `Create(-1.7, -1.7, 1.2, 1.2, maxLevels = 1, maxPointsPerNode = 1)`,
the arguments being the `double` values of the decimal literals. -/
def decimal_tree0 : kvad_tree :=
  kvad_tree_create (round_double (-17 / 10)) (round_double (-17 / 10)) (round_double (12 / 10))
    (round_double (12 / 10)) 1 1

/-- The leaf that quadrant selection reaches from `n` for `point` when the
arithmetic is rounded by `rnd`; `NULL` when the descent leaves the tree. -/
def kvad_node.leaf_at_fl (rnd : ℚ → ℚ) : kvad_node → kvad_point → kvad_node
  | .NULL, _ => .NULL
  | .node level rect s0 s1 s2 s3 data data_count, point =>
    if s0.is_null then .node level rect s0 s1 s2 s3 data data_count
    else
      match kvad_quadrant_fl rnd rect point with
      | 0 => s0.leaf_at_fl rnd point
      | 1 => s1.leaf_at_fl rnd point
      | 2 => s2.leaf_at_fl rnd point
      | 3 => s3.leaf_at_fl rnd point
      | _ => .NULL

/-- Whether `point` passes the bounds test, computed with the rounding `rnd`, of
every node that `_kvad_node_insert` visits on its way from `n` down to a leaf. -/
def kvad_node.passes_fl (rnd : ℚ → ℚ) : kvad_node → kvad_point → Bool
  | .NULL, _ => false
  | .node _ rect s0 s1 s2 s3 _ _, point =>
    _kvad_rect_contains_point_fl rnd rect point &&
      (s0.is_null ||
        match kvad_quadrant_fl rnd rect point with
        | 0 => s0.passes_fl rnd point
        | 1 => s1.passes_fl rnd point
        | 2 => s2.passes_fl rnd point
        | 3 => s3.passes_fl rnd point
        | _ => false)

/-- The trees a client can hold when the arithmetic is rounded by `rnd`: made by
`kvad_tree_create` with a positive width and height and `unsigned int` limits, then
changed by any calls of `kvad_tree_insert` and `kvad_tree_remove_payload`. -/
inductive Reachable_fl (rnd : ℚ → ℚ) : kvad_tree → Prop
  | create (x y width height : ℚ) (max_levels max_points_per_node : Nat) :
      0 < width → 0 < height → max_levels < UINT_RANGE → max_points_per_node < UINT_RANGE →
      Reachable_fl rnd (kvad_tree_create x y width height max_levels max_points_per_node)
  | insert (tree tree1 : kvad_tree) (x y : ℚ) (payload : Nat) :
      Reachable_fl rnd tree → kvad_tree_insert_fl rnd tree x y payload = some tree1 →
      Reachable_fl rnd tree1
  | remove_payload (tree tree1 : kvad_tree) (x y : ℚ) (payload count : Nat) :
      Reachable_fl rnd tree →
      kvad_tree_remove_payload_fl rnd tree x y payload = some (tree1, count) →
      Reachable_fl rnd tree1

/-- The part of the node invariant that does not depend on the arithmetic: levels are
at most `max_levels`, a leaf has no subnode at all, and an internal node is below
`max_levels` and has four subnodes one level down. -/
def shape_inv (tree : kvad_tree) : kvad_node → Prop
  | .NULL => False
  | .node level _ s0 s1 s2 s3 _ _ =>
    level ≤ tree.max_levels ∧
      if s0.is_null then s1 = .NULL ∧ s2 = .NULL ∧ s3 = .NULL
      else
        level < tree.max_levels ∧
        (shape_inv tree s0 ∧ s0.level? = some (level + 1)) ∧
        (shape_inv tree s1 ∧ s1.level? = some (level + 1)) ∧
        (shape_inv tree s2 ∧ s2.level? = some (level + 1)) ∧
        (shape_inv tree s3 ∧ s3.level? = some (level + 1))

/-- Source: `_kvad_rect_intersects_rect`, each sum rounded by `rnd`. -/
def _kvad_rect_intersects_rect_fl (rnd : ℚ → ℚ) (r0 r1 : kvad_rect) : Bool :=
  let r0_max_x := rnd (r0.origin.x + r0.size.width)
  let r1_max_x := rnd (r1.origin.x + r1.size.width)
  let r0_max_y := rnd (r0.origin.y + r0.size.height)
  let r1_max_y := rnd (r1.origin.y + r1.size.height)
  if decide (r0_max_x < r1.origin.x) || decide (r0.origin.x > r1_max_x) ||
      decide (r0_max_y < r1.origin.y) || decide (r0.origin.y > r1_max_y) then
    false
  else
    true

/-- The `while (data)` loop at a leaf in `_kvad_node_find`, the bounds test computed
with the rounding `rnd`. -/
def _kvad_node_find_loop_fl {σ : Type} (rnd : ℚ → ℚ) (rect : kvad_rect)
    (callback : Option (kvad_callback σ)) : List kvad_data → Nat → σ → Nat × σ
  | [], count, context => (count, context)
  | d :: rest, count, context =>
    if _kvad_rect_contains_point_fl rnd rect d.point then
      _kvad_node_find_loop_fl rnd rect callback rest (count + 1)
        (kvad_invoke callback d context)
    else
      _kvad_node_find_loop_fl rnd rect callback rest count context

/-- Source: `_kvad_node_find` with the arithmetic rounded by `rnd`. Returns the count
and the context after the callback invocations. -/
def _kvad_node_find_fl {σ : Type} (rnd : ℚ → ℚ) (rect : kvad_rect)
    (callback : Option (kvad_callback σ)) : kvad_node → σ → Option (Nat × σ)
  | .NULL, _ => none
  | .node _ _ s0 s1 s2 s3 data _, context =>
    if !s0.is_null then do
      let count := 0
      let r0 ← s0.rect?
      let (count, context) ←
        if _kvad_rect_intersects_rect_fl rnd r0 rect then
          (_kvad_node_find_fl rnd rect callback s0 context).map (fun f => (count + f.1, f.2))
        else some (count, context)
      let r1 ← s1.rect?
      let (count, context) ←
        if _kvad_rect_intersects_rect_fl rnd r1 rect then
          (_kvad_node_find_fl rnd rect callback s1 context).map (fun f => (count + f.1, f.2))
        else some (count, context)
      let r2 ← s2.rect?
      let (count, context) ←
        if _kvad_rect_intersects_rect_fl rnd r2 rect then
          (_kvad_node_find_fl rnd rect callback s2 context).map (fun f => (count + f.1, f.2))
        else some (count, context)
      let r3 ← s3.rect?
      let (count, context) ←
        if _kvad_rect_intersects_rect_fl rnd r3 rect then
          (_kvad_node_find_fl rnd rect callback s3 context).map (fun f => (count + f.1, f.2))
        else some (count, context)
      pure (count, context)
    else
      some (_kvad_node_find_loop_fl rnd rect callback data 0 context)

/-- Source: `kvad_tree_find` with the arithmetic rounded by `rnd`. -/
def kvad_tree_find_fl {σ : Type} (rnd : ℚ → ℚ) (tree : kvad_tree) (x y width height : ℚ)
    (callback : Option (kvad_callback σ)) (context : σ) : Option (Nat × σ) :=
  _kvad_node_find_fl rnd ⟨⟨x, y⟩, ⟨width, height⟩⟩ callback tree.root_node context

/-- Whether a reported triple passes the test of the query rectangle
`(x, y, width, height)`, computed with the rounding `rnd`. -/
def kvad_in_query_fl (rnd : ℚ → ℚ) (x y width height : ℚ) (e : ℚ × ℚ × Nat) : Bool :=
  _kvad_rect_contains_point_fl rnd ⟨⟨x, y⟩, ⟨width, height⟩⟩ ⟨e.1, e.2.1⟩

/-- What Find reports below the subnode `n` of an internal node for the query
rectangle `rect`, with the recording callback: nothing when the bounds of `n` fail
the intersection test, which skips the subnode. -/
def kvad_find_below_fl (rnd : ℚ → ℚ) (rect : kvad_rect) (n : kvad_node) :
    Option (List (ℚ × ℚ × Nat)) :=
  match n.rect? with
  | none => none
  | some r =>
    if _kvad_rect_intersects_rect_fl rnd r rect then
      (_kvad_node_find_fl rnd rect (some kvad_record) n []).map (fun f => f.2)
    else some []

/-! ## Unfolding the node invariant -/

theorem node_inv_leaf_iff {tree : kvad_tree} {level : Nat} {rect : kvad_rect}
    {s0 s1 s2 s3 : kvad_node} {data : List kvad_data} {data_count : Nat}
    (hs : s0.is_null = true) :
    node_inv tree (.node level rect s0 s1 s2 s3 data data_count) ↔
    (0 ≤ rect.size.width ∧ 0 ≤ rect.size.height ∧ level ≤ tree.max_levels ∧
      s1 = .NULL ∧ s2 = .NULL ∧ s3 = .NULL ∧ data_count = data.length % UINT_RANGE ∧
      (∀ d ∈ data, _kvad_rect_contains_point rect d.point = true) ∧
      (tree.max_points_per_node + 1 < UINT_RANGE → level < tree.max_levels →
        data.length ≤ tree.max_points_per_node)) := by
  rw [node_inv]
  simp only [hs, if_true]

theorem node_inv_leaf {tree : kvad_tree} {level : Nat} {rect : kvad_rect}
    {s0 s1 s2 s3 : kvad_node} {data : List kvad_data} {data_count : Nat}
    (h : node_inv tree (.node level rect s0 s1 s2 s3 data data_count))
    (hs : s0.is_null = true) :
    0 ≤ rect.size.width ∧ 0 ≤ rect.size.height ∧ level ≤ tree.max_levels ∧
      s1 = .NULL ∧ s2 = .NULL ∧ s3 = .NULL ∧ data_count = data.length % UINT_RANGE ∧
      (∀ d ∈ data, _kvad_rect_contains_point rect d.point = true) ∧
      (tree.max_points_per_node + 1 < UINT_RANGE → level < tree.max_levels →
        data.length ≤ tree.max_points_per_node) :=
  (node_inv_leaf_iff hs).1 h

theorem node_inv_internal_iff {tree : kvad_tree} {level : Nat} {rect : kvad_rect}
    {s0 s1 s2 s3 : kvad_node} {data : List kvad_data} {data_count : Nat}
    (hs : s0.is_null = false) :
    node_inv tree (.node level rect s0 s1 s2 s3 data data_count) ↔
    (0 ≤ rect.size.width ∧ 0 ≤ rect.size.height ∧ level ≤ tree.max_levels ∧
      data = [] ∧ data_count = 0 ∧ level < tree.max_levels ∧
      (node_inv tree s0 ∧ s0.level? = some (level + 1) ∧ s0.rect? = some (kvad_subnode_rect rect 0) ∧
        ∀ d ∈ s0.entries, kvad_quadrant rect d.point = 0) ∧
      (node_inv tree s1 ∧ s1.level? = some (level + 1) ∧ s1.rect? = some (kvad_subnode_rect rect 1) ∧
        ∀ d ∈ s1.entries, kvad_quadrant rect d.point = 1) ∧
      (node_inv tree s2 ∧ s2.level? = some (level + 1) ∧ s2.rect? = some (kvad_subnode_rect rect 2) ∧
        ∀ d ∈ s2.entries, kvad_quadrant rect d.point = 2) ∧
      (node_inv tree s3 ∧ s3.level? = some (level + 1) ∧ s3.rect? = some (kvad_subnode_rect rect 3) ∧
        ∀ d ∈ s3.entries, kvad_quadrant rect d.point = 3)) := by
  rw [node_inv]
  simp only [hs, Bool.false_eq_true, if_false]

theorem node_inv_internal {tree : kvad_tree} {level : Nat} {rect : kvad_rect}
    {s0 s1 s2 s3 : kvad_node} {data : List kvad_data} {data_count : Nat}
    (h : node_inv tree (.node level rect s0 s1 s2 s3 data data_count))
    (hs : s0.is_null = false) :
    0 ≤ rect.size.width ∧ 0 ≤ rect.size.height ∧ level ≤ tree.max_levels ∧
      data = [] ∧ data_count = 0 ∧ level < tree.max_levels ∧
      (node_inv tree s0 ∧ s0.level? = some (level + 1) ∧ s0.rect? = some (kvad_subnode_rect rect 0) ∧
        ∀ d ∈ s0.entries, kvad_quadrant rect d.point = 0) ∧
      (node_inv tree s1 ∧ s1.level? = some (level + 1) ∧ s1.rect? = some (kvad_subnode_rect rect 1) ∧
        ∀ d ∈ s1.entries, kvad_quadrant rect d.point = 1) ∧
      (node_inv tree s2 ∧ s2.level? = some (level + 1) ∧ s2.rect? = some (kvad_subnode_rect rect 2) ∧
        ∀ d ∈ s2.entries, kvad_quadrant rect d.point = 2) ∧
      (node_inv tree s3 ∧ s3.level? = some (level + 1) ∧ s3.rect? = some (kvad_subnode_rect rect 3) ∧
        ∀ d ∈ s3.entries, kvad_quadrant rect d.point = 3) :=
  (node_inv_internal_iff hs).1 h

/-! ## Traversal -/

theorem invoke_record_foldl (l : List kvad_data) (context : List (ℚ × ℚ × Nat)) :
    l.foldl (fun c d => kvad_invoke (some kvad_record) d c) context
      = context ++ l.map kvad_data.triple := by
  induction l generalizing context with
  | nil => simp
  | cons d l ih =>
    rw [List.foldl_cons, ih]
    simp [kvad_invoke, kvad_record, kvad_data.triple]

theorem walk_loop_eq {σ : Type} (callback : Option (kvad_callback σ)) (l : List kvad_data)
    (count : Nat) (context : σ) :
    _kvad_node_walk_loop callback l count context
      = (count + l.length, l.foldl (fun c d => kvad_invoke callback d c) context) := by
  induction l generalizing count context with
  | nil => simp [_kvad_node_walk_loop]
  | cons d l ih => simp [_kvad_node_walk_loop, ih]; omega

theorem find_loop_eq {σ : Type} (rect : kvad_rect) (callback : Option (kvad_callback σ))
    (l : List kvad_data) (count : Nat) (context : σ) :
    _kvad_node_find_loop rect callback l count context
      = (count + (l.filter (fun d => _kvad_rect_contains_point rect d.point)).length,
         (l.filter (fun d => _kvad_rect_contains_point rect d.point)).foldl
           (fun c d => kvad_invoke callback d c) context) := by
  induction l generalizing count context with
  | nil => simp [_kvad_node_find_loop]
  | cons d l ih =>
    by_cases h : _kvad_rect_contains_point rect d.point = true
    · simp [_kvad_node_find_loop, ih, h]; omega
    · simp [_kvad_node_find_loop, ih, h]

theorem node_inv_not_null {tree : kvad_tree} {n : kvad_node} (h : node_inv tree n) :
    n.is_null = false := by
  cases n with
  | NULL => simp [node_inv] at h
  | node => rfl

/-- Walk visits exactly the cells of `entries`, in that order, and counts them. -/
theorem walk_eq {σ : Type} (tree : kvad_tree) (callback : Option (kvad_callback σ))
    (n : kvad_node) (h : node_inv tree n) (context : σ) :
    _kvad_node_walk callback n context
      = some (n.entries.length, n.entries.foldl (fun c d => kvad_invoke callback d c) context) := by
  induction n generalizing context with
  | NULL => simp [node_inv] at h
  | node level rect s0 s1 s2 s3 data data_count ih0 ih1 ih2 ih3 =>
    by_cases hs : s0.is_null = true
    · simp [_kvad_node_walk, kvad_node.entries, hs, walk_loop_eq]
    · simp only [Bool.not_eq_true] at hs
      obtain ⟨_, _, _, _, _, _, ⟨h0, _⟩, ⟨h1, _⟩, ⟨h2, _⟩, ⟨h3, _⟩⟩ := node_inv_internal h hs
      simp [_kvad_node_walk, kvad_node.entries, hs, ih0 h0, ih1 h1, ih2 h2, ih3 h3,
        Nat.add_assoc]

/-! ## Geometry -/

theorem contains_iff (rect : kvad_rect) (point : kvad_point) :
    _kvad_rect_contains_point rect point = true ↔
      rect.origin.x ≤ point.x ∧ point.x ≤ rect.origin.x + rect.size.width ∧
      rect.origin.y ≤ point.y ∧ point.y ≤ rect.origin.y + rect.size.height := by
  simp [_kvad_rect_contains_point, and_assoc]

theorem intersects_iff (r0 r1 : kvad_rect) :
    _kvad_rect_intersects_rect r0 r1 = true ↔
      r1.origin.x ≤ r0.origin.x + r0.size.width ∧ r0.origin.x ≤ r1.origin.x + r1.size.width ∧
      r1.origin.y ≤ r0.origin.y + r0.size.height ∧ r0.origin.y ≤ r1.origin.y + r1.size.height := by
  simp [_kvad_rect_intersects_rect, and_assoc]

/-- Two rectangles that contain a common point intersect. -/
theorem intersects_of_common_point {r0 r1 : kvad_rect} {point : kvad_point}
    (h0 : _kvad_rect_contains_point r0 point = true)
    (h1 : _kvad_rect_contains_point r1 point = true) :
    _kvad_rect_intersects_rect r0 r1 = true := by
  rw [contains_iff] at h0 h1
  rw [intersects_iff]
  refine ⟨?_, ?_, ?_, ?_⟩ <;> linarith [h0.1, h0.2.1, h0.2.2.1, h0.2.2.2, h1.1, h1.2.1, h1.2.2.1, h1.2.2.2]

/-- Each quarter lies inside the rectangle it quarters. -/
theorem subnode_rect_subset {rect : kvad_rect} (hw : 0 ≤ rect.size.width)
    (hh : 0 ≤ rect.size.height) (i : Nat) {point : kvad_point}
    (h : _kvad_rect_contains_point (kvad_subnode_rect rect i) point = true) :
    _kvad_rect_contains_point rect point = true := by
  rw [contains_iff] at h ⊢
  simp only [kvad_subnode_rect] at h
  obtain ⟨h1, h2, h3, h4⟩ := h
  split_ifs at h1 h2 h3 h4 <;> refine ⟨?_, ?_, ?_, ?_⟩ <;> linarith

/-- The quarter picked by quadrant selection contains the point. -/
theorem subnode_rect_contains {rect : kvad_rect} {point : kvad_point}
    (h : _kvad_rect_contains_point rect point = true) :
    _kvad_rect_contains_point (kvad_subnode_rect rect (kvad_quadrant rect point)) point = true := by
  rw [contains_iff] at h ⊢
  obtain ⟨h1, h2, h3, h4⟩ := h
  simp only [kvad_subnode_rect, kvad_quadrant]
  by_cases hx : point.x > rect.origin.x + rect.size.width / 2 <;>
    by_cases hy : point.y > rect.origin.y + rect.size.height / 2 <;>
    simp only [hx, hy, if_true, if_false] <;> norm_num <;>
    refine ⟨?_, ?_, ?_, ?_⟩ <;> linarith

theorem quadrant_lt (rect : kvad_rect) (point : kvad_point) : kvad_quadrant rect point < 4 := by
  simp only [kvad_quadrant]
  split_ifs <;> omega

/-! ## Consequences of the node invariant -/

/-- Every cell stored below a node lies inside the bounds of that node. -/
theorem entries_in_rect {tree : kvad_tree} {n : kvad_node} (h : node_inv tree n)
    {rect : kvad_rect} (hr : n.rect? = some rect) :
    ∀ d ∈ n.entries, _kvad_rect_contains_point rect d.point = true := by
  induction n generalizing rect with
  | NULL => simp [node_inv] at h
  | node level r s0 s1 s2 s3 data data_count ih0 ih1 ih2 ih3 =>
    simp only [kvad_node.rect?, Option.some.injEq] at hr
    subst hr
    by_cases hs : s0.is_null = true
    · have hl := node_inv_leaf h hs
      simpa [kvad_node.entries, hs] using hl.2.2.2.2.2.2.2.1
    · simp only [Bool.not_eq_true] at hs
      obtain ⟨hw, hh, _, _, _, _, ⟨h0, _, r0, _⟩, ⟨h1, _, r1, _⟩, ⟨h2, _, r2, _⟩, ⟨h3, _, r3, _⟩⟩ :=
        node_inv_internal h hs
      intro d hd
      simp only [kvad_node.entries, hs, Bool.false_eq_true, if_false, List.mem_append] at hd
      rcases hd with ((hd | hd) | hd) | hd
      · exact subnode_rect_subset hw hh 0 (ih0 h0 r0 d hd)
      · exact subnode_rect_subset hw hh 1 (ih1 h1 r1 d hd)
      · exact subnode_rect_subset hw hh 2 (ih2 h2 r2 d hd)
      · exact subnode_rect_subset hw hh 3 (ih3 h3 r3 d hd)

/-- A subtree whose bounds miss the query rectangle stores no cell inside it. -/
theorem filter_entries_of_not_intersects {tree : kvad_tree} {n : kvad_node}
    (h : node_inv tree n) {r : kvad_rect} (rect : kvad_rect) (hr : n.rect? = some r)
    (hi : _kvad_rect_intersects_rect r rect = false) :
    n.entries.filter (fun d => _kvad_rect_contains_point rect d.point) = [] := by
  rw [List.filter_eq_nil_iff]
  intro d hd hc
  have := intersects_of_common_point (entries_in_rect h hr d hd) hc
  rw [hi] at this
  exact Bool.false_ne_true this

/-- Find visits exactly the stored cells that lie in the query rectangle, in the
order of `entries`, and counts them. -/
theorem find_eq {σ : Type} (tree : kvad_tree) (rect : kvad_rect)
    (callback : Option (kvad_callback σ)) (n : kvad_node) (h : node_inv tree n) (context : σ) :
    _kvad_node_find rect callback n context
      = some ((n.entries.filter (fun d => _kvad_rect_contains_point rect d.point)).length,
          (n.entries.filter (fun d => _kvad_rect_contains_point rect d.point)).foldl
            (fun c d => kvad_invoke callback d c) context) := by
  induction n generalizing context with
  | NULL => simp [node_inv] at h
  | node level r s0 s1 s2 s3 data data_count ih0 ih1 ih2 ih3 =>
    by_cases hs : s0.is_null = true
    · simp [_kvad_node_find, kvad_node.entries, hs, find_loop_eq]
    · simp only [Bool.not_eq_true] at hs
      obtain ⟨_, _, _, _, _, _, ⟨h0, _, r0, _⟩, ⟨h1, _, r1, _⟩, ⟨h2, _, r2, _⟩, ⟨h3, _, r3, _⟩⟩ :=
        node_inv_internal h hs
      have e0 := filter_entries_of_not_intersects h0 rect r0
      have e1 := filter_entries_of_not_intersects h1 rect r1
      have e2 := filter_entries_of_not_intersects h2 rect r2
      have e3 := filter_entries_of_not_intersects h3 rect r3
      simp only [_kvad_node_find, hs, Bool.not_false, if_true, r0, r1, r2, r3, Option.bind_eq_bind,
        Option.some_bind, kvad_node.entries, Bool.false_eq_true, if_false, List.filter_append,
        List.length_append, List.foldl_append]
      by_cases i0 : _kvad_rect_intersects_rect (kvad_subnode_rect r 0) rect = true <;>
      by_cases i1 : _kvad_rect_intersects_rect (kvad_subnode_rect r 1) rect = true <;>
      by_cases i2 : _kvad_rect_intersects_rect (kvad_subnode_rect r 2) rect = true <;>
      by_cases i3 : _kvad_rect_intersects_rect (kvad_subnode_rect r 3) rect = true <;>
      simp only [Bool.not_eq_true] at i0 i1 i2 i3 <;>
      simp [i0, i1, i2, i3, ih0 h0, ih1 h1, ih2 h2, ih3 h3, e0, e1, e2, e3, Nat.add_assoc]

/-! ## Insert -/

theorem contains_of_rect_eq {n r : kvad_node} (h : r.rect? = n.rect?) (point : kvad_point) :
    r.contains point = n.contains point := by
  cases n <;> cases r <;> simp_all [kvad_node.rect?, kvad_node.contains]

/-- The re-insertion loop of a split, given that single calls with the same depth
budget behave. -/
theorem insert_fold (tree : kvad_tree) (fuel : Nat)
    (H : ∀ n point payload, node_inv tree n → kvad_insert_depth tree n ≤ fuel →
      ∃ r, _kvad_node_insert fuel tree n point payload = some r ∧
        insert_post tree n point payload r)
    (l : List kvad_data) :
    ∀ n, node_inv tree n → kvad_insert_depth tree n ≤ fuel →
      (∀ d ∈ l, n.contains d.point = true) →
      ∃ r, l.foldlM (fun node d => _kvad_node_insert fuel tree node d.point d.payload) n = some r ∧
        node_inv tree r ∧ r.level? = n.level? ∧ r.rect? = n.rect? ∧
        kvad_insert_depth tree r ≤ kvad_insert_depth tree n ∧
        (r.entries : Multiset kvad_data) = (l : Multiset kvad_data) + (n.entries : Multiset kvad_data) := by
  induction l with
  | nil =>
    intro n hn _ _
    exact ⟨n, by simp, hn, rfl, rfl, le_refl _, by simp⟩
  | cons d l ih =>
    intro n hn hf hc
    obtain ⟨r1, e1, i1, l1, c1, f1, m1, _⟩ := H n d.point d.payload hn hf
    have hc1 : ∀ e ∈ l, r1.contains e.point = true := by
      intro e he
      rw [contains_of_rect_eq c1]
      exact hc e (List.mem_cons_of_mem _ he)
    obtain ⟨r, e2, i2, l2, c2, f2, m2⟩ := ih r1 i1 (le_trans f1 hf) hc1
    refine ⟨r, ?_, i2, l2.trans l1, c2.trans c1, le_trans f2 f1, ?_⟩
    · simp [List.foldlM_cons, e1, e2]
    · rw [m2, m1, hc d (List.mem_cons_self _ _)]
      simp only [if_true, ← Multiset.cons_coe, ← Multiset.singleton_add]
      abel

theorem is_null_iff (n : kvad_node) : n.is_null = true ↔ n = .NULL := by
  cases n <;> simp [kvad_node.is_null]

theorem descend_nil (n : kvad_node) : n.descend [] = n := by
  cases n <;> rfl

theorem descend_NULL (path : List Nat) : kvad_node.NULL.descend path = .NULL := by
  cases path <;> simp [kvad_node.descend]

theorem uint_succ_mod (a : Nat) : (a % UINT_RANGE + 1) % UINT_RANGE = (a + 1) % UINT_RANGE := by
  simp [UINT_RANGE, Nat.add_mod]

/-- A fresh leaf made by `_kvad_node_create` one level below a node that may split
satisfies the invariant. -/
theorem node_inv_create (tree : kvad_tree) (rect : kvad_rect) (level : Nat)
    (hw : 0 ≤ rect.size.width) (hh : 0 ≤ rect.size.height) (hl : level ≤ tree.max_levels) :
    node_inv tree (_kvad_node_create rect level) := by
  simp [_kvad_node_create, node_inv, kvad_node.is_null, hw, hh, hl]

theorem insert_depth_of_level {tree : kvad_tree} {n : kvad_node} {level : Nat}
    (h : n.level? = some level) :
    kvad_insert_depth tree n ≤ 2 * (tree.max_levels - level) + 1 := by
  cases n with
  | NULL => simp [kvad_node.level?] at h
  | node l rect s0 s1 s2 s3 data dc =>
    simp only [kvad_node.level?, Option.some.injEq] at h
    subst h
    simp only [kvad_insert_depth]
    split_ifs <;> omega

theorem subnode_rect_nonneg {rect : kvad_rect} (hw : 0 ≤ rect.size.width)
    (hh : 0 ≤ rect.size.height) (i : Nat) :
    0 ≤ (kvad_subnode_rect rect i).size.width ∧ 0 ≤ (kvad_subnode_rect rect i).size.height := by
  simp only [kvad_subnode_rect]
  constructor <;> linarith

/-- The node a split starts its re-insertion loop from satisfies the invariant. -/
theorem node_inv_split (tree : kvad_tree) (level : Nat) (rect : kvad_rect)
    (hw : 0 ≤ rect.size.width) (hh : 0 ≤ rect.size.height) (hl : level < tree.max_levels) :
    node_inv tree (.node level rect (_kvad_node_create (kvad_subnode_rect rect 0) (level + 1))
      (_kvad_node_create (kvad_subnode_rect rect 1) (level + 1))
      (_kvad_node_create (kvad_subnode_rect rect 2) (level + 1))
      (_kvad_node_create (kvad_subnode_rect rect 3) (level + 1)) [] 0) := by
  have c := fun i => node_inv_create tree (kvad_subnode_rect rect i) (level + 1)
    (subnode_rect_nonneg hw hh i).1 (subnode_rect_nonneg hw hh i).2 hl
  have e : ∀ (r : kvad_rect) (l i : Nat), ∀ d ∈ (_kvad_node_create r l).entries,
      kvad_quadrant rect d.point = i := by
    intro r l i d hd
    simp [_kvad_node_create, kvad_node.entries, kvad_node.is_null] at hd
  have hn : (_kvad_node_create (kvad_subnode_rect rect 0) (level + 1)).is_null = false := rfl
  rw [node_inv_internal_iff hn]
  exact ⟨hw, hh, le_of_lt hl, rfl, rfl, hl, ⟨c 0, rfl, rfl, e _ _ 0⟩, ⟨c 1, rfl, rfl, e _ _ 1⟩,
    ⟨c 2, rfl, rfl, e _ _ 2⟩, ⟨c 3, rfl, rfl, e _ _ 3⟩⟩

/-- Replacing subnode 0 of an internal node by what a nested call leaves. -/
theorem insert_post_subnode0 {tree : kvad_tree} {level : Nat} {rect : kvad_rect}
    {s0 s1 s2 s3 : kvad_node} {data : List kvad_data} {dc : Nat} {point : kvad_point}
    {payload : Nat} {r : kvad_node}
    (hn : node_inv tree (.node level rect s0 s1 s2 s3 data dc)) (hs : s0.is_null = false)
    (hc : _kvad_rect_contains_point rect point = true) (hq : kvad_quadrant rect point = 0)
    (hr : insert_post tree s0 point payload r) :
    insert_post tree (.node level rect s0 s1 s2 s3 data dc) point payload
      (.node level rect r s1 s2 s3 data dc) := by
  obtain ⟨hw, hh, hl, hd, hdc, hlt, ⟨h0, l0, r0, q0⟩, ⟨h1, l1, r1, q1⟩, ⟨h2, l2, r2, q2⟩, ⟨h3, l3, r3, q3⟩⟩ :=
    node_inv_internal hn hs
  obtain ⟨ir, lr, rr, _, mr, pr⟩ := hr
  have hrn : r.is_null = false := node_inv_not_null ir
  have hsc : s0.contains point = true := by
    have := subnode_rect_contains hc
    rw [hq] at this
    cases s0 with
    | NULL => simp [kvad_node.rect?] at r0
    | node =>
      simp only [kvad_node.rect?, Option.some.injEq] at r0
      simpa [kvad_node.contains, r0] using this
  rw [hsc] at mr
  simp only [if_true] at mr
  have qr : ∀ d ∈ r.entries, kvad_quadrant rect d.point = 0 := by
    intro d hd
    have hm : d ∈ (r.entries : Multiset kvad_data) := Multiset.mem_coe.2 hd
    rw [mr] at hm
    rcases Multiset.mem_add.1 hm with h | h
    · rw [Multiset.mem_singleton.1 h]
      exact hq
    · exact q0 d (Multiset.mem_coe.1 h)
  refine ⟨?_, rfl, rfl, ?_, ?_, ?_⟩
  · rw [node_inv_internal_iff hrn]
    exact ⟨hw, hh, hl, hd, hdc, hlt, ⟨ir, lr.trans l0, rr.trans r0, qr⟩, ⟨h1, l1, r1, q1⟩, ⟨h2, l2, r2, q2⟩, ⟨h3, l3, r3, q3⟩⟩
  · simp [kvad_insert_depth, hrn, hs]
  · simp only [kvad_node.entries, hrn, hs, Bool.false_eq_true, if_false, kvad_node.contains, hc,
      if_true, ← Multiset.coe_add, mr]
    abel
  · intro path hp
    cases path with
    | nil => simp [kvad_node.descend, kvad_node.is_last_level_leaf, kvad_node.is_leaf, hs] at hp
    | cons i rest =>
      match i with
      | 0 => simpa [kvad_node.descend] using pr rest (by simpa [kvad_node.descend] using hp)
      | 1 => simpa [kvad_node.descend] using hp
      | 2 => simpa [kvad_node.descend] using hp
      | 3 => simpa [kvad_node.descend] using hp
      | _ + 4 =>
        simp [kvad_node.descend, kvad_node.is_last_level_leaf, kvad_node.is_leaf,
          kvad_node.level?] at hp

/-- Replacing subnode 1 of an internal node by what a nested call leaves. -/
theorem insert_post_subnode1 {tree : kvad_tree} {level : Nat} {rect : kvad_rect}
    {s0 s1 s2 s3 : kvad_node} {data : List kvad_data} {dc : Nat} {point : kvad_point}
    {payload : Nat} {r : kvad_node}
    (hn : node_inv tree (.node level rect s0 s1 s2 s3 data dc)) (hs : s0.is_null = false)
    (hc : _kvad_rect_contains_point rect point = true) (hq : kvad_quadrant rect point = 1)
    (hr : insert_post tree s1 point payload r) :
    insert_post tree (.node level rect s0 s1 s2 s3 data dc) point payload
      (.node level rect s0 r s2 s3 data dc) := by
  obtain ⟨hw, hh, hl, hd, hdc, hlt, ⟨h0, l0, r0, q0⟩, ⟨h1, l1, r1, q1⟩, ⟨h2, l2, r2, q2⟩, ⟨h3, l3, r3, q3⟩⟩ :=
    node_inv_internal hn hs
  obtain ⟨ir, lr, rr, _, mr, pr⟩ := hr
  have hrn : r.is_null = false := node_inv_not_null ir
  have hsc : s1.contains point = true := by
    have := subnode_rect_contains hc
    rw [hq] at this
    cases s1 with
    | NULL => simp [kvad_node.rect?] at r1
    | node =>
      simp only [kvad_node.rect?, Option.some.injEq] at r1
      simpa [kvad_node.contains, r1] using this
  rw [hsc] at mr
  simp only [if_true] at mr
  have qr : ∀ d ∈ r.entries, kvad_quadrant rect d.point = 1 := by
    intro d hd
    have hm : d ∈ (r.entries : Multiset kvad_data) := Multiset.mem_coe.2 hd
    rw [mr] at hm
    rcases Multiset.mem_add.1 hm with h | h
    · rw [Multiset.mem_singleton.1 h]
      exact hq
    · exact q1 d (Multiset.mem_coe.1 h)
  refine ⟨?_, rfl, rfl, ?_, ?_, ?_⟩
  · rw [node_inv_internal_iff hs]
    exact ⟨hw, hh, hl, hd, hdc, hlt, ⟨h0, l0, r0, q0⟩, ⟨ir, lr.trans l1, rr.trans r1, qr⟩, ⟨h2, l2, r2, q2⟩, ⟨h3, l3, r3, q3⟩⟩
  · simp [kvad_insert_depth, hs, hs]
  · simp only [kvad_node.entries, hs, hs, Bool.false_eq_true, if_false, kvad_node.contains, hc,
      if_true, ← Multiset.coe_add, mr]
    abel
  · intro path hp
    cases path with
    | nil => simp [kvad_node.descend, kvad_node.is_last_level_leaf, kvad_node.is_leaf, hs] at hp
    | cons i rest =>
      match i with
      | 0 => simpa [kvad_node.descend] using hp
      | 1 => simpa [kvad_node.descend] using pr rest (by simpa [kvad_node.descend] using hp)
      | 2 => simpa [kvad_node.descend] using hp
      | 3 => simpa [kvad_node.descend] using hp
      | _ + 4 =>
        simp [kvad_node.descend, kvad_node.is_last_level_leaf, kvad_node.is_leaf,
          kvad_node.level?] at hp

/-- Replacing subnode 2 of an internal node by what a nested call leaves. -/
theorem insert_post_subnode2 {tree : kvad_tree} {level : Nat} {rect : kvad_rect}
    {s0 s1 s2 s3 : kvad_node} {data : List kvad_data} {dc : Nat} {point : kvad_point}
    {payload : Nat} {r : kvad_node}
    (hn : node_inv tree (.node level rect s0 s1 s2 s3 data dc)) (hs : s0.is_null = false)
    (hc : _kvad_rect_contains_point rect point = true) (hq : kvad_quadrant rect point = 2)
    (hr : insert_post tree s2 point payload r) :
    insert_post tree (.node level rect s0 s1 s2 s3 data dc) point payload
      (.node level rect s0 s1 r s3 data dc) := by
  obtain ⟨hw, hh, hl, hd, hdc, hlt, ⟨h0, l0, r0, q0⟩, ⟨h1, l1, r1, q1⟩, ⟨h2, l2, r2, q2⟩, ⟨h3, l3, r3, q3⟩⟩ :=
    node_inv_internal hn hs
  obtain ⟨ir, lr, rr, _, mr, pr⟩ := hr
  have hrn : r.is_null = false := node_inv_not_null ir
  have hsc : s2.contains point = true := by
    have := subnode_rect_contains hc
    rw [hq] at this
    cases s2 with
    | NULL => simp [kvad_node.rect?] at r2
    | node =>
      simp only [kvad_node.rect?, Option.some.injEq] at r2
      simpa [kvad_node.contains, r2] using this
  rw [hsc] at mr
  simp only [if_true] at mr
  have qr : ∀ d ∈ r.entries, kvad_quadrant rect d.point = 2 := by
    intro d hd
    have hm : d ∈ (r.entries : Multiset kvad_data) := Multiset.mem_coe.2 hd
    rw [mr] at hm
    rcases Multiset.mem_add.1 hm with h | h
    · rw [Multiset.mem_singleton.1 h]
      exact hq
    · exact q2 d (Multiset.mem_coe.1 h)
  refine ⟨?_, rfl, rfl, ?_, ?_, ?_⟩
  · rw [node_inv_internal_iff hs]
    exact ⟨hw, hh, hl, hd, hdc, hlt, ⟨h0, l0, r0, q0⟩, ⟨h1, l1, r1, q1⟩, ⟨ir, lr.trans l2, rr.trans r2, qr⟩, ⟨h3, l3, r3, q3⟩⟩
  · simp [kvad_insert_depth, hs, hs]
  · simp only [kvad_node.entries, hs, hs, Bool.false_eq_true, if_false, kvad_node.contains, hc,
      if_true, ← Multiset.coe_add, mr]
    abel
  · intro path hp
    cases path with
    | nil => simp [kvad_node.descend, kvad_node.is_last_level_leaf, kvad_node.is_leaf, hs] at hp
    | cons i rest =>
      match i with
      | 0 => simpa [kvad_node.descend] using hp
      | 1 => simpa [kvad_node.descend] using hp
      | 2 => simpa [kvad_node.descend] using pr rest (by simpa [kvad_node.descend] using hp)
      | 3 => simpa [kvad_node.descend] using hp
      | _ + 4 =>
        simp [kvad_node.descend, kvad_node.is_last_level_leaf, kvad_node.is_leaf,
          kvad_node.level?] at hp

/-- Replacing subnode 3 of an internal node by what a nested call leaves. -/
theorem insert_post_subnode3 {tree : kvad_tree} {level : Nat} {rect : kvad_rect}
    {s0 s1 s2 s3 : kvad_node} {data : List kvad_data} {dc : Nat} {point : kvad_point}
    {payload : Nat} {r : kvad_node}
    (hn : node_inv tree (.node level rect s0 s1 s2 s3 data dc)) (hs : s0.is_null = false)
    (hc : _kvad_rect_contains_point rect point = true) (hq : kvad_quadrant rect point = 3)
    (hr : insert_post tree s3 point payload r) :
    insert_post tree (.node level rect s0 s1 s2 s3 data dc) point payload
      (.node level rect s0 s1 s2 r data dc) := by
  obtain ⟨hw, hh, hl, hd, hdc, hlt, ⟨h0, l0, r0, q0⟩, ⟨h1, l1, r1, q1⟩, ⟨h2, l2, r2, q2⟩, ⟨h3, l3, r3, q3⟩⟩ :=
    node_inv_internal hn hs
  obtain ⟨ir, lr, rr, _, mr, pr⟩ := hr
  have hrn : r.is_null = false := node_inv_not_null ir
  have hsc : s3.contains point = true := by
    have := subnode_rect_contains hc
    rw [hq] at this
    cases s3 with
    | NULL => simp [kvad_node.rect?] at r3
    | node =>
      simp only [kvad_node.rect?, Option.some.injEq] at r3
      simpa [kvad_node.contains, r3] using this
  rw [hsc] at mr
  simp only [if_true] at mr
  have qr : ∀ d ∈ r.entries, kvad_quadrant rect d.point = 3 := by
    intro d hd
    have hm : d ∈ (r.entries : Multiset kvad_data) := Multiset.mem_coe.2 hd
    rw [mr] at hm
    rcases Multiset.mem_add.1 hm with h | h
    · rw [Multiset.mem_singleton.1 h]
      exact hq
    · exact q3 d (Multiset.mem_coe.1 h)
  refine ⟨?_, rfl, rfl, ?_, ?_, ?_⟩
  · rw [node_inv_internal_iff hs]
    exact ⟨hw, hh, hl, hd, hdc, hlt, ⟨h0, l0, r0, q0⟩, ⟨h1, l1, r1, q1⟩, ⟨h2, l2, r2, q2⟩, ⟨ir, lr.trans l3, rr.trans r3, qr⟩⟩
  · simp [kvad_insert_depth, hs, hs]
  · simp only [kvad_node.entries, hs, hs, Bool.false_eq_true, if_false, kvad_node.contains, hc,
      if_true, ← Multiset.coe_add, mr]
    abel
  · intro path hp
    cases path with
    | nil => simp [kvad_node.descend, kvad_node.is_last_level_leaf, kvad_node.is_leaf, hs] at hp
    | cons i rest =>
      match i with
      | 0 => simpa [kvad_node.descend] using hp
      | 1 => simpa [kvad_node.descend] using hp
      | 2 => simpa [kvad_node.descend] using hp
      | 3 => simpa [kvad_node.descend] using pr rest (by simpa [kvad_node.descend] using hp)
      | _ + 4 =>
        simp [kvad_node.descend, kvad_node.is_last_level_leaf, kvad_node.is_leaf,
          kvad_node.level?] at hp

/-- A call of `_kvad_node_insert` on a node of a well-formed tree returns within
the depth budget and leaves a node that satisfies `insert_post`. -/
theorem insert_spec (tree : kvad_tree) (hml : tree.max_levels < UINT_RANGE) (fuel : Nat) :
    ∀ n point payload, node_inv tree n → kvad_insert_depth tree n ≤ fuel →
      ∃ r, _kvad_node_insert fuel tree n point payload = some r ∧
        insert_post tree n point payload r := by
  induction fuel with
  | zero =>
    intro n point payload hn hf
    cases n with
    | NULL => simp [node_inv] at hn
    | node level rect s0 s1 s2 s3 data dc =>
      by_cases hs : s0.is_null = true
      · simp [kvad_insert_depth, hs] at hf
      · simp only [Bool.not_eq_true] at hs
        have := (node_inv_internal hn hs).2.2.2.2.2.1
        simp [kvad_insert_depth, hs] at hf
        omega
  | succ fuel ih =>
    intro n point payload hn hf
    cases n with
    | NULL => simp [node_inv] at hn
    | node level rect s0 s1 s2 s3 data dc =>
      by_cases hc : _kvad_rect_contains_point rect point = true
      swap
      · exact ⟨_, by simp [_kvad_node_insert, hc], hn, rfl, rfl, le_refl _,
          by simp [kvad_node.contains, hc], fun _ h => h⟩
      by_cases hs : s0.is_null = true
      · -- a leaf: the new cell goes to the head of the list
        obtain ⟨hw, hh, hl, e1, e2, e3, hdc, hin, hcap⟩ := node_inv_leaf hn hs
        have e0 := (is_null_iff s0).1 hs
        subst e0 e1 e2 e3 hdc
        have hin1 : ∀ d ∈ ({ point := point, payload := payload } :: data : List kvad_data),
            _kvad_rect_contains_point rect d.point = true := by
          intro d hd
          rcases List.mem_cons.1 hd with h | h
          · rw [h]; exact hc
          · exact hin d h
        by_cases hsplit : level < tree.max_levels ∧
            (data.length % UINT_RANGE + 1) % UINT_RANGE > tree.max_points_per_node
        · -- the leaf splits and its cells are re-inserted
          have hlv : (level + 1) % UINT_RANGE = level + 1 := Nat.mod_eq_of_lt (by omega)
          have hinv := node_inv_split tree level rect hw hh hsplit.1
          have hdepth : kvad_insert_depth tree
              (.node level rect (_kvad_node_create (kvad_subnode_rect rect 0) (level + 1))
                (_kvad_node_create (kvad_subnode_rect rect 1) (level + 1))
                (_kvad_node_create (kvad_subnode_rect rect 2) (level + 1))
                (_kvad_node_create (kvad_subnode_rect rect 3) (level + 1)) [] 0) ≤ fuel := by
            simp [kvad_insert_depth, _kvad_node_create, kvad_node.is_null] at hf ⊢
            omega
          obtain ⟨r, er, ir, lr, rr, fr, mr⟩ := insert_fold tree fuel ih
            ({ point := point, payload := payload } :: data) _ hinv hdepth
            (by simpa [kvad_node.contains] using hin1)
          refine ⟨r, ?_, ir, lr, rr, ?_, ?_, ?_⟩
          · simp only [_kvad_node_insert, hc, hs, hsplit, hlv]
            simpa using er
          · refine le_trans fr ?_
            simp [kvad_insert_depth, _kvad_node_create, kvad_node.is_null]
          · rw [mr]
            simp only [kvad_node.entries, kvad_node.is_null, _kvad_node_create, kvad_node.contains,
              hc, if_true, Bool.false_eq_true, if_false, List.append_nil, Multiset.coe_nil,
              add_zero, ← Multiset.cons_coe, Multiset.singleton_add]
          · intro path hp
            cases path with
            | nil =>
              simp [kvad_node.descend, kvad_node.is_last_level_leaf, kvad_node.level?] at hp
              omega
            | cons i rest =>
              match i with
              | 0 | 1 | 2 | 3 | _ + 4 =>
                simp [kvad_node.descend, descend_NULL, kvad_node.is_last_level_leaf,
                  kvad_node.is_leaf] at hp
        · -- the leaf keeps its cells
          refine ⟨.node level rect .NULL .NULL .NULL .NULL
            ({ point := point, payload := payload } :: data)
            ((data.length % UINT_RANGE + 1) % UINT_RANGE),
            by simp only [_kvad_node_insert, hc, hs, hsplit]; rfl, ?_, rfl, rfl, le_refl _, ?_, ?_⟩
          · rw [node_inv_leaf_iff hs]
            refine ⟨hw, hh, hl, rfl, rfl, rfl, ?_, hin1, ?_⟩
            · rw [uint_succ_mod, List.length_cons]
            · intro hmp hlt
              have := hcap hmp hlt
              rw [uint_succ_mod] at hsplit
              have hlen : (data.length + 1) % UINT_RANGE = data.length + 1 :=
                Nat.mod_eq_of_lt (by omega)
              rw [hlen] at hsplit
              rw [List.length_cons]
              by_contra hgt
              exact hsplit ⟨hlt, by omega⟩
          · simp only [kvad_node.entries, kvad_node.is_null, kvad_node.contains, hc, if_true,
              ← Multiset.cons_coe, Multiset.singleton_add]
          · intro path hp
            cases path with
            | nil =>
              simpa [kvad_node.descend, kvad_node.is_last_level_leaf, kvad_node.is_leaf,
                kvad_node.level?] using hp
            | cons i rest =>
              match i with
              | 0 | 1 | 2 | 3 | _ + 4 =>
                simp [kvad_node.descend, descend_NULL, kvad_node.is_last_level_leaf,
                  kvad_node.is_leaf] at hp
      · -- an internal node: the call descends into the selected subnode
        simp only [Bool.not_eq_true] at hs
        have hi := node_inv_internal hn hs
        have hlt := hi.2.2.2.2.2.1
        simp only [kvad_insert_depth, hs, Bool.false_eq_true, if_false] at hf
        have hq4 := quadrant_lt rect point
        have hq : kvad_quadrant rect point = 0 ∨ kvad_quadrant rect point = 1 ∨
            kvad_quadrant rect point = 2 ∨ kvad_quadrant rect point = 3 := by omega
        rcases hq with hq | hq | hq | hq
        · obtain ⟨r, er, pr⟩ := ih s0 point payload hi.2.2.2.2.2.2.1.1
            (by have := @insert_depth_of_level tree _ _ hi.2.2.2.2.2.2.1.2.1; omega)
          exact ⟨_, by simp [_kvad_node_insert, hc, hs, hq, er],
            insert_post_subnode0 hn hs hc hq pr⟩
        · obtain ⟨r, er, pr⟩ := ih s1 point payload hi.2.2.2.2.2.2.2.1.1
            (by have := @insert_depth_of_level tree _ _ hi.2.2.2.2.2.2.2.1.2.1; omega)
          exact ⟨_, by simp [_kvad_node_insert, hc, hs, hq, er],
            insert_post_subnode1 hn hs hc hq pr⟩
        · obtain ⟨r, er, pr⟩ := ih s2 point payload hi.2.2.2.2.2.2.2.2.1.1
            (by have := @insert_depth_of_level tree _ _ hi.2.2.2.2.2.2.2.2.1.2.1; omega)
          exact ⟨_, by simp [_kvad_node_insert, hc, hs, hq, er],
            insert_post_subnode2 hn hs hc hq pr⟩
        · obtain ⟨r, er, pr⟩ := ih s3 point payload hi.2.2.2.2.2.2.2.2.2.1
            (by have := @insert_depth_of_level tree _ _ hi.2.2.2.2.2.2.2.2.2.2.1; omega)
          exact ⟨_, by simp [_kvad_node_insert, hc, hs, hq, er],
            insert_post_subnode3 hn hs hc hq pr⟩

/-! ## RemovePayload -/

theorem UINT_RANGE_eq : UINT_RANGE = 4294967296 := by norm_num [UINT_RANGE]

/-- The removal loop keeps the cells with another payload, counts the others, and
decrements the stored count once for each of them. -/
theorem remove_loop_eq (payload : Nat) (l : List kvad_data) :
    ∀ count dc base, dc = (base + l.length) % UINT_RANGE →
      _kvad_node_remove_payload_loop payload l count dc
        = (l.filter (fun d => ¬ d.payload = payload),
           count + (l.filter (fun d => d.payload = payload)).length,
           (base + (l.filter (fun d => ¬ d.payload = payload)).length) % UINT_RANGE) := by
  induction l with
  | nil => intro count dc base h; simp [_kvad_node_remove_payload_loop, h]
  | cons d l ih =>
    intro count dc base h
    by_cases hd : d.payload = payload
    · have h1 : (dc + UINT_RANGE - 1) % UINT_RANGE = (base + l.length) % UINT_RANGE := by
        rw [h, List.length_cons, UINT_RANGE_eq]
        omega
      simp only [_kvad_node_remove_payload_loop, hd, if_true, ih (count + 1) _ base h1]
      simp [hd]
      omega
    · have h1 : dc = ((base + 1) + l.length) % UINT_RANGE := by
        rw [h, List.length_cons]
        congr 1
        omega
      simp only [_kvad_node_remove_payload_loop, hd, if_false, ih count dc (base + 1) h1]
      simp [hd]
      congr 1
      omega

theorem filter_ne_eq_self_of_filter_eq_nil (payload : Nat) (l : List kvad_data)
    (h : (l.filter (fun d => d.payload = payload)).length = 0) :
    l.filter (fun d => ¬ d.payload = payload) = l := by
  rw [List.filter_eq_self]
  intro d hd
  have := List.filter_eq_nil_iff.1 (List.length_eq_zero.1 h) d hd
  simpa using this

theorem filter_payload_split (payload : Nat) (l : List kvad_data) :
    ((l.filter (fun d => ¬ d.payload = payload) : List kvad_data) : Multiset kvad_data)
      + ((l.filter (fun d => d.payload = payload) : List kvad_data) : Multiset kvad_data)
      = (l : Multiset kvad_data) := by
  rw [Multiset.coe_add, Multiset.coe_eq_coe]
  induction l with
  | nil => simp
  | cons d l ih =>
    by_cases hd : d.payload = payload
    · simp only [hd, not_true_eq_false, decide_False, decide_True, List.filter_cons_of_pos,
        Bool.false_eq_true, not_false_eq_true, List.filter_cons_of_neg]
      exact (List.perm_middle).trans (ih.cons d)
    · simp only [hd, not_false_eq_true, decide_True, decide_False, List.filter_cons_of_pos,
        Bool.false_eq_true, List.filter_cons_of_neg, List.cons_append]
      exact ih.cons d

/-- A call of `_kvad_node_remove_payload` on a node of a well-formed tree returns
and leaves a node and a count that satisfy `remove_post`. -/
theorem remove_spec (tree : kvad_tree) (point : kvad_point) (payload : Nat) (n : kvad_node) :
    node_inv tree n →
      ∃ r c, _kvad_node_remove_payload n point payload = some (r, c) ∧
        remove_post tree n point payload r c := by
  induction n with
  | NULL => intro hn; simp [node_inv] at hn
  | node level rect s0 s1 s2 s3 data dc ih0 ih1 ih2 ih3 =>
    intro hn
    by_cases hs : s0.is_null = true
    · obtain ⟨hw, hh, hl, e1, e2, e3, hdc, hin, hcap⟩ := node_inv_leaf hn hs
      have hloop := remove_loop_eq payload data 0 dc 0 (by simpa using hdc)
      have hmatch : (kvad_node.node level rect s0 s1 s2 s3 data dc).matching point payload
          = data.filter (fun d => d.payload = payload) := by
        simp [kvad_node.matching, kvad_node.leaf_at, kvad_node.entries, hs]
      have hsub : ∀ d ∈ data.filter (fun d => ¬ d.payload = payload), d ∈ data :=
        fun d hd => (List.mem_filter.1 hd).1
      refine ⟨.node level rect s0 s1 s2 s3 (data.filter (fun d => ¬ d.payload = payload))
          ((0 + (data.filter (fun d => ¬ d.payload = payload)).length) % UINT_RANGE),
        0 + (data.filter (fun d => d.payload = payload)).length,
        by simp only [_kvad_node_remove_payload, hs, hloop]; rfl, ?_, ?_, ?_, ?_, ?_⟩
      · rw [node_inv_leaf_iff hs]
        refine ⟨hw, hh, hl, e1, e2, e3, by simp, fun d hd => hin d (hsub d hd), ?_⟩
        intro hmp hlt
        exact le_trans (List.length_filter_le _ _) (hcap hmp hlt)
      · intro path
        cases path with
        | nil => simp [kvad_node.descend, kvad_node.level?, kvad_node.rect?, kvad_node.is_leaf]
        | cons j rest =>
          match j with
          | 0 | 1 | 2 | 3 | _ + 4 => simp [kvad_node.descend]
      · rw [hmatch]; simp
      · rw [hmatch]
        simp only [kvad_node.entries, hs, if_true]
        exact filter_payload_split payload data
      · intro hc0
        have hz : (data.filter (fun d => d.payload = payload)).length = 0 := by omega
        rw [filter_ne_eq_self_of_filter_eq_nil payload data hz, Nat.zero_add, ← hdc]
    · simp only [Bool.not_eq_true] at hs
      have hi := node_inv_internal hn hs
      have hq4 := quadrant_lt rect point
      have hq : kvad_quadrant rect point = 0 ∨ kvad_quadrant rect point = 1 ∨
          kvad_quadrant rect point = 2 ∨ kvad_quadrant rect point = 3 := by omega
      rcases hq with hq | hq | hq | hq
      · obtain ⟨r, c, er, ir, pr, cr, mr, zr⟩ := ih0 hi.2.2.2.2.2.2.1.1
        have hrn : r.is_null = false := node_inv_not_null ir
        have p0 := pr []
        simp only [descend_nil] at p0
        have qr : ∀ d ∈ r.entries, kvad_quadrant rect d.point = 0 := by
          intro d hd
          have hm : d ∈ (r.entries : Multiset kvad_data) + (s0.matching point payload : Multiset kvad_data) :=
            Multiset.mem_add.2 (Or.inl (Multiset.mem_coe.2 hd))
          rw [mr] at hm
          exact hi.2.2.2.2.2.2.1.2.2.2 d (Multiset.mem_coe.1 hm)
        have hmatch : (kvad_node.node level rect s0 s1 s2 s3 data dc).matching point payload
            = s0.matching point payload := by
          simp [kvad_node.matching, kvad_node.leaf_at, hs, hq]
        refine ⟨.node level rect r s1 s2 s3 data dc, c,
          by simp [_kvad_node_remove_payload, hs, hq, er], ?_, ?_, ?_, ?_, ?_⟩
        · rw [node_inv_internal_iff hrn]
          exact ⟨hi.1, hi.2.1, hi.2.2.1, hi.2.2.2.1, hi.2.2.2.2.1, hi.2.2.2.2.2.1,
            ⟨ir, p0.1.trans hi.2.2.2.2.2.2.1.2.1, p0.2.1.trans hi.2.2.2.2.2.2.1.2.2.1, qr⟩, hi.2.2.2.2.2.2.2.1, hi.2.2.2.2.2.2.2.2.1, hi.2.2.2.2.2.2.2.2.2⟩
        · intro path
          cases path with
          | nil => simp [kvad_node.descend, kvad_node.level?, kvad_node.rect?, kvad_node.is_leaf, hrn, hs]
          | cons j rest =>
            match j with
            | 0 => simpa [kvad_node.descend] using pr rest
            | 1 => simp [kvad_node.descend]
            | 2 => simp [kvad_node.descend]
            | 3 => simp [kvad_node.descend]
            | _ + 4 => simp [kvad_node.descend]
        · rw [hmatch]; exact cr
        · rw [hmatch]
          simp only [kvad_node.entries, hrn, hs, Bool.false_eq_true, if_false, ← Multiset.coe_add,
            ← mr]
          abel
        · intro hc0
          rw [zr hc0]
      · obtain ⟨r, c, er, ir, pr, cr, mr, zr⟩ := ih1 hi.2.2.2.2.2.2.2.1.1
        have hrn : r.is_null = false := node_inv_not_null ir
        have p0 := pr []
        simp only [descend_nil] at p0
        have qr : ∀ d ∈ r.entries, kvad_quadrant rect d.point = 1 := by
          intro d hd
          have hm : d ∈ (r.entries : Multiset kvad_data) + (s1.matching point payload : Multiset kvad_data) :=
            Multiset.mem_add.2 (Or.inl (Multiset.mem_coe.2 hd))
          rw [mr] at hm
          exact hi.2.2.2.2.2.2.2.1.2.2.2 d (Multiset.mem_coe.1 hm)
        have hmatch : (kvad_node.node level rect s0 s1 s2 s3 data dc).matching point payload
            = s1.matching point payload := by
          simp [kvad_node.matching, kvad_node.leaf_at, hs, hq]
        refine ⟨.node level rect s0 r s2 s3 data dc, c,
          by simp [_kvad_node_remove_payload, hs, hq, er], ?_, ?_, ?_, ?_, ?_⟩
        · rw [node_inv_internal_iff hs]
          exact ⟨hi.1, hi.2.1, hi.2.2.1, hi.2.2.2.1, hi.2.2.2.2.1, hi.2.2.2.2.2.1,
            hi.2.2.2.2.2.2.1, ⟨ir, p0.1.trans hi.2.2.2.2.2.2.2.1.2.1, p0.2.1.trans hi.2.2.2.2.2.2.2.1.2.2.1, qr⟩, hi.2.2.2.2.2.2.2.2.1, hi.2.2.2.2.2.2.2.2.2⟩
        · intro path
          cases path with
          | nil => simp [kvad_node.descend, kvad_node.level?, kvad_node.rect?, kvad_node.is_leaf, hs, hs]
          | cons j rest =>
            match j with
            | 0 => simp [kvad_node.descend]
            | 1 => simpa [kvad_node.descend] using pr rest
            | 2 => simp [kvad_node.descend]
            | 3 => simp [kvad_node.descend]
            | _ + 4 => simp [kvad_node.descend]
        · rw [hmatch]; exact cr
        · rw [hmatch]
          simp only [kvad_node.entries, hs, hs, Bool.false_eq_true, if_false, ← Multiset.coe_add,
            ← mr]
          abel
        · intro hc0
          rw [zr hc0]
      · obtain ⟨r, c, er, ir, pr, cr, mr, zr⟩ := ih2 hi.2.2.2.2.2.2.2.2.1.1
        have hrn : r.is_null = false := node_inv_not_null ir
        have p0 := pr []
        simp only [descend_nil] at p0
        have qr : ∀ d ∈ r.entries, kvad_quadrant rect d.point = 2 := by
          intro d hd
          have hm : d ∈ (r.entries : Multiset kvad_data) + (s2.matching point payload : Multiset kvad_data) :=
            Multiset.mem_add.2 (Or.inl (Multiset.mem_coe.2 hd))
          rw [mr] at hm
          exact hi.2.2.2.2.2.2.2.2.1.2.2.2 d (Multiset.mem_coe.1 hm)
        have hmatch : (kvad_node.node level rect s0 s1 s2 s3 data dc).matching point payload
            = s2.matching point payload := by
          simp [kvad_node.matching, kvad_node.leaf_at, hs, hq]
        refine ⟨.node level rect s0 s1 r s3 data dc, c,
          by simp [_kvad_node_remove_payload, hs, hq, er], ?_, ?_, ?_, ?_, ?_⟩
        · rw [node_inv_internal_iff hs]
          exact ⟨hi.1, hi.2.1, hi.2.2.1, hi.2.2.2.1, hi.2.2.2.2.1, hi.2.2.2.2.2.1,
            hi.2.2.2.2.2.2.1, hi.2.2.2.2.2.2.2.1, ⟨ir, p0.1.trans hi.2.2.2.2.2.2.2.2.1.2.1, p0.2.1.trans hi.2.2.2.2.2.2.2.2.1.2.2.1, qr⟩, hi.2.2.2.2.2.2.2.2.2⟩
        · intro path
          cases path with
          | nil => simp [kvad_node.descend, kvad_node.level?, kvad_node.rect?, kvad_node.is_leaf, hs, hs]
          | cons j rest =>
            match j with
            | 0 => simp [kvad_node.descend]
            | 1 => simp [kvad_node.descend]
            | 2 => simpa [kvad_node.descend] using pr rest
            | 3 => simp [kvad_node.descend]
            | _ + 4 => simp [kvad_node.descend]
        · rw [hmatch]; exact cr
        · rw [hmatch]
          simp only [kvad_node.entries, hs, hs, Bool.false_eq_true, if_false, ← Multiset.coe_add,
            ← mr]
          abel
        · intro hc0
          rw [zr hc0]
      · obtain ⟨r, c, er, ir, pr, cr, mr, zr⟩ := ih3 hi.2.2.2.2.2.2.2.2.2.1
        have hrn : r.is_null = false := node_inv_not_null ir
        have p0 := pr []
        simp only [descend_nil] at p0
        have qr : ∀ d ∈ r.entries, kvad_quadrant rect d.point = 3 := by
          intro d hd
          have hm : d ∈ (r.entries : Multiset kvad_data) + (s3.matching point payload : Multiset kvad_data) :=
            Multiset.mem_add.2 (Or.inl (Multiset.mem_coe.2 hd))
          rw [mr] at hm
          exact hi.2.2.2.2.2.2.2.2.2.2.2.2 d (Multiset.mem_coe.1 hm)
        have hmatch : (kvad_node.node level rect s0 s1 s2 s3 data dc).matching point payload
            = s3.matching point payload := by
          simp [kvad_node.matching, kvad_node.leaf_at, hs, hq]
        refine ⟨.node level rect s0 s1 s2 r data dc, c,
          by simp [_kvad_node_remove_payload, hs, hq, er], ?_, ?_, ?_, ?_, ?_⟩
        · rw [node_inv_internal_iff hs]
          exact ⟨hi.1, hi.2.1, hi.2.2.1, hi.2.2.2.1, hi.2.2.2.2.1, hi.2.2.2.2.2.1,
            hi.2.2.2.2.2.2.1, hi.2.2.2.2.2.2.2.1, hi.2.2.2.2.2.2.2.2.1, ⟨ir, p0.1.trans hi.2.2.2.2.2.2.2.2.2.2.1, p0.2.1.trans hi.2.2.2.2.2.2.2.2.2.2.2.1, qr⟩⟩
        · intro path
          cases path with
          | nil => simp [kvad_node.descend, kvad_node.level?, kvad_node.rect?, kvad_node.is_leaf, hs, hs]
          | cons j rest =>
            match j with
            | 0 => simp [kvad_node.descend]
            | 1 => simp [kvad_node.descend]
            | 2 => simp [kvad_node.descend]
            | 3 => simpa [kvad_node.descend] using pr rest
            | _ + 4 => simp [kvad_node.descend]
        · rw [hmatch]; exact cr
        · rw [hmatch]
          simp only [kvad_node.entries, hs, hs, Bool.false_eq_true, if_false, ← Multiset.coe_add,
            ← mr]
          abel
        · intro hc0
          rw [zr hc0]

/-- A larger depth budget does not change what `_kvad_node_insert` returns. -/
theorem insert_fuel_mono (tree : kvad_tree) (fuel : Nat) :
    ∀ n point payload r, _kvad_node_insert fuel tree n point payload = some r →
      _kvad_node_insert (fuel + 1) tree n point payload = some r := by
  induction fuel with
  | zero => intro n point payload r h; simp [_kvad_node_insert] at h
  | succ fuel ih =>
    intro n point payload r h
    cases n with
    | NULL => simp [_kvad_node_insert] at h
    | node level rect s0 s1 s2 s3 data dc =>
      have hfold : ∀ (l : List kvad_data) (m r : kvad_node),
          l.foldlM (fun node d => _kvad_node_insert fuel tree node d.point d.payload) m = some r →
          l.foldlM (fun node d => _kvad_node_insert (fuel + 1) tree node d.point d.payload) m
            = some r := by
        intro l
        induction l with
        | nil => intro m r hm; simpa using hm
        | cons d l ihl =>
          intro m r hm
          simp only [List.foldlM_cons, Option.bind_eq_bind] at hm ⊢
          obtain ⟨m1, e1, e2⟩ := Option.bind_eq_some.1 hm
          rw [ih m d.point d.payload m1 e1]
          exact ihl m1 r e2
      rw [_kvad_node_insert] at h ⊢
      by_cases hc : _kvad_rect_contains_point rect point = true
      swap
      · simpa [hc] using h
      by_cases hs : s0.is_null = true
      · by_cases hsplit : level < tree.max_levels ∧ (dc + 1) % UINT_RANGE > tree.max_points_per_node
        · simp only [hc, hs, hsplit, Bool.not_true, Bool.false_eq_true, if_false, if_true,
            and_self] at h ⊢
          exact hfold _ _ _ h
        · simpa only [hc, hs, hsplit, Bool.not_true, Bool.false_eq_true, if_false] using h
      · simp only [Bool.not_eq_true] at hs
        have hq4 := quadrant_lt rect point
        have hq : kvad_quadrant rect point = 0 ∨ kvad_quadrant rect point = 1 ∨
            kvad_quadrant rect point = 2 ∨ kvad_quadrant rect point = 3 := by omega
        rcases hq with hq | hq | hq | hq <;>
        · simp only [hc, hs, hq, Bool.not_true, Bool.not_false, Bool.false_eq_true, if_false,
            if_true, Option.bind_eq_bind, Option.pure_def] at h ⊢
          obtain ⟨r1, e1, e2⟩ := Option.bind_eq_some.1 h
          rw [ih _ point payload r1 e1]
          exact e2
/-- Any depth budget above one that gives a result gives the same result. -/
theorem insert_fuel_le (tree : kvad_tree) (fuel extra : Nat) (n : kvad_node)
    (point : kvad_point) (payload : Nat) (r : kvad_node)
    (h : _kvad_node_insert fuel tree n point payload = some r) :
    _kvad_node_insert (fuel + extra) tree n point payload = some r := by
  induction extra with
  | zero => exact h
  | succ k ih => exact insert_fuel_mono tree (fuel + k) n point payload r ih

/-! ## Reachable trees -/

theorem node_inv_congr {t1 t2 : kvad_tree} (hl : t1.max_levels = t2.max_levels)
    (hp : t1.max_points_per_node = t2.max_points_per_node) (n : kvad_node) :
    node_inv t1 n → node_inv t2 n := by
  induction n with
  | NULL => intro h; simp [node_inv] at h
  | node level rect s0 s1 s2 s3 data dc ih0 ih1 ih2 ih3 =>
    intro h
    by_cases hs : s0.is_null = true
    · rw [node_inv_leaf_iff hs] at h ⊢
      rw [← hl, ← hp]
      exact h
    · simp only [Bool.not_eq_true] at hs
      rw [node_inv_internal_iff hs] at h ⊢
      rw [← hl]
      obtain ⟨a, b, c, d, e, f, ⟨g0, x0⟩, ⟨g1, x1⟩, ⟨g2, x2⟩, ⟨g3, x3⟩⟩ := h
      exact ⟨a, b, c, d, e, f, ⟨ih0 g0, x0⟩, ⟨ih1 g1, x1⟩, ⟨ih2 g2, x2⟩, ⟨ih3 g3, x3⟩⟩

/-- Insert on a tree that satisfies the tree invariant returns, keeps the limits
and the invariant, and relates the roots by `insert_post`. -/
theorem tree_insert_spec {tree : kvad_tree} (h : tree_inv tree) (x y : ℚ) (payload : Nat) :
    ∃ tree1, kvad_tree_insert tree x y payload = some tree1 ∧
      tree1.max_levels = tree.max_levels ∧
      tree1.max_points_per_node = tree.max_points_per_node ∧ tree_inv tree1 ∧
      insert_post tree tree.root_node ⟨x, y⟩ payload tree1.root_node := by
  obtain ⟨hml, hmp, hl0, hn⟩ := h
  have hd : kvad_insert_depth tree tree.root_node ≤ kvad_tree_insert_fuel tree := by
    have := @insert_depth_of_level tree _ _ hl0
    simp only [kvad_tree_insert_fuel]
    omega
  obtain ⟨r, er, pr⟩ := insert_spec tree hml _ tree.root_node ⟨x, y⟩ payload hn hd
  refine ⟨{ tree with root_node := r }, by simp [kvad_tree_insert, er], rfl, rfl, ?_, pr⟩
  exact ⟨hml, hmp, pr.2.1.trans hl0, @node_inv_congr tree { tree with root_node := r } rfl rfl r pr.1⟩

/-- RemovePayload on a tree that satisfies the tree invariant returns, keeps the
limits and the invariant, and relates the roots by `remove_post`. -/
theorem tree_remove_spec {tree : kvad_tree} (h : tree_inv tree) (x y : ℚ) (payload : Nat) :
    ∃ tree1 c, kvad_tree_remove_payload tree x y payload = some (tree1, c) ∧
      tree1.max_levels = tree.max_levels ∧
      tree1.max_points_per_node = tree.max_points_per_node ∧ tree_inv tree1 ∧
      remove_post tree tree.root_node ⟨x, y⟩ payload tree1.root_node c := by
  obtain ⟨hml, hmp, hl0, hn⟩ := h
  obtain ⟨r, c, er, pr⟩ := remove_spec tree ⟨x, y⟩ payload tree.root_node hn
  refine ⟨{ tree with root_node := r }, c, by simp [kvad_tree_remove_payload, er], rfl, rfl, ?_, pr⟩
  have p0 := pr.2.1 []
  simp only [descend_nil] at p0
  exact ⟨hml, hmp, p0.1.trans hl0, @node_inv_congr tree { tree with root_node := r } rfl rfl r pr.1⟩

theorem tree_inv_create (x y width height : ℚ) (max_levels max_points_per_node : Nat)
    (hw : 0 < width) (hh : 0 < height) (hml : max_levels < UINT_RANGE)
    (hmp : max_points_per_node < UINT_RANGE) :
    tree_inv (kvad_tree_create x y width height max_levels max_points_per_node) := by
  refine ⟨hml, ?_, rfl, ?_⟩
  · simp only [kvad_tree_create]
    split_ifs
    · simp [UINT_RANGE]
    · exact hmp
  · exact node_inv_create _ _ _ (le_of_lt hw) (le_of_lt hh) (Nat.zero_le _)

/-- Every reachable tree satisfies the tree invariant. -/
theorem reachable_inv {tree : kvad_tree} (h : Reachable tree) : tree_inv tree := by
  induction h with
  | create x y width height max_levels max_points_per_node hw hh hml hmp =>
    exact tree_inv_create x y width height max_levels max_points_per_node hw hh hml hmp
  | insert tree tree1 x y payload _ e ih =>
    obtain ⟨t, et, _, _, it, _⟩ := tree_insert_spec ih x y payload
    rw [e] at et
    cases et
    exact it
  | remove_payload tree tree1 x y payload count _ e ih =>
    obtain ⟨t, c, et, _, _, it, _⟩ := tree_remove_spec ih x y payload
    rw [e] at et
    cases et
    exact it

theorem tree_walk_eq {σ : Type} {tree : kvad_tree} (h : tree_inv tree)
    (callback : Option (kvad_callback σ)) (context : σ) :
    kvad_tree_walk tree callback context
      = some (tree.root_node.entries.length,
          tree.root_node.entries.foldl (fun c d => kvad_invoke callback d c) context) :=
  walk_eq tree callback tree.root_node h.2.2.2 context

theorem tree_walk_record {tree : kvad_tree} (h : tree_inv tree) :
    kvad_tree_walk tree (some kvad_record) []
      = some (tree.root_node.entries.length, tree.root_node.entries.map kvad_data.triple) := by
  rw [tree_walk_eq h, invoke_record_foldl]
  simp

theorem tree_find_record {tree : kvad_tree} (h : tree_inv tree) (x y width height : ℚ) :
    kvad_tree_find tree x y width height (some kvad_record) []
      = some ((tree.root_node.entries.filter (fun d =>
            _kvad_rect_contains_point ⟨⟨x, y⟩, ⟨width, height⟩⟩ d.point)).length,
          (tree.root_node.entries.filter (fun d =>
            _kvad_rect_contains_point ⟨⟨x, y⟩, ⟨width, height⟩⟩ d.point)).map kvad_data.triple) := by
  rw [kvad_tree_find, find_eq tree _ _ _ h.2.2.2, invoke_record_foldl]
  simp

theorem filter_map_triple (x y width height : ℚ) (l : List kvad_data) :
    (l.filter (fun d => _kvad_rect_contains_point ⟨⟨x, y⟩, ⟨width, height⟩⟩ d.point)).map
        kvad_data.triple
      = (l.map kvad_data.triple).filter (fun e => kvad_in_query x y width height e) := by
  induction l with
  | nil => rfl
  | cons d l ih =>
    by_cases hd : _kvad_rect_contains_point ⟨⟨x, y⟩, ⟨width, height⟩⟩ d.point = true
    · have : kvad_in_query x y width height d.triple = true := hd
      simp [hd, this, ih]
    · have : ¬ kvad_in_query x y width height d.triple = true := hd
      simp [hd, this, ih]

theorem triple_injective : Function.Injective kvad_data.triple := by
  intro a b h
  cases a with
  | mk pa qa =>
    cases b with
    | mk pb qb =>
      cases pa
      cases pb
      simp only [kvad_data.triple, Prod.mk.injEq] at h
      obtain ⟨h1, h2, h3⟩ := h
      subst h1 h2 h3
      rfl

theorem in_bounds_of_rect_eq {t1 t2 : kvad_tree} (h : t1.root_node.rect? = t2.root_node.rect?)
    (x y : ℚ) : kvad_tree_in_bounds t1 x y = kvad_tree_in_bounds t2 x y :=
  contains_of_rect_eq h ⟨x, y⟩

/-- A run of in-bounds inserts returns and adds exactly its cells. -/
theorem tree_insert_all_spec (l : List (ℚ × ℚ × Nat)) :
    ∀ tree, tree_inv tree → (∀ e ∈ l, kvad_tree_in_bounds tree e.1 e.2.1 = true) →
      ∃ tree1, kvad_tree_insert_all tree l = some tree1 ∧ tree_inv tree1 ∧
        tree1.max_levels = tree.max_levels ∧
        tree1.max_points_per_node = tree.max_points_per_node ∧
        tree1.root_node.rect? = tree.root_node.rect? ∧
        (tree1.root_node.entries.map kvad_data.triple : Multiset (ℚ × ℚ × Nat))
          = (l : Multiset (ℚ × ℚ × Nat))
            + (tree.root_node.entries.map kvad_data.triple : Multiset (ℚ × ℚ × Nat)) := by
  induction l with
  | nil =>
    intro tree hi _
    exact ⟨tree, rfl, hi, rfl, rfl, rfl, by simp⟩
  | cons e l ih =>
    intro tree hi hb
    obtain ⟨t1, e1, ml1, mp1, i1, _, _, r1, _, m1, _⟩ := tree_insert_spec hi e.1 e.2.1 e.2.2
    have hb1 : ∀ a ∈ l, kvad_tree_in_bounds t1 a.1 a.2.1 = true := by
      intro a ha
      rw [in_bounds_of_rect_eq r1]
      exact hb a (List.mem_cons_of_mem _ ha)
    obtain ⟨t2, e2, i2, ml2, mp2, r2, m2⟩ := ih t1 i1 hb1
    refine ⟨t2, ?_, i2, ml2.trans ml1, mp2.trans mp1, r2.trans r1, ?_⟩
    · simp only [kvad_tree_insert_all, List.foldlM_cons, e1]
      exact e2
    · have hbe : tree.root_node.contains ⟨e.1, e.2.1⟩ = true := hb e (List.mem_cons_self _ _)
      rw [hbe] at m1
      simp only [if_true] at m1
      rw [m2, ← Multiset.map_coe, ← Multiset.map_coe, m1, Multiset.map_add, Multiset.map_singleton]
      simp only [kvad_data.triple, Prod.mk.eta, ← Multiset.cons_coe, ← Multiset.singleton_add]
      abel

/-- Under the invariant every stored copy of a cell sits in the leaf that quadrant
selection reaches for its point. -/
theorem count_leaf_at {tree : kvad_tree} (d : kvad_data) (n : kvad_node) :
    node_inv tree n → List.count d n.entries = List.count d (n.leaf_at d.point).entries := by
  induction n with
  | NULL => intro h; simp [node_inv] at h
  | node level rect s0 s1 s2 s3 data dc ih0 ih1 ih2 ih3 =>
    intro hn
    by_cases hs : s0.is_null = true
    · simp [kvad_node.leaf_at, hs]
    · simp only [Bool.not_eq_true] at hs
      have hi := node_inv_internal hn hs
      have hq4 := quadrant_lt rect d.point
      have hq : kvad_quadrant rect d.point = 0 ∨ kvad_quadrant rect d.point = 1 ∨
          kvad_quadrant rect d.point = 2 ∨ kvad_quadrant rect d.point = 3 := by omega
      rcases hq with hq | hq | hq | hq
      · simp only [kvad_node.entries, kvad_node.leaf_at, hs, hq, Bool.false_eq_true, if_false,
          List.count_append]
        have z1 : List.count d s1.entries = 0 := by
          rw [List.count_eq_zero]
          intro hd
          have := hi.2.2.2.2.2.2.2.1.2.2.2 d hd
          omega
        have z2 : List.count d s2.entries = 0 := by
          rw [List.count_eq_zero]
          intro hd
          have := hi.2.2.2.2.2.2.2.2.1.2.2.2 d hd
          omega
        have z3 : List.count d s3.entries = 0 := by
          rw [List.count_eq_zero]
          intro hd
          have := hi.2.2.2.2.2.2.2.2.2.2.2.2 d hd
          omega
        rw [z1, z2, z3, ← ih0 hi.2.2.2.2.2.2.1.1]
        omega
      · simp only [kvad_node.entries, kvad_node.leaf_at, hs, hq, Bool.false_eq_true, if_false,
          List.count_append]
        have z0 : List.count d s0.entries = 0 := by
          rw [List.count_eq_zero]
          intro hd
          have := hi.2.2.2.2.2.2.1.2.2.2 d hd
          omega
        have z2 : List.count d s2.entries = 0 := by
          rw [List.count_eq_zero]
          intro hd
          have := hi.2.2.2.2.2.2.2.2.1.2.2.2 d hd
          omega
        have z3 : List.count d s3.entries = 0 := by
          rw [List.count_eq_zero]
          intro hd
          have := hi.2.2.2.2.2.2.2.2.2.2.2.2 d hd
          omega
        rw [z0, z2, z3, ← ih1 hi.2.2.2.2.2.2.2.1.1]
        omega
      · simp only [kvad_node.entries, kvad_node.leaf_at, hs, hq, Bool.false_eq_true, if_false,
          List.count_append]
        have z0 : List.count d s0.entries = 0 := by
          rw [List.count_eq_zero]
          intro hd
          have := hi.2.2.2.2.2.2.1.2.2.2 d hd
          omega
        have z1 : List.count d s1.entries = 0 := by
          rw [List.count_eq_zero]
          intro hd
          have := hi.2.2.2.2.2.2.2.1.2.2.2 d hd
          omega
        have z3 : List.count d s3.entries = 0 := by
          rw [List.count_eq_zero]
          intro hd
          have := hi.2.2.2.2.2.2.2.2.2.2.2.2 d hd
          omega
        rw [z0, z1, z3, ← ih2 hi.2.2.2.2.2.2.2.2.1.1]
        omega
      · simp only [kvad_node.entries, kvad_node.leaf_at, hs, hq, Bool.false_eq_true, if_false,
          List.count_append]
        have z0 : List.count d s0.entries = 0 := by
          rw [List.count_eq_zero]
          intro hd
          have := hi.2.2.2.2.2.2.1.2.2.2 d hd
          omega
        have z1 : List.count d s1.entries = 0 := by
          rw [List.count_eq_zero]
          intro hd
          have := hi.2.2.2.2.2.2.2.1.2.2.2 d hd
          omega
        have z2 : List.count d s2.entries = 0 := by
          rw [List.count_eq_zero]
          intro hd
          have := hi.2.2.2.2.2.2.2.2.1.2.2.2 d hd
          omega
        rw [z0, z1, z2, ← ih3 hi.2.2.2.2.2.2.2.2.2.1]
        omega

/-- The cells of the selected leaf are stored cells. -/
theorem count_leaf_at_le (d : kvad_data) (point : kvad_point) (n : kvad_node) :
    List.count d (n.leaf_at point).entries ≤ List.count d n.entries := by
  induction n with
  | NULL => simp [kvad_node.leaf_at]
  | node level rect s0 s1 s2 s3 data dc ih0 ih1 ih2 ih3 =>
    by_cases hs : s0.is_null = true
    · simp [kvad_node.leaf_at, hs]
    · simp only [Bool.not_eq_true] at hs
      have hq4 := quadrant_lt rect point
      have hq : kvad_quadrant rect point = 0 ∨ kvad_quadrant rect point = 1 ∨
          kvad_quadrant rect point = 2 ∨ kvad_quadrant rect point = 3 := by omega
      rcases hq with hq | hq | hq | hq
      · simp only [kvad_node.entries, kvad_node.leaf_at, hs, hq, Bool.false_eq_true, if_false,
          List.count_append]
        have := ih0
        omega
      · simp only [kvad_node.entries, kvad_node.leaf_at, hs, hq, Bool.false_eq_true, if_false,
          List.count_append]
        have := ih1
        omega
      · simp only [kvad_node.entries, kvad_node.leaf_at, hs, hq, Bool.false_eq_true, if_false,
          List.count_append]
        have := ih2
        omega
      · simp only [kvad_node.entries, kvad_node.leaf_at, hs, hq, Bool.false_eq_true, if_false,
          List.count_append]
        have := ih3
        omega

theorem mem_matching {n : kvad_node} {point : kvad_point} {payload : Nat} {d : kvad_data}
    (h : d ∈ n.matching point payload) : d.payload = payload ∧ d ∈ n.entries := by
  simp only [kvad_node.matching, List.mem_filter, decide_eq_true_eq] at h
  refine ⟨h.2, ?_⟩
  have h1 := List.count_pos_iff.2 h.1
  have h2 := count_leaf_at_le d point n
  exact List.count_pos_iff.1 (by omega)

/-- How often a cell is stored before and after a removal. -/
theorem remove_post_count {tree : kvad_tree} {n r : kvad_node} {point : kvad_point}
    {payload c : Nat} (h : remove_post tree n point payload r c) (d : kvad_data) :
    List.count d r.entries + List.count d (n.matching point payload) = List.count d n.entries := by
  have := congrArg (Multiset.count d) h.2.2.2.1
  simpa [Multiset.count_add, Multiset.coe_count] using this

theorem mem_map_triple {x y : ℚ} {payload : Nat} {l : List kvad_data}
    (h : (x, y, payload) ∈ l.map kvad_data.triple) : (⟨⟨x, y⟩, payload⟩ : kvad_data) ∈ l := by
  obtain ⟨d, hd, e⟩ := List.mem_map.1 h
  have : d = ⟨⟨x, y⟩, payload⟩ := triple_injective (by rw [e]; rfl)
  rw [← this]
  exact hd

/-- After a removal at `point` no stored cell has both that point and the payload,
and the count returned is the number of cells of the selected leaf that carry the
payload, which is at least the number of stored copies of the cell. -/
theorem remove_post_clears {tree : kvad_tree} {n r : kvad_node} {point : kvad_point}
    {payload c : Nat} (hn : node_inv tree n) (h : remove_post tree n point payload r c) :
    (⟨point, payload⟩ : kvad_data) ∉ r.entries ∧
      List.count (⟨point, payload⟩ : kvad_data) n.entries ≤ c ∧
      List.count (⟨point, payload⟩ : kvad_data) n.entries
        = List.count (⟨point, payload⟩ : kvad_data) (n.matching point payload) := by
  have h1 := remove_post_count h ⟨point, payload⟩
  have h2 : List.count (⟨point, payload⟩ : kvad_data) (n.matching point payload)
      = List.count (⟨point, payload⟩ : kvad_data) n.entries := by
    rw [kvad_node.matching, List.count_filter (by simp), count_leaf_at _ n hn]
  refine ⟨?_, ?_, h2.symm⟩
  · rw [← List.count_eq_zero]
    omega
  · rw [h.2.2.1, ← h2]
    exact List.count_le_length _ _

/-- The triples Walk reports before and after a removal: those of the cells that
stay plus those of the removed cells. -/
theorem remove_post_triples {tree : kvad_tree} {n r : kvad_node} {point : kvad_point}
    {payload c : Nat} (h : remove_post tree n point payload r c) :
    ((r.entries.map kvad_data.triple : List (ℚ × ℚ × Nat)) : Multiset (ℚ × ℚ × Nat))
      + (((n.matching point payload).map kvad_data.triple : List (ℚ × ℚ × Nat)) :
          Multiset (ℚ × ℚ × Nat))
      = ((n.entries.map kvad_data.triple : List (ℚ × ℚ × Nat)) : Multiset (ℚ × ℚ × Nat)) := by
  rw [← Multiset.map_coe, ← Multiset.map_coe, ← Multiset.map_coe, ← Multiset.map_add, h.2.2.2.1]

/-- A stored cell with another payload is still stored after a removal. -/
theorem remove_post_keeps {tree : kvad_tree} {n r : kvad_node} {point : kvad_point}
    {payload c : Nat} (h : remove_post tree n point payload r c) {d : kvad_data}
    (hd : d ∈ n.entries) (hp : d.payload ≠ payload) : d ∈ r.entries := by
  have h1 := remove_post_count h d
  have h2 : List.count d (n.matching point payload) = 0 := by
    rw [List.count_eq_zero]
    exact fun hm => hp (mem_matching hm).1
  have h3 := List.count_pos_iff.2 hd
  exact List.count_pos_iff.1 (by omega)

theorem mem_find_record {tree : kvad_tree} (h : tree_inv tree) {d : kvad_data}
    (hd : d ∈ tree.root_node.entries) (qx qy width height : ℚ)
    (hq : kvad_in_query qx qy width height d.triple = true) :
    ∃ n found, kvad_tree_find tree qx qy width height (some kvad_record) [] = some (n, found) ∧
      d.triple ∈ found := by
  refine ⟨_, _, tree_find_record h qx qy width height, ?_⟩
  exact List.mem_map_of_mem _ (List.mem_filter.2 ⟨hd, hq⟩)

/-! ## Levels and last-level leaves -/

/-- Every node below a node that satisfies the invariant satisfies it. -/
theorem node_inv_descend {tree : kvad_tree} (n : kvad_node) :
    node_inv tree n → ∀ path, n.descend path = .NULL ∨ node_inv tree (n.descend path) := by
  induction n with
  | NULL => intro h; simp [node_inv] at h
  | node level rect s0 s1 s2 s3 data dc ih0 ih1 ih2 ih3 =>
    intro hn path
    cases path with
    | nil => exact Or.inr (by simpa [kvad_node.descend] using hn)
    | cons i rest =>
      by_cases hs : s0.is_null = true
      · obtain ⟨_, _, _, e1, e2, e3, _⟩ := node_inv_leaf hn hs
        have e0 := (is_null_iff s0).1 hs
        subst e0 e1 e2 e3
        left
        match i with
        | 0 | 1 | 2 | 3 | _ + 4 => simp [kvad_node.descend, descend_NULL]
      · simp only [Bool.not_eq_true] at hs
        have hi := node_inv_internal hn hs
        match i with
        | 0 => simpa [kvad_node.descend] using ih0 hi.2.2.2.2.2.2.1.1 rest
        | 1 => simpa [kvad_node.descend] using ih1 hi.2.2.2.2.2.2.2.1.1 rest
        | 2 => simpa [kvad_node.descend] using ih2 hi.2.2.2.2.2.2.2.2.1.1 rest
        | 3 => simpa [kvad_node.descend] using ih3 hi.2.2.2.2.2.2.2.2.2.1 rest
        | _ + 4 => simp [kvad_node.descend]

theorem node_inv_level_le {tree : kvad_tree} {n : kvad_node} (h : node_inv tree n) {level : Nat}
    (hl : n.level? = some level) : level ≤ tree.max_levels := by
  cases n with
  | NULL => simp [node_inv] at h
  | node l rect s0 s1 s2 s3 data dc =>
    simp only [kvad_node.level?, Option.some.injEq] at hl
    subst hl
    rw [node_inv] at h
    exact h.2.2.1

theorem is_last_level_leaf_congr {t1 t2 : kvad_tree} (h : t1.max_levels = t2.max_levels)
    (n : kvad_node) : n.is_last_level_leaf t1 = n.is_last_level_leaf t2 := by
  simp [kvad_node.is_last_level_leaf, h]

/-- A run of inserts, in bounds or not, returns and keeps every last-level leaf a
last-level leaf at its place. -/
theorem tree_insert_all_last_level (l : List (ℚ × ℚ × Nat)) :
    ∀ tree, tree_inv tree →
      ∃ treeN, kvad_tree_insert_all tree l = some treeN ∧ tree_inv treeN ∧
        treeN.max_levels = tree.max_levels ∧
        ∀ path, (tree.root_node.descend path).is_last_level_leaf tree = true →
          (treeN.root_node.descend path).is_last_level_leaf treeN = true := by
  induction l with
  | nil =>
    intro tree hi
    exact ⟨tree, rfl, hi, rfl, fun _ hp => hp⟩
  | cons e l ih =>
    intro tree hi
    obtain ⟨t1, e1, ml1, _, i1, _, _, _, _, _, p1⟩ := tree_insert_spec hi e.1 e.2.1 e.2.2
    obtain ⟨t2, e2, i2, ml2, p2⟩ := ih t1 i1
    refine ⟨t2, ?_, i2, ml2.trans ml1, ?_⟩
    · simp only [kvad_tree_insert_all, List.foldlM_cons, e1]
      exact e2
    · intro path hp
      apply p2 path
      rw [is_last_level_leaf_congr ml1]
      exact p1 path hp

/-! ## Order of the cells -/

/-- An insert that does not split the leaf it reaches puts the new cell at the head
of the list of that leaf. -/
theorem insert_no_split (tree : kvad_tree) (point : kvad_point) (payload : Nat) (level : Nat)
    (rc : kvad_rect) (data : List kvad_data) (dc : Nat)
    (hns : ¬ (level < tree.max_levels ∧ (dc + 1) % UINT_RANGE > tree.max_points_per_node))
    (n : kvad_node) :
    node_inv tree n → n.contains point = true →
      n.leaf_at point = .node level rc .NULL .NULL .NULL .NULL data dc →
      ∀ fuel r, _kvad_node_insert fuel tree n point payload = some r →
        r.leaf_at point = .node level rc .NULL .NULL .NULL .NULL (⟨point, payload⟩ :: data)
          ((dc + 1) % UINT_RANGE) := by
  induction n with
  | NULL => intro h; simp [node_inv] at h
  | node lv rect s0 s1 s2 s3 dt cnt ih0 ih1 ih2 ih3 =>
    intro hn hc hleaf fuel r hr
    simp only [kvad_node.contains] at hc
    cases fuel with
    | zero => simp [_kvad_node_insert] at hr
    | succ fuel =>
      by_cases hs : s0.is_null = true
      · simp only [kvad_node.leaf_at, hs, if_true, kvad_node.node.injEq] at hleaf
        obtain ⟨rfl, rfl, rfl, rfl, rfl, rfl, rfl, rfl⟩ := hleaf
        simp only [_kvad_node_insert, hc, hs, hns, Bool.not_true, Bool.false_eq_true, if_false,
          Option.some.injEq] at hr
        rw [← hr]
        simp [kvad_node.leaf_at, kvad_node.is_null]
      · simp only [Bool.not_eq_true] at hs
        have hi := node_inv_internal hn hs
        have hq4 := quadrant_lt rect point
        have hq : kvad_quadrant rect point = 0 ∨ kvad_quadrant rect point = 1 ∨
            kvad_quadrant rect point = 2 ∨ kvad_quadrant rect point = 3 := by omega
        rcases hq with hq | hq | hq | hq
        · simp only [kvad_node.leaf_at, hs, hq, Bool.false_eq_true, if_false] at hleaf
          have hsc : s0.contains point = true := by
            have := subnode_rect_contains hc
            rw [hq] at this
            have hr := hi.2.2.2.2.2.2.1.2.2.1
            cases s0 with
            | NULL => simp [kvad_node.rect?] at hr
            | node =>
              simp only [kvad_node.rect?, Option.some.injEq] at hr
              simpa [kvad_node.contains, hr] using this
          simp only [_kvad_node_insert, hc, hs, hq, Bool.not_true, Bool.not_false,
            Bool.false_eq_true, if_false, if_true, Option.bind_eq_bind, Option.pure_def] at hr
          obtain ⟨r1, e1, e2⟩ := Option.bind_eq_some.1 hr
          simp only [Option.some.injEq] at e2
          subst e2
          have := ih0 hi.2.2.2.2.2.2.1.1 hsc hleaf fuel r1 e1
          have hrn : r1.is_null = false := by
            cases r1 with
            | NULL => simp [kvad_node.leaf_at] at this
            | node => rfl
          simp only [kvad_node.leaf_at, hrn, hq, Bool.false_eq_true, if_false]
          exact this
        · simp only [kvad_node.leaf_at, hs, hq, Bool.false_eq_true, if_false] at hleaf
          have hsc : s1.contains point = true := by
            have := subnode_rect_contains hc
            rw [hq] at this
            have hr := hi.2.2.2.2.2.2.2.1.2.2.1
            cases s1 with
            | NULL => simp [kvad_node.rect?] at hr
            | node =>
              simp only [kvad_node.rect?, Option.some.injEq] at hr
              simpa [kvad_node.contains, hr] using this
          simp only [_kvad_node_insert, hc, hs, hq, Bool.not_true, Bool.not_false,
            Bool.false_eq_true, if_false, if_true, Option.bind_eq_bind, Option.pure_def] at hr
          obtain ⟨r1, e1, e2⟩ := Option.bind_eq_some.1 hr
          simp only [Option.some.injEq] at e2
          subst e2
          have := ih1 hi.2.2.2.2.2.2.2.1.1 hsc hleaf fuel r1 e1
          simp only [kvad_node.leaf_at, hs, hq, Bool.false_eq_true, if_false]
          exact this
        · simp only [kvad_node.leaf_at, hs, hq, Bool.false_eq_true, if_false] at hleaf
          have hsc : s2.contains point = true := by
            have := subnode_rect_contains hc
            rw [hq] at this
            have hr := hi.2.2.2.2.2.2.2.2.1.2.2.1
            cases s2 with
            | NULL => simp [kvad_node.rect?] at hr
            | node =>
              simp only [kvad_node.rect?, Option.some.injEq] at hr
              simpa [kvad_node.contains, hr] using this
          simp only [_kvad_node_insert, hc, hs, hq, Bool.not_true, Bool.not_false,
            Bool.false_eq_true, if_false, if_true, Option.bind_eq_bind, Option.pure_def] at hr
          obtain ⟨r1, e1, e2⟩ := Option.bind_eq_some.1 hr
          simp only [Option.some.injEq] at e2
          subst e2
          have := ih2 hi.2.2.2.2.2.2.2.2.1.1 hsc hleaf fuel r1 e1
          simp only [kvad_node.leaf_at, hs, hq, Bool.false_eq_true, if_false]
          exact this
        · simp only [kvad_node.leaf_at, hs, hq, Bool.false_eq_true, if_false] at hleaf
          have hsc : s3.contains point = true := by
            have := subnode_rect_contains hc
            rw [hq] at this
            have hr := hi.2.2.2.2.2.2.2.2.2.2.2.1
            cases s3 with
            | NULL => simp [kvad_node.rect?] at hr
            | node =>
              simp only [kvad_node.rect?, Option.some.injEq] at hr
              simpa [kvad_node.contains, hr] using this
          simp only [_kvad_node_insert, hc, hs, hq, Bool.not_true, Bool.not_false,
            Bool.false_eq_true, if_false, if_true, Option.bind_eq_bind, Option.pure_def] at hr
          obtain ⟨r1, e1, e2⟩ := Option.bind_eq_some.1 hr
          simp only [Option.some.injEq] at e2
          subst e2
          have := ih3 hi.2.2.2.2.2.2.2.2.2.1 hsc hleaf fuel r1 e1
          simp only [kvad_node.leaf_at, hs, hq, Bool.false_eq_true, if_false]
          exact this

/-- A leaf that is still a leaf after an insert has the new cell, when it passed
the bounds test, at the head of its list and nothing else changed in the list. -/
theorem insert_leaf_stays_leaf (tree : kvad_tree) (hml : tree.max_levels < UINT_RANGE)
    (fuel : Nat) (n : kvad_node) (point : kvad_point) (payload : Nat) (hn : node_inv tree n)
    (hl : n.is_leaf = true) (hf : kvad_insert_depth tree n ≤ fuel) (r : kvad_node)
    (hr : _kvad_node_insert fuel tree n point payload = some r) (hrl : r.is_leaf = true) :
    r.entries = (if n.contains point then [⟨point, payload⟩] else []) ++ n.entries := by
  cases n with
  | NULL => simp [node_inv] at hn
  | node level rect s0 s1 s2 s3 data dc =>
    have hs : s0.is_null = true := hl
    obtain ⟨hw, hh, _, e1, e2, e3, hdc, hin, _⟩ := node_inv_leaf hn hs
    have e0 := (is_null_iff s0).1 hs
    subst e0 e1 e2 e3
    cases fuel with
    | zero => simp [_kvad_node_insert] at hr
    | succ fuel =>
      by_cases hc : _kvad_rect_contains_point rect point = true
      swap
      · simp only [_kvad_node_insert, hc, Bool.not_false, if_true, Option.some.injEq] at hr
        rw [← hr]
        simp [kvad_node.contains, hc]
      by_cases hsplit : level < tree.max_levels ∧ (dc + 1) % UINT_RANGE > tree.max_points_per_node
      · exfalso
        have hlv : (level + 1) % UINT_RANGE = level + 1 := Nat.mod_eq_of_lt (by omega)
        have hinv := node_inv_split tree level rect hw hh hsplit.1
        have hin1 : ∀ d ∈ ({ point := point, payload := payload } :: data : List kvad_data),
            _kvad_rect_contains_point rect d.point = true := by
          intro d hd
          rcases List.mem_cons.1 hd with h | h
          · rw [h]; exact hc
          · exact hin d h
        have hdepth : kvad_insert_depth tree
            (.node level rect (_kvad_node_create (kvad_subnode_rect rect 0) (level + 1))
              (_kvad_node_create (kvad_subnode_rect rect 1) (level + 1))
              (_kvad_node_create (kvad_subnode_rect rect 2) (level + 1))
              (_kvad_node_create (kvad_subnode_rect rect 3) (level + 1)) [] 0) ≤ fuel := by
          simp [kvad_insert_depth, _kvad_node_create, kvad_node.is_null] at hf ⊢
          omega
        obtain ⟨r1, er, _, lr, _, fr, _⟩ := insert_fold tree fuel (insert_spec tree hml fuel)
          ({ point := point, payload := payload } :: data) _ hinv hdepth
          (by simpa [kvad_node.contains] using hin1)
        simp only [_kvad_node_insert, hc, hs, hsplit, hlv] at hr
        have hrr : r1 = r := by
          have := er.symm.trans (by simpa using hr)
          simpa using this
        subst hrr
        cases r1 with
        | NULL => simp [kvad_node.is_leaf] at hrl
        | node l2 rc2 t0 t1 t2 t3 d2 c2 =>
          simp only [kvad_node.is_leaf] at hrl
          simp only [kvad_node.level?, Option.some.injEq] at lr
          have hg : kvad_insert_depth tree
              (.node level rect (_kvad_node_create (kvad_subnode_rect rect 0) (level + 1))
                (_kvad_node_create (kvad_subnode_rect rect 1) (level + 1))
                (_kvad_node_create (kvad_subnode_rect rect 2) (level + 1))
                (_kvad_node_create (kvad_subnode_rect rect 3) (level + 1)) [] 0)
              = 2 * (tree.max_levels - level) := by
            simp [kvad_insert_depth, _kvad_node_create, kvad_node.is_null]
          have hr1 : kvad_insert_depth tree (.node l2 rc2 t0 t1 t2 t3 d2 c2)
              = 2 * (tree.max_levels - l2) + 1 := by
            simp [kvad_insert_depth, hrl]
          rw [hg, hr1, lr] at fr
          omega
      · have := insert_no_split tree point payload level rect data dc hsplit _ hn
          (by simpa [kvad_node.contains] using hc) (by simp [kvad_node.leaf_at, kvad_node.is_null])
          _ r hr
        cases r with
        | NULL => simp [kvad_node.is_leaf] at hrl
        | node l2 rc2 t0 t1 t2 t3 d2 c2 =>
          simp only [kvad_node.is_leaf] at hrl
          simp only [kvad_node.leaf_at, hrl, if_true, kvad_node.node.injEq] at this
          obtain ⟨_, _, _, _, _, _, hd2, _⟩ := this
          simp only [kvad_node.entries, hrl, hs, hd2, kvad_node.contains, hc, if_true,
            List.singleton_append]

/-- An internal node stays internal under Insert. -/
theorem insert_post_internal {tree : kvad_tree} {n r : kvad_node} {point : kvad_point}
    {payload : Nat} (h : insert_post tree n point payload r) (hn : n.is_leaf = false)
    (hnn : n.is_null = false) : r.is_leaf = false := by
  obtain ⟨ir, lr, _, fr, _⟩ := h
  cases n with
  | NULL => simp [kvad_node.is_null] at hnn
  | node level rect s0 s1 s2 s3 data dc =>
    cases r with
    | NULL => rfl
    | node l2 rc2 t0 t1 t2 t3 d2 c2 =>
      simp only [kvad_node.is_leaf] at hn ⊢
      simp only [kvad_node.level?, Option.some.injEq] at lr
      simp only [kvad_insert_depth, hn, lr, Bool.false_eq_true, if_false] at fr
      by_contra hc
      simp only [Bool.not_eq_false] at hc
      simp [hc] at fr

/-- The triple a cell is made from. -/
theorem triple_mk (e : ℚ × ℚ × Nat) : kvad_data.triple ⟨⟨e.1, e.2.1⟩, e.2.2⟩ = e := rfl

/-- While the root is a leaf, a run of inserts puts its in-bounds triples, the
newest first, ahead of the cells that were there. -/
theorem tree_insert_all_unsplit (l : List (ℚ × ℚ × Nat)) :
    ∀ tree, tree_inv tree → ∀ treeN, kvad_tree_insert_all tree l = some treeN →
      treeN.root_node.is_leaf = true →
      tree.root_node.is_leaf = true ∧
        treeN.root_node.entries.map kvad_data.triple
          = (l.filter (fun e => kvad_tree_in_bounds tree e.1 e.2.1)).reverse
            ++ tree.root_node.entries.map kvad_data.triple := by
  induction l with
  | nil =>
    intro tree _ treeN hN hleaf
    simp only [kvad_tree_insert_all, List.foldlM_nil, Option.pure_def, Option.some.injEq] at hN
    subst hN
    exact ⟨hleaf, by simp⟩
  | cons e l ih =>
    intro tree hi treeN hN hleaf
    obtain ⟨t1, e1, _, _, i1, pr⟩ := tree_insert_spec hi e.1 e.2.1 e.2.2
    simp only [kvad_tree_insert_all, List.foldlM_cons, e1, Option.bind_eq_bind,
      Option.some_bind] at hN
    obtain ⟨hl1, hent⟩ := ih t1 i1 treeN hN hleaf
    have hnn : tree.root_node.is_null = false := node_inv_not_null hi.2.2.2
    have hl0 : tree.root_node.is_leaf = true := by
      by_contra hc
      simp only [Bool.not_eq_true] at hc
      rw [insert_post_internal pr hc hnn] at hl1
      exact Bool.false_ne_true hl1
    have hd : kvad_insert_depth tree tree.root_node ≤ kvad_tree_insert_fuel tree := by
      have := @insert_depth_of_level tree _ _ hi.2.2.1
      simp only [kvad_tree_insert_fuel]
      omega
    have hr : _kvad_node_insert (kvad_tree_insert_fuel tree) tree tree.root_node ⟨e.1, e.2.1⟩ e.2.2
        = some t1.root_node := by
      simp only [kvad_tree_insert, Option.map_eq_some'] at e1
      obtain ⟨r, er, rfl⟩ := e1
      exact er
    have h1 := insert_leaf_stays_leaf tree hi.1 _ _ _ _ hi.2.2.2 hl0 hd _ hr hl1
    refine ⟨hl0, ?_⟩
    have hb : ∀ a : ℚ × ℚ × Nat, kvad_tree_in_bounds t1 a.1 a.2.1 = kvad_tree_in_bounds tree a.1 a.2.1 :=
      fun a => in_bounds_of_rect_eq pr.2.2.1 a.1 a.2.1
    rw [hent, h1]
    simp only [hb]
    by_cases hin : tree.root_node.contains ⟨e.1, e.2.1⟩ = true
    · have hin2 : kvad_tree_in_bounds tree e.1 e.2.1 = true := hin
      simp [hin, hin2, List.filter_cons, triple_mk]
    · have hin2 : ¬ kvad_tree_in_bounds tree e.1 e.2.1 = true := hin
      simp [hin, hin2, List.filter_cons]

theorem node_walk_record {tree : kvad_tree} {n : kvad_node} (h : node_inv tree n) :
    _kvad_node_walk (some kvad_record) n []
      = some ((n.entries.map kvad_data.triple).length, n.entries.map kvad_data.triple) := by
  rw [walk_eq tree _ n h, invoke_record_foldl]
  simp

theorem node_find_record {tree : kvad_tree} {n : kvad_node} (h : node_inv tree n)
    (x y width height : ℚ) :
    _kvad_node_find ⟨⟨x, y⟩, ⟨width, height⟩⟩ (some kvad_record) n []
      = some ((((n.entries.map kvad_data.triple).filter
            (fun e => kvad_in_query x y width height e))).length,
          (n.entries.map kvad_data.triple).filter (fun e => kvad_in_query x y width height e)) := by
  rw [find_eq tree _ _ n h, invoke_record_foldl, ← filter_map_triple]
  simp

/-! ## Insert does not look at payloads -/

theorem relabel_is_null (f : Nat → Nat) (n : kvad_node) : (n.relabel f).is_null = n.is_null := by
  cases n <;> rfl

/-- Renaming the payloads commutes with `_kvad_node_insert`. -/
theorem insert_relabel (f : Nat → Nat) (tree : kvad_tree) (fuel : Nat) :
    ∀ n point payload,
      _kvad_node_insert fuel tree (n.relabel f) point (f payload)
        = (_kvad_node_insert fuel tree n point payload).map (kvad_node.relabel f) := by
  induction fuel with
  | zero => intro n point payload; simp [_kvad_node_insert]
  | succ fuel ih =>
    intro n point payload
    cases n with
    | NULL => simp [_kvad_node_insert, kvad_node.relabel]
    | node level rect s0 s1 s2 s3 data dc =>
      have hfold : ∀ (l : List kvad_data) (m : kvad_node),
          (l.map (kvad_data.relabel f)).foldlM
              (fun node d => _kvad_node_insert fuel tree node d.point d.payload) (m.relabel f)
            = (l.foldlM (fun node d => _kvad_node_insert fuel tree node d.point d.payload) m).map
                (kvad_node.relabel f) := by
        intro l
        induction l with
        | nil => intro m; simp
        | cons d l ihl =>
          intro m
          simp only [List.map_cons, List.foldlM_cons, kvad_data.relabel, ih, Option.bind_eq_bind]
          cases _kvad_node_insert fuel tree m d.point d.payload with
          | none => simp
          | some r => simpa using ihl r
      simp only [kvad_node.relabel]
      by_cases hc : _kvad_rect_contains_point rect point = true
      swap
      · simp [_kvad_node_insert, hc, kvad_node.relabel]
      by_cases hs : s0.is_null = true
      · by_cases hsplit : level < tree.max_levels ∧ (dc + 1) % UINT_RANGE > tree.max_points_per_node
        · have hm := hfold ({ point := point, payload := payload } :: data)
            (.node level rect
              (_kvad_node_create (kvad_subnode_rect rect 0) ((level + 1) % UINT_RANGE))
              (_kvad_node_create (kvad_subnode_rect rect 1) ((level + 1) % UINT_RANGE))
              (_kvad_node_create (kvad_subnode_rect rect 2) ((level + 1) % UINT_RANGE))
              (_kvad_node_create (kvad_subnode_rect rect 3) ((level + 1) % UINT_RANGE)) [] 0)
          simp only [_kvad_node_insert, hc, hs, relabel_is_null, hsplit, Bool.not_true,
            Bool.false_eq_true, if_false, if_true, and_self]
          simpa [kvad_node.relabel, _kvad_node_create, kvad_data.relabel] using hm
        · simp only [_kvad_node_insert, hc, hs, relabel_is_null, hsplit, Bool.not_true,
            Bool.false_eq_true, if_false]
          simp [kvad_node.relabel, kvad_data.relabel]
      · simp only [Bool.not_eq_true] at hs
        have hq4 := quadrant_lt rect point
        have hq : kvad_quadrant rect point = 0 ∨ kvad_quadrant rect point = 1 ∨
            kvad_quadrant rect point = 2 ∨ kvad_quadrant rect point = 3 := by omega
        have hs2 : (s0.relabel f).is_null = false := by rw [relabel_is_null]; exact hs
        rcases hq with hq | hq | hq | hq
        · simp only [_kvad_node_insert, hc, hs2, hs, hq, Bool.not_true, Bool.not_false,
            Bool.false_eq_true, if_false, if_true, ih, Option.bind_eq_bind, Option.pure_def]
          cases _kvad_node_insert fuel tree s0 point payload <;> simp [kvad_node.relabel]
        · simp only [_kvad_node_insert, hc, hs2, hs, hq, Bool.not_true, Bool.not_false,
            Bool.false_eq_true, if_false, if_true, ih, Option.bind_eq_bind, Option.pure_def]
          cases _kvad_node_insert fuel tree s1 point payload <;> simp [kvad_node.relabel]
        · simp only [_kvad_node_insert, hc, hs2, hs, hq, Bool.not_true, Bool.not_false,
            Bool.false_eq_true, if_false, if_true, ih, Option.bind_eq_bind, Option.pure_def]
          cases _kvad_node_insert fuel tree s2 point payload <;> simp [kvad_node.relabel]
        · simp only [_kvad_node_insert, hc, hs2, hs, hq, Bool.not_true, Bool.not_false,
            Bool.false_eq_true, if_false, if_true, ih, Option.bind_eq_bind, Option.pure_def]
          cases _kvad_node_insert fuel tree s3 point payload <;> simp [kvad_node.relabel]

/-- Of its argument `tree`, `_kvad_node_insert` reads the two limits only. -/
theorem insert_tree_congr {t1 t2 : kvad_tree} (hl : t1.max_levels = t2.max_levels)
    (hp : t1.max_points_per_node = t2.max_points_per_node) (fuel : Nat) :
    ∀ n point payload,
      _kvad_node_insert fuel t1 n point payload = _kvad_node_insert fuel t2 n point payload := by
  induction fuel with
  | zero => intro n point payload; simp [_kvad_node_insert]
  | succ fuel ih =>
    intro n point payload
    cases n with
    | NULL => simp [_kvad_node_insert]
    | node level rect s0 s1 s2 s3 data dc =>
      simp only [_kvad_node_insert, ih, hl, hp]

/-- Renaming the payloads commutes with `kvad_tree_insert`. -/
theorem tree_insert_relabel (f : Nat → Nat) (max_levels max_points_per_node : Nat)
    (n : kvad_node) (x y : ℚ) (payload : Nat) (r : kvad_node)
    (h : kvad_tree_insert ⟨max_levels, max_points_per_node, n⟩ x y payload
      = some ⟨max_levels, max_points_per_node, r⟩) :
    kvad_tree_insert ⟨max_levels, max_points_per_node, n.relabel f⟩ x y (f payload)
      = some ⟨max_levels, max_points_per_node, r.relabel f⟩ := by
  simp only [kvad_tree_insert, kvad_tree_insert_fuel, Option.map_eq_some'] at h ⊢
  obtain ⟨r1, e1, e2⟩ := h
  simp only [kvad_tree.mk.injEq, true_and] at e2
  subst e2
  refine ⟨r1.relabel f, ?_, rfl⟩
  rw [@insert_tree_congr ⟨max_levels, max_points_per_node, n.relabel f⟩
    ⟨max_levels, max_points_per_node, n⟩ rfl rfl, insert_relabel, e1]
  rfl

/-! ## Evaluating the scenario -/

/-- At an internal node where quadrant selection gives 0 the removal goes on in
subnode 0. -/
theorem remove_at_subnode0 (level : Nat) (rect : kvad_rect) (l0 : Nat) (r0 : kvad_rect)
    (t0 t1 t2 t3 : kvad_node) (d0 : List kvad_data) (c0 : Nat) (s1 s2 s3 : kvad_node)
    (data : List kvad_data) (dc : Nat) (point : kvad_point) (payload : Nat)
    (hq : kvad_quadrant rect point = 0) :
    _kvad_node_remove_payload (.node level rect (.node l0 r0 t0 t1 t2 t3 d0 c0) s1 s2 s3 data dc)
        point payload
      = (_kvad_node_remove_payload (.node l0 r0 t0 t1 t2 t3 d0 c0) point payload).map
          (fun r => (.node level rect r.1 s1 s2 s3 data dc, r.2)) := by
  rw [_kvad_node_remove_payload]
  simp only [kvad_node.is_null, hq, Bool.not_false, if_true, Option.bind_eq_bind,
    Option.pure_def]
  cases _kvad_node_remove_payload (.node l0 r0 t0 t1 t2 t3 d0 c0) point payload <;> rfl

/-- The origin of a square is in its quadrant 0. -/
theorem scenario_quadrant (w : ℚ) (hw : 0 < w) :
    kvad_quadrant ⟨⟨0, 0⟩, ⟨w, w⟩⟩ ⟨0, 0⟩ = 0 := by
  have : ¬ (0 : ℚ) > 0 + w / 2 := by linarith
  simp only [kvad_quadrant, if_neg this]

/-! ## The sample trees are reachable -/

theorem sample_tree1_eq : kvad_tree_insert sample_tree0 1 1 7 = some sample_tree1 := by
  decide!

theorem sample_tree2_eq : kvad_tree_insert sample_tree1 2 2 7 = some sample_tree2 := by
  decide!

theorem sample_tree3_eq : kvad_tree_insert sample_tree2 3 3 8 = some sample_tree3 := by
  decide!

theorem sample_tree0_reachable : Reachable sample_tree0 :=
  Reachable.create 0 0 100 100 1 2 (by norm_num) (by norm_num) (by norm_num [UINT_RANGE])
    (by norm_num [UINT_RANGE])

theorem sample_tree2_reachable : Reachable sample_tree2 :=
  Reachable.insert sample_tree1 sample_tree2 2 2 7
    (Reachable.insert sample_tree0 sample_tree1 1 1 7 sample_tree0_reachable sample_tree1_eq)
    sample_tree2_eq

theorem sample_tree3_reachable : Reachable sample_tree3 :=
  Reachable.insert sample_tree2 sample_tree3 3 3 8 sample_tree2_reachable sample_tree3_eq

/-! ## The wrap of `data_count` -/

/-- With `max_points_per_node = 4294967295` a count modulo `2 ^ 32` never exceeds
the limit, so the root leaf takes every cell without a split. -/
theorem overflow_tree_insert (k : Nat) :
    kvad_tree_insert (overflow_tree k) 0 0 0 = some (overflow_tree (k + 1)) := by
  have hc : _kvad_rect_contains_point ⟨⟨0, 0⟩, ⟨1, 1⟩⟩ ⟨0, 0⟩ = true := by
    rw [contains_iff]; norm_num
  have hnot : ¬ (0 < 1 ∧ (k % UINT_RANGE + 1) % UINT_RANGE > 4294967295) := by
    rw [UINT_RANGE_eq]
    omega
  simp only [kvad_tree_insert, kvad_tree_insert_fuel, overflow_tree, _kvad_node_insert, hc,
    kvad_node.is_null, hnot]
  simp [List.replicate_succ, uint_succ_mod]

theorem overflow_tree_insert_all (k : Nat) :
    ∀ j, kvad_tree_insert_all (overflow_tree j) (List.replicate k (0, 0, 0))
      = some (overflow_tree (j + k)) := by
  induction k with
  | zero => intro j; rfl
  | succ k ih =>
    intro j
    simp only [kvad_tree_insert_all, List.replicate_succ, List.foldlM_cons, overflow_tree_insert]
    have := ih (j + 1)
    simp only [kvad_tree_insert_all] at this
    rw [show j + (k + 1) = j + 1 + k by omega]
    exact this

theorem overflow_tree_zero : kvad_tree_create 0 0 1 1 1 4294967295 = overflow_tree 0 := by
  simp [kvad_tree_create, _kvad_node_create, overflow_tree]

theorem overflow_tree_reachable (k : Nat) : Reachable (overflow_tree k) := by
  induction k with
  | zero =>
    rw [← overflow_tree_zero]
    exact Reachable.create 0 0 1 1 1 4294967295 (by norm_num) (by norm_num)
      (by norm_num [UINT_RANGE]) (by norm_num [UINT_RANGE])
  | succ k ih => exact Reachable.insert _ _ 0 0 0 ih (overflow_tree_insert k)

/-- While `max_points_per_node` is below the largest `unsigned int`, every leaf
above the last level of a reachable tree holds at most `max_points_per_node`
cells. -/
theorem capacity_bound_below_uint_max (tree : kvad_tree) (h : Reachable tree)
    (hmp : tree.max_points_per_node + 1 < UINT_RANGE) (path : List Nat) (level : Nat)
    (rect : kvad_rect) (s1 s2 s3 : kvad_node) (data : List kvad_data) (data_count : Nat)
    (hn : tree.root_node.descend path = .node level rect .NULL s1 s2 s3 data data_count)
    (hl : level < tree.max_levels) : data.length ≤ tree.max_points_per_node := by
  rcases node_inv_descend tree.root_node (reachable_inv h).2.2.2 path with hnull | hinv
  · rw [hnull] at hn
    cases hn
  · rw [hn] at hinv
    exact (node_inv_leaf hinv rfl).2.2.2.2.2.2.2.2 hmp hl

/-! ## The contract -/

/-- C1. Pruning is equivalent to brute force: on every reachable tree and for every
query rectangle, the triples that Find passes to the callback are, as a multiset,
the triples Walk visits that lie in the query rectangle, and the value Find
returns, with or without a callback, is the size of that multiset. -/
theorem C1_find_is_brute_force (tree : kvad_tree) (h : Reachable tree) (x y width height : ℚ) :
    ∃ stored found : List (ℚ × ℚ × Nat),
      kvad_tree_walk tree (some kvad_record) [] = some (stored.length, stored) ∧
      kvad_tree_find tree x y width height (some kvad_record) []
        = some (Multiset.card (Multiset.filter
            (fun e => kvad_in_query x y width height e = true) (stored : Multiset (ℚ × ℚ × Nat))),
          found) ∧
      (found : Multiset (ℚ × ℚ × Nat))
        = Multiset.filter (fun e => kvad_in_query x y width height e = true)
            (stored : Multiset (ℚ × ℚ × Nat)) ∧
      kvad_tree_find tree x y width height (none : Option (kvad_callback Unit)) ()
        = some (Multiset.card (Multiset.filter
            (fun e => kvad_in_query x y width height e = true) (stored : Multiset (ℚ × ℚ × Nat))),
          ()) := by
  have hi := reachable_inv h
  refine ⟨tree.root_node.entries.map kvad_data.triple,
    (tree.root_node.entries.map kvad_data.triple).filter
      (fun e => kvad_in_query x y width height e), ?_, ?_, ?_, ?_⟩
  · rw [tree_walk_record hi]; simp
  · rw [tree_find_record hi, filter_map_triple]
    simp [← filter_map_triple]
  · simp
  · rw [kvad_tree_find, find_eq tree _ _ _ hi.2.2.2]
    simp [← filter_map_triple]

/-- C1 on the sample tree with three entries and one split, for the query rectangle `(0, 0, 2, 2)`. -/
theorem C1_witness :
    Reachable sample_tree3 ∧
    (∃ stored found : List (ℚ × ℚ × Nat),
      kvad_tree_walk sample_tree3 (some kvad_record) [] = some (stored.length, stored) ∧
      kvad_tree_find sample_tree3 0 0 2 2 (some kvad_record) []
        = some (Multiset.card (Multiset.filter
            (fun e => kvad_in_query 0 0 2 2 e = true) (stored : Multiset (ℚ × ℚ × Nat))),
          found) ∧
      (found : Multiset (ℚ × ℚ × Nat))
        = Multiset.filter (fun e => kvad_in_query 0 0 2 2 e = true)
            (stored : Multiset (ℚ × ℚ × Nat)) ∧
      kvad_tree_find sample_tree3 0 0 2 2 (none : Option (kvad_callback Unit)) ()
        = some (Multiset.card (Multiset.filter
            (fun e => kvad_in_query 0 0 2 2 e = true) (stored : Multiset (ℚ × ℚ × Nat))),
          ())) :=
  ⟨sample_tree3_reachable, C1_find_is_brute_force sample_tree3 sample_tree3_reachable 0 0 2 2⟩

/-- With arithmetic that does not round, Insert stores exactly one new entry: on every reachable tree and for every
point inside the root bounds, Insert returns, the triples Walk visits afterwards are
those it visited before plus the new one, and the value Walk returns grows by one;
a run of N in-bounds inserts makes it grow by N, so on a fresh tree Walk then
returns N. -/
theorem insert_adds_one_entry_exact (tree : kvad_tree) (h : Reachable tree) (x y : ℚ)
    (payload : Nat) (hb : kvad_tree_in_bounds tree x y = true) :
    ∃ (tree1 : kvad_tree) (before after : List (ℚ × ℚ × Nat)),
      kvad_tree_insert tree x y payload = some tree1 ∧
      kvad_tree_walk tree (some kvad_record) [] = some (before.length, before) ∧
      kvad_tree_walk tree1 (some kvad_record) [] = some (before.length + 1, after) ∧
      (after : Multiset (ℚ × ℚ × Nat)) = (x, y, payload) ::ₘ (before : Multiset (ℚ × ℚ × Nat)) ∧
      ∀ l : List (ℚ × ℚ × Nat), (∀ e ∈ l, kvad_tree_in_bounds tree e.1 e.2.1 = true) →
        ∃ treeN, kvad_tree_insert_all tree l = some treeN ∧
          kvad_tree_walk treeN (none : Option (kvad_callback Unit)) ()
            = some (before.length + l.length, ()) ∧
          (∀ x0 y0 width height max_levels max_points_per_node,
            tree = kvad_tree_create x0 y0 width height max_levels max_points_per_node →
            kvad_tree_walk treeN (none : Option (kvad_callback Unit)) ()
              = some (l.length, ())) := by
  have hi := reachable_inv h
  obtain ⟨t1, e1, _, _, i1, _, _, _, _, m1, _⟩ := tree_insert_spec hi x y payload
  have hbe : tree.root_node.contains ⟨x, y⟩ = true := hb
  rw [hbe] at m1
  simp only [if_true] at m1
  have hlen : t1.root_node.entries.length = tree.root_node.entries.length + 1 := by
    have := congrArg Multiset.card m1
    simpa [Nat.add_comm] using this
  refine ⟨t1, tree.root_node.entries.map kvad_data.triple,
    t1.root_node.entries.map kvad_data.triple, e1, ?_, ?_, ?_, ?_⟩
  · rw [tree_walk_record hi]; simp
  · rw [tree_walk_record i1, hlen]; simp
  · rw [← Multiset.map_coe, ← Multiset.map_coe, m1, Multiset.map_add, Multiset.map_singleton,
      Multiset.singleton_add]
    rfl
  · intro l hl
    obtain ⟨tN, eN, iN, _, _, _, mN⟩ := tree_insert_all_spec l tree hi hl
    have hN : tN.root_node.entries.length = tree.root_node.entries.length + l.length := by
      have := congrArg Multiset.card mN
      simpa [Nat.add_comm] using this
    refine ⟨tN, eN, ?_, ?_⟩
    · rw [tree_walk_eq iN, hN]; simp
    · intro x0 y0 width height max_levels max_points_per_node ht
      rw [tree_walk_eq iN, hN, ht]
      simp [kvad_tree_create, _kvad_node_create, kvad_node.entries, kvad_node.is_null]

/-- C3. RemovePayload returns the number of entries it removed: on every reachable
tree it returns, the value Walk returns afterwards is the value before minus the
returned count, and when no stored entry (or just no cell of the selected leaf)
carries the payload the count is 0; a call that returns 0 leaves the tree as it
was. -/
theorem C3_remove_returns_removed_count (tree : kvad_tree) (h : Reachable tree) (x y : ℚ)
    (payload : Nat) :
    ∃ (tree1 : kvad_tree) (c : Nat) (stored after : List (ℚ × ℚ × Nat)),
      kvad_tree_remove_payload tree x y payload = some (tree1, c) ∧
      kvad_tree_walk tree (some kvad_record) [] = some (stored.length, stored) ∧
      kvad_tree_walk tree1 (some kvad_record) [] = some (stored.length - c, after) ∧
      c ≤ stored.length ∧
      ((∀ e ∈ stored, e.2.2 ≠ payload) → c = 0) ∧
      ((∀ d ∈ (tree.root_node.leaf_at ⟨x, y⟩).entries, d.payload ≠ payload) → c = 0) ∧
      (c = 0 → tree1 = tree ∧ after = stored) := by
  have hi := reachable_inv h
  obtain ⟨t1, c, e1, ml1, mp1, i1, pr⟩ := tree_remove_spec hi x y payload
  have hcard := congrArg Multiset.card pr.2.2.2.1
  simp only [Multiset.card_add, Multiset.coe_card] at hcard
  rw [← pr.2.2.1] at hcard
  have hleaf : (∀ d ∈ (tree.root_node.leaf_at ⟨x, y⟩).entries, d.payload ≠ payload) → c = 0 := by
    intro hno
    rw [pr.2.2.1, List.length_eq_zero, kvad_node.matching, List.filter_eq_nil_iff]
    intro d hd
    simpa using hno d hd
  refine ⟨t1, c, tree.root_node.entries.map kvad_data.triple,
    t1.root_node.entries.map kvad_data.triple, e1, ?_, ?_, ?_, ?_, hleaf, ?_⟩
  · rw [tree_walk_record hi]; simp
  · rw [tree_walk_record i1]
    simp only [List.length_map]
    congr 2
    omega
  · simp only [List.length_map]
    omega
  · intro hno
    rw [pr.2.2.1, List.length_eq_zero, List.eq_nil_iff_forall_not_mem]
    intro d hd
    obtain ⟨hp, hm⟩ := mem_matching hd
    exact hno d.triple (List.mem_map_of_mem _ hm) hp
  · intro hc
    have hr := pr.2.2.2.2 hc
    constructor
    · cases t1
      cases tree
      simp_all
    · rw [hr]

/-- C3 on the sample tree with three entries and one split, for `RemovePayload(1, 1, 7)`. -/
theorem C3_witness :
    Reachable sample_tree3 ∧
    (∃ (tree1 : kvad_tree) (c : Nat) (stored after : List (ℚ × ℚ × Nat)),
      kvad_tree_remove_payload sample_tree3 1 1 7 = some (tree1, c) ∧
      kvad_tree_walk sample_tree3 (some kvad_record) [] = some (stored.length, stored) ∧
      kvad_tree_walk tree1 (some kvad_record) [] = some (stored.length - c, after) ∧
      c ≤ stored.length ∧
      ((∀ e ∈ stored, e.2.2 ≠ 7) → c = 0) ∧
      ((∀ d ∈ (sample_tree3.root_node.leaf_at ⟨1, 1⟩).entries, d.payload ≠ 7) → c = 0) ∧
      (c = 0 → tree1 = sample_tree3 ∧ after = stored)) :=
  ⟨sample_tree3_reachable, C3_remove_returns_removed_count sample_tree3 sample_tree3_reachable 1 1 7⟩

/-- With arithmetic that does not round, removal finds what Insert stored: on every reachable tree and for every
point inside the root bounds, RemovePayload scans the leaf that quadrant selection
reaches for the point, which is the leaf where Insert leaves a new cell with that
point; afterwards neither Walk nor any Find reports the triple, and the count
returned is at least the number of stored copies of it; inserting the triple twice
into a tree that stores no entry with that payload and removing it returns 2. -/
theorem remove_finds_inserted_exact (tree : kvad_tree) (h : Reachable tree) (x y : ℚ)
    (payload : Nat) (hb : kvad_tree_in_bounds tree x y = true) :
    ∃ (tree1 : kvad_tree) (c : Nat) (stored after : List (ℚ × ℚ × Nat)),
      kvad_tree_remove_payload tree x y payload = some (tree1, c) ∧
      kvad_tree_walk tree (some kvad_record) [] = some (stored.length, stored) ∧
      kvad_tree_walk tree1 (some kvad_record) [] = some (after.length, after) ∧
      (x, y, payload) ∉ after ∧
      (∀ qx qy width height, ∃ n found,
        kvad_tree_find tree1 qx qy width height (some kvad_record) [] = some (n, found) ∧
        (x, y, payload) ∉ found) ∧
      Multiset.count (x, y, payload) (stored : Multiset (ℚ × ℚ × Nat)) ≤ c ∧
      c = ((tree.root_node.leaf_at ⟨x, y⟩).entries.filter (fun d => d.payload = payload)).length ∧
      (∀ d ∈ tree.root_node.entries, d.point = ⟨x, y⟩ →
        d ∈ (tree.root_node.leaf_at ⟨x, y⟩).entries) ∧
      (∃ tree2, kvad_tree_insert tree x y payload = some tree2 ∧
        (⟨⟨x, y⟩, payload⟩ : kvad_data) ∈ (tree2.root_node.leaf_at ⟨x, y⟩).entries) ∧
      ((∀ e ∈ stored, e.2.2 ≠ payload) →
        ∃ t1 t2 t3, kvad_tree_insert tree x y payload = some t1 ∧
          kvad_tree_insert t1 x y payload = some t2 ∧
          kvad_tree_remove_payload t2 x y payload = some (t3, 2)) := by
  have hi := reachable_inv h
  obtain ⟨t1, c, e1, _, _, i1, pr⟩ := tree_remove_spec hi x y payload
  obtain ⟨hclear, hcount, _⟩ := remove_post_clears hi.2.2.2 pr
  obtain ⟨a1, ea1, _, _, ia1, _, _, ra1, _, ma1, _⟩ := tree_insert_spec hi x y payload
  have hbe : tree.root_node.contains ⟨x, y⟩ = true := hb
  rw [hbe] at ma1
  simp only [if_true] at ma1
  have hmem1 : (⟨⟨x, y⟩, payload⟩ : kvad_data) ∈ (a1.root_node.leaf_at ⟨x, y⟩).entries := by
    have hc : List.count (⟨⟨x, y⟩, payload⟩ : kvad_data) a1.root_node.entries
        = List.count (⟨⟨x, y⟩, payload⟩ : kvad_data) (a1.root_node.leaf_at ⟨x, y⟩).entries :=
      count_leaf_at (⟨⟨x, y⟩, payload⟩ : kvad_data) a1.root_node ia1.2.2.2
    have hm := congrArg (Multiset.count (⟨⟨x, y⟩, payload⟩ : kvad_data)) ma1
    simp only [Multiset.coe_count, Multiset.count_add, Multiset.count_singleton_self] at hm
    exact List.count_pos_iff.1 (by omega)
  refine ⟨t1, c, tree.root_node.entries.map kvad_data.triple,
    t1.root_node.entries.map kvad_data.triple, e1, ?_, ?_, ?_, ?_, ?_, ?_, ?_, ⟨a1, ea1, hmem1⟩, ?_⟩
  · rw [tree_walk_record hi]; simp
  · rw [tree_walk_record i1]; simp
  · exact fun hm => hclear (mem_map_triple hm)
  · intro qx qy width height
    refine ⟨_, _, tree_find_record i1 qx qy width height, ?_⟩
    intro hm
    exact hclear (List.mem_filter.1 (mem_map_triple hm)).1
  · have := List.count_map_of_injective tree.root_node.entries kvad_data.triple triple_injective
      ⟨⟨x, y⟩, payload⟩
    rw [Multiset.coe_count]
    exact this ▸ hcount
  · exact pr.2.2.1
  · intro d hd hp
    have hc := count_leaf_at d tree.root_node hi.2.2.2
    rw [hp] at hc
    exact List.count_pos_iff.1 (by have := List.count_pos_iff.2 hd; omega)
  · intro hno
    have hbe1 : a1.root_node.contains ⟨x, y⟩ = true := by
      rw [contains_of_rect_eq ra1]; exact hbe
    obtain ⟨a2, ea2, _, _, ia2, _, _, _, _, ma2, _⟩ := tree_insert_spec ia1 x y payload
    rw [hbe1] at ma2
    simp only [if_true] at ma2
    obtain ⟨a3, c3, ea3, _, _, _, pr3⟩ := tree_remove_spec ia2 x y payload
    obtain ⟨_, _, hc3⟩ := remove_post_clears ia2.2.2.2 pr3
    have hzero : List.count (⟨⟨x, y⟩, payload⟩ : kvad_data) tree.root_node.entries = 0 := by
      rw [List.count_eq_zero]
      intro hd
      exact hno _ (List.mem_map_of_mem kvad_data.triple hd) rfl
    have htwo : List.count (⟨⟨x, y⟩, payload⟩ : kvad_data) a2.root_node.entries = 2 := by
      have hm := congrArg (Multiset.count (⟨⟨x, y⟩, payload⟩ : kvad_data)) ma2
      rw [ma1] at hm
      simp only [Multiset.coe_count, Multiset.count_add, Multiset.count_singleton_self] at hm
      omega
    have hall : ∀ d ∈ a2.root_node.matching ⟨x, y⟩ payload, (⟨⟨x, y⟩, payload⟩ : kvad_data) = d := by
      intro d hd
      obtain ⟨hp, hm⟩ := mem_matching hd
      have hm2 : d ∈ (a2.root_node.entries : Multiset kvad_data) := Multiset.mem_coe.2 hm
      rw [ma2, ma1] at hm2
      rcases Multiset.mem_add.1 hm2 with hs | hs
      · exact (Multiset.mem_singleton.1 hs).symm
      · rcases Multiset.mem_add.1 hs with hs | hs
        · exact (Multiset.mem_singleton.1 hs).symm
        · exact absurd hp (hno _ (List.mem_map_of_mem kvad_data.triple (Multiset.mem_coe.1 hs)))
    have hlen := List.count_eq_length.2 hall
    have hc2 : c3 = 2 := by
      rw [pr3.2.2.1, ← hlen, ← hc3, htwo]
    rw [hc2] at ea3
    exact ⟨a1, a2, a3, ea1, ea2, ea3⟩

/-- With arithmetic that does not round, removal is by payload identity and spares other
payloads: on every reachable
tree the triples with another payload that Walk visits are the same multiset before
and after RemovePayload; so when the same in-bounds point is inserted with two
distinct payloads, in either order, and one of them is removed, Walk and every Find
whose rectangle contains the point still report the other. -/
theorem remove_spares_other_payloads_exact (tree : kvad_tree) (h : Reachable tree) (x y : ℚ)
    (payload : Nat) :
    ∃ (tree1 : kvad_tree) (c : Nat) (stored after : List (ℚ × ℚ × Nat)),
      kvad_tree_remove_payload tree x y payload = some (tree1, c) ∧
      kvad_tree_walk tree (some kvad_record) [] = some (stored.length, stored) ∧
      kvad_tree_walk tree1 (some kvad_record) [] = some (after.length, after) ∧
      Multiset.filter (fun e => e.2.2 ≠ payload) (after : Multiset (ℚ × ℚ × Nat))
        = Multiset.filter (fun e => e.2.2 ≠ payload) (stored : Multiset (ℚ × ℚ × Nat)) ∧
      ∀ other, other ≠ payload → kvad_tree_in_bounds tree x y = true →
        ∀ p1 p2, (p1 = payload ∧ p2 = other) ∨ (p1 = other ∧ p2 = payload) →
        ∃ t1 t2 t3 c3 w,
          kvad_tree_insert tree x y p1 = some t1 ∧
          kvad_tree_insert t1 x y p2 = some t2 ∧
          kvad_tree_remove_payload t2 x y payload = some (t3, c3) ∧
          kvad_tree_walk t3 (some kvad_record) [] = some (w.length, w) ∧
          (x, y, other) ∈ w ∧
          ∀ qx qy width height, kvad_in_query qx qy width height (x, y, other) = true →
            ∃ n found,
              kvad_tree_find t3 qx qy width height (some kvad_record) [] = some (n, found) ∧
              (x, y, other) ∈ found := by
  have hi := reachable_inv h
  obtain ⟨t1, c, e1, _, _, i1, pr⟩ := tree_remove_spec hi x y payload
  refine ⟨t1, c, tree.root_node.entries.map kvad_data.triple,
    t1.root_node.entries.map kvad_data.triple, e1, ?_, ?_, ?_, ?_⟩
  · rw [tree_walk_record hi]; simp
  · rw [tree_walk_record i1]; simp
  · rw [← remove_post_triples pr, Multiset.filter_add]
    have : Multiset.filter (fun e : ℚ × ℚ × Nat => e.2.2 ≠ payload)
        (((tree.root_node.matching ⟨x, y⟩ payload).map kvad_data.triple : List (ℚ × ℚ × Nat)) :
          Multiset (ℚ × ℚ × Nat)) = 0 := by
      rw [Multiset.filter_eq_nil]
      intro e he
      obtain ⟨d, hd, rfl⟩ := List.mem_map.1 (Multiset.mem_coe.1 he)
      simpa [kvad_data.triple] using (mem_matching hd).1
    rw [this, add_zero]
  · intro other hne hb p1 p2 hcase
    have hbe : tree.root_node.contains ⟨x, y⟩ = true := hb
    obtain ⟨a1, ea1, _, _, ia1, _, _, ra1, _, ma1, _⟩ := tree_insert_spec hi x y p1
    rw [hbe] at ma1
    simp only [if_true] at ma1
    have hbe1 : a1.root_node.contains ⟨x, y⟩ = true := by
      rw [contains_of_rect_eq ra1]; exact hbe
    obtain ⟨a2, ea2, _, _, ia2, _, _, _, _, ma2, _⟩ := tree_insert_spec ia1 x y p2
    rw [hbe1] at ma2
    simp only [if_true] at ma2
    obtain ⟨a3, c3, ea3, _, _, ia3, pr3⟩ := tree_remove_spec ia2 x y payload
    have hmem2 : (⟨⟨x, y⟩, other⟩ : kvad_data) ∈ a2.root_node.entries := by
      have hm : (⟨⟨x, y⟩, other⟩ : kvad_data) ∈ (a2.root_node.entries : Multiset kvad_data) := by
        rw [ma2, ma1]
        simp only [Multiset.mem_add, Multiset.mem_singleton]
        rcases hcase with ⟨_, h2⟩ | ⟨h1, _⟩
        · exact Or.inl (by rw [h2])
        · exact Or.inr (Or.inl (by rw [h1]))
      exact Multiset.mem_coe.1 hm
    have hmem3 := remove_post_keeps pr3 hmem2 hne
    refine ⟨a1, a2, a3, c3, a3.root_node.entries.map kvad_data.triple, ea1, ea2, ea3, ?_,
      List.mem_map_of_mem kvad_data.triple hmem3, ?_⟩
    · rw [tree_walk_record ia3]; simp
    · intro qx qy width height hq
      exact mem_find_record ia3 hmem3 qx qy width height hq

/-- C6, as stated, fails: in the tree made by `Create(0, 0, 100, 100, 1, 2)`,
`Insert(1, 1, 7)` and `Insert(2, 2, 7)`, the call `RemovePayload(1, 1, 7)` returns 2
and also removes the entry `(2, 2, 7)`, whose coordinates differ from `(1, 1)`. -/
theorem C6_counterexample :
    Reachable sample_tree2 ∧
      kvad_tree_walk sample_tree2 (some kvad_record) [] = some (2, [(2, 2, 7), (1, 1, 7)]) ∧
      kvad_tree_remove_payload sample_tree2 1 1 7 = some (sample_tree2_removed, 2) ∧
      kvad_tree_walk sample_tree2_removed (some kvad_record) [] = some (0, []) ∧
      ¬ (∀ e ∈ [((2 : ℚ), (2 : ℚ), 7), ((1 : ℚ), (1 : ℚ), 7)],
          (e.1, e.2.1) ≠ ((1 : ℚ), (1 : ℚ)) → e ∈ ([] : List (ℚ × ℚ × Nat))) := by
  refine ⟨sample_tree2_reachable, by decide!, by decide!, by decide!, ?_⟩
  intro hall
  have := hall ((2 : ℚ), (2 : ℚ), 7) (List.mem_cons_self _ _) (by norm_num)
  simp at this

/-- C6, amended. Removal is exact on leaf and payload: on every reachable tree
RemovePayload removes the cells of the leaf that quadrant selection reaches for
`(x, y)` whose payload matches, whatever their coordinates, and nothing else; every
stored entry whose payload differs, or that is not a cell of that leaf, is stored
after the call as often as before. -/
theorem C6_remove_is_exact_on_leaf_and_payload (tree : kvad_tree) (h : Reachable tree)
    (x y : ℚ) (payload : Nat) :
    ∃ (tree1 : kvad_tree) (c : Nat) (stored after removed : List (ℚ × ℚ × Nat)),
      kvad_tree_remove_payload tree x y payload = some (tree1, c) ∧
      kvad_tree_walk tree (some kvad_record) [] = some (stored.length, stored) ∧
      kvad_tree_walk tree1 (some kvad_record) [] = some (after.length, after) ∧
      removed = ((tree.root_node.leaf_at ⟨x, y⟩).entries.filter
        (fun d => d.payload = payload)).map kvad_data.triple ∧
      c = removed.length ∧
      (after : Multiset (ℚ × ℚ × Nat)) + (removed : Multiset (ℚ × ℚ × Nat))
        = (stored : Multiset (ℚ × ℚ × Nat)) ∧
      (∀ e ∈ removed, e.2.2 = payload) ∧
      ∀ d ∈ tree.root_node.entries,
        d.payload ≠ payload ∨ d ∉ (tree.root_node.leaf_at ⟨x, y⟩).entries →
        Multiset.count d.triple (after : Multiset (ℚ × ℚ × Nat))
          = Multiset.count d.triple (stored : Multiset (ℚ × ℚ × Nat)) := by
  have hi := reachable_inv h
  obtain ⟨t1, c, e1, _, _, i1, pr⟩ := tree_remove_spec hi x y payload
  refine ⟨t1, c, tree.root_node.entries.map kvad_data.triple,
    t1.root_node.entries.map kvad_data.triple,
    (tree.root_node.matching ⟨x, y⟩ payload).map kvad_data.triple, e1, ?_, ?_, rfl, ?_,
    remove_post_triples pr, ?_, ?_⟩
  · rw [tree_walk_record hi]; simp
  · rw [tree_walk_record i1]; simp
  · rw [List.length_map]; exact pr.2.2.1
  · intro e he
    obtain ⟨d, hd, rfl⟩ := List.mem_map.1 he
    exact (mem_matching hd).1
  · intro d _ hcase
    have h1 := remove_post_count pr d
    have h2 : List.count d (tree.root_node.matching ⟨x, y⟩ payload) = 0 := by
      rw [List.count_eq_zero]
      intro hm
      rcases hcase with hp | hl
      · exact hp (mem_matching hm).1
      · exact hl (List.mem_filter.1 hm).1
    rw [← Multiset.map_coe, ← Multiset.map_coe,
      Multiset.count_map_eq_count' _ _ triple_injective,
      Multiset.count_map_eq_count' _ _ triple_injective, Multiset.coe_count, Multiset.coe_count]
    omega

/-- C6, amended, on the sample tree with three entries and one split, for `RemovePayload(1, 1, 7)`. -/
theorem C6_witness :
    Reachable sample_tree3 ∧
    (∃ (tree1 : kvad_tree) (c : Nat) (stored after removed : List (ℚ × ℚ × Nat)),
      kvad_tree_remove_payload sample_tree3 1 1 7 = some (tree1, c) ∧
      kvad_tree_walk sample_tree3 (some kvad_record) [] = some (stored.length, stored) ∧
      kvad_tree_walk tree1 (some kvad_record) [] = some (after.length, after) ∧
      removed = ((sample_tree3.root_node.leaf_at ⟨1, 1⟩).entries.filter
        (fun d => d.payload = 7)).map kvad_data.triple ∧
      c = removed.length ∧
      (after : Multiset (ℚ × ℚ × Nat)) + (removed : Multiset (ℚ × ℚ × Nat))
        = (stored : Multiset (ℚ × ℚ × Nat)) ∧
      (∀ e ∈ removed, e.2.2 = 7) ∧
      ∀ d ∈ sample_tree3.root_node.entries,
        d.payload ≠ 7 ∨ d ∉ (sample_tree3.root_node.leaf_at ⟨1, 1⟩).entries →
        Multiset.count d.triple (after : Multiset (ℚ × ℚ × Nat))
          = Multiset.count d.triple (stored : Multiset (ℚ × ℚ × Nat))) :=
  ⟨sample_tree3_reachable, C6_remove_is_exact_on_leaf_and_payload sample_tree3 sample_tree3_reachable 1 1 7⟩

/-- C7. Split depth bound: in every reachable tree no node's level exceeds
`max_levels`; a leaf at level `max_levels` stays a leaf at that level, at its place
in the tree, through any run of Insert calls and through any RemovePayload call;
and `_kvad_node_insert` on a leaf at level `max_levels` or more just puts the new
cell at the head of its list, however long the list is. -/
theorem C7_split_depth_bound (tree : kvad_tree) (h : Reachable tree) :
    (∀ path level, (tree.root_node.descend path).level? = some level →
      level ≤ tree.max_levels) ∧
    (∀ path, (tree.root_node.descend path).is_last_level_leaf tree = true →
      (∀ l : List (ℚ × ℚ × Nat), ∃ treeN, kvad_tree_insert_all tree l = some treeN ∧
        treeN.max_levels = tree.max_levels ∧
        (treeN.root_node.descend path).is_last_level_leaf treeN = true) ∧
      (∀ x y payload, ∃ tree1 c, kvad_tree_remove_payload tree x y payload = some (tree1, c) ∧
        tree1.max_levels = tree.max_levels ∧
        (tree1.root_node.descend path).is_last_level_leaf tree1 = true)) ∧
    (∀ fuel level rect data data_count point payload, tree.max_levels ≤ level →
      _kvad_rect_contains_point rect point = true →
      _kvad_node_insert (fuel + 1) tree (.node level rect .NULL .NULL .NULL .NULL data data_count)
          point payload
        = some (.node level rect .NULL .NULL .NULL .NULL (⟨point, payload⟩ :: data)
            ((data_count + 1) % UINT_RANGE))) := by
  have hi := reachable_inv h
  refine ⟨?_, ?_, ?_⟩
  · intro path level hl
    rcases node_inv_descend tree.root_node hi.2.2.2 path with hnull | hinv
    · rw [hnull] at hl
      simp [kvad_node.level?] at hl
    · exact node_inv_level_le hinv hl
  · intro path hp
    constructor
    · intro l
      obtain ⟨tN, eN, _, mlN, pN⟩ := tree_insert_all_last_level l tree hi
      exact ⟨tN, eN, mlN, pN path hp⟩
    · intro x y payload
      obtain ⟨t1, c, e1, ml1, _, _, pr⟩ := tree_remove_spec hi x y payload
      refine ⟨t1, c, e1, ml1, ?_⟩
      obtain ⟨q1, _, q3⟩ := pr.2.1 path
      simp only [kvad_node.is_last_level_leaf, q1, q3, ml1] at hp ⊢
      exact hp
  · intro fuel level rect data data_count point payload hlv hc
    have hnot : ¬ (level < tree.max_levels ∧
        (data_count + 1) % UINT_RANGE > tree.max_points_per_node) := fun hsp => by omega
    simp only [_kvad_node_insert, hc, kvad_node.is_null, hnot]
    rfl

/-- C7 on the sample tree with three entries and one split, whose four leaves are on the last level. -/
theorem C7_witness :
    Reachable sample_tree3 ∧
    ((∀ path level, (sample_tree3.root_node.descend path).level? = some level →
      level ≤ sample_tree3.max_levels) ∧
    (∀ path, (sample_tree3.root_node.descend path).is_last_level_leaf sample_tree3 = true →
      (∀ l : List (ℚ × ℚ × Nat), ∃ treeN, kvad_tree_insert_all sample_tree3 l = some treeN ∧
        treeN.max_levels = sample_tree3.max_levels ∧
        (treeN.root_node.descend path).is_last_level_leaf treeN = true) ∧
      (∀ x y payload, ∃ tree1 c, kvad_tree_remove_payload sample_tree3 x y payload = some (tree1, c) ∧
        tree1.max_levels = sample_tree3.max_levels ∧
        (tree1.root_node.descend path).is_last_level_leaf tree1 = true)) ∧
    (∀ fuel level rect data data_count point payload, sample_tree3.max_levels ≤ level →
      _kvad_rect_contains_point rect point = true →
      _kvad_node_insert (fuel + 1) sample_tree3 (.node level rect .NULL .NULL .NULL .NULL data data_count)
          point payload
        = some (.node level rect .NULL .NULL .NULL .NULL (⟨point, payload⟩ :: data)
            ((data_count + 1) % UINT_RANGE)))) :=
  ⟨sample_tree3_reachable, C7_split_depth_bound sample_tree3 sample_tree3_reachable⟩

/-- C8 fails on the code when `data_count` wraps: after
`Create(0, 0, 1, 1, maxLevels = 1, maxPointsPerNode = 4294967295)` and 4294967296
calls `Insert(0, 0, 0)` the root is still a leaf, at level 0 below `max_levels = 1`,
its `data_count` is 0, and it holds 4294967296 cells, more than
`max_points_per_node`. -/
theorem C8_capacity_overflow :
    kvad_tree_insert_all (kvad_tree_create 0 0 1 1 1 4294967295)
        (List.replicate 4294967296 (0, 0, 0)) = some (overflow_tree 4294967296) ∧
      Reachable (overflow_tree 4294967296) ∧
      (overflow_tree 4294967296).root_node
        = .node 0 ⟨⟨0, 0⟩, ⟨1, 1⟩⟩ .NULL .NULL .NULL .NULL
            (List.replicate 4294967296 ⟨⟨0, 0⟩, 0⟩) 0 ∧
      0 < (overflow_tree 4294967296).max_levels ∧
      (overflow_tree 4294967296).max_points_per_node
        < (List.replicate 4294967296 (⟨⟨0, 0⟩, 0⟩ : kvad_data)).length := by
  refine ⟨?_, overflow_tree_reachable _, ?_, ?_, ?_⟩
  · have h := overflow_tree_insert_all 4294967296 0
    rw [Nat.zero_add] at h
    rw [overflow_tree_zero]
    exact h
  · have hmod : 4294967296 % UINT_RANGE = 0 := by rw [UINT_RANGE_eq]
    rw [overflow_tree, hmod]
  · exact Nat.zero_lt_one
  · rw [List.length_replicate]
    exact Nat.lt_succ_self 4294967295

/-- C9, as stated, fails: after `Create(0, 0, 100, 100, maxLevels = 1,
maxPointsPerNode = 2)` and the calls `Insert(1, 1, 7)`, `Insert(2, 2, 7)`,
`Insert(3, 3, 8)`, in this order, the third of which splits the root, the three
entries sit in one leaf, and Walk and Find report the earliest inserted entry
first and the most recently inserted one last; the rounding of `double` changes
none of these values. -/
theorem C9_counterexample :
    kvad_tree_insert_all (kvad_tree_create 0 0 100 100 1 2) [(1, 1, 7), (2, 2, 7), (3, 3, 8)]
        = some sample_tree3 ∧
      (sample_tree3.root_node.leaf_at ⟨1, 1⟩).entries
        = [⟨⟨1, 1⟩, 7⟩, ⟨⟨2, 2⟩, 7⟩, ⟨⟨3, 3⟩, 8⟩] ∧
      kvad_tree_walk sample_tree3 (some kvad_record) []
        = some (3, [(1, 1, 7), (2, 2, 7), (3, 3, 8)]) ∧
      kvad_tree_find sample_tree3 0 0 100 100 (some kvad_record) []
        = some (3, [(1, 1, 7), (2, 2, 7), (3, 3, 8)]) ∧
      kvad_tree_insert_all_fl round_double (kvad_tree_create 0 0 100 100 1 2)
          [(1, 1, 7), (2, 2, 7), (3, 3, 8)] = some sample_tree3 ∧
      kvad_tree_find_fl round_double sample_tree3 0 0 100 100 (some kvad_record) []
        = some (3, [(1, 1, 7), (2, 2, 7), (3, 3, 8)]) := by
  refine ⟨by decide!, by decide!, by decide!, by decide!, by decide!, by decide!⟩

/-- With arithmetic that does not round, leaf order is newest first until a split: in every reachable tree
(1) while the root is a leaf, a run of Insert calls puts its in-bounds entries in
reverse insertion order ahead of those stored before, and Walk and Find report
them so, the most recently inserted first; (2) an Insert that does not split the
leaf it reaches puts the new entry at the head of that leaf's list; (3) Find and
Walk report the list of a leaf head first, and the entries below an internal node
in the subtree order 0, 1, 2, 3. -/
theorem leaf_order_until_split_exact (tree : kvad_tree) (h : Reachable tree) :
    (∀ (l : List (ℚ × ℚ × Nat)) (treeN : kvad_tree),
      kvad_tree_insert_all tree l = some treeN → treeN.root_node.is_leaf = true →
      ∃ before newest_first : List (ℚ × ℚ × Nat),
        newest_first = (l.filter (fun e => kvad_tree_in_bounds tree e.1 e.2.1)).reverse ∧
        kvad_tree_walk tree (some kvad_record) [] = some (before.length, before) ∧
        kvad_tree_walk treeN (some kvad_record) []
          = some ((newest_first ++ before).length, newest_first ++ before) ∧
        (∀ qx qy width height,
          kvad_tree_find treeN qx qy width height (some kvad_record) []
            = some (((newest_first ++ before).filter
                  (fun e => kvad_in_query qx qy width height e)).length,
                (newest_first ++ before).filter (fun e => kvad_in_query qx qy width height e))) ∧
        (∀ x0 y0 width height max_levels max_points_per_node,
          tree = kvad_tree_create x0 y0 width height max_levels max_points_per_node →
          before = [])) ∧
    (∀ x y payload level rc data data_count, kvad_tree_in_bounds tree x y = true →
      tree.root_node.leaf_at ⟨x, y⟩ = .node level rc .NULL .NULL .NULL .NULL data data_count →
      ¬ (level < tree.max_levels ∧
        (data_count + 1) % UINT_RANGE > tree.max_points_per_node) →
      ∃ tree1, kvad_tree_insert tree x y payload = some tree1 ∧
        tree1.root_node.leaf_at ⟨x, y⟩
          = .node level rc .NULL .NULL .NULL .NULL (⟨⟨x, y⟩, payload⟩ :: data)
              ((data_count + 1) % UINT_RANGE)) ∧
    (∀ path level rect s0 s1 s2 s3 data data_count,
      tree.root_node.descend path = .node level rect s0 s1 s2 s3 data data_count →
      (s0.is_null = true →
        _kvad_node_walk (some kvad_record) (tree.root_node.descend path) []
            = some ((data.map kvad_data.triple).length, data.map kvad_data.triple) ∧
        ∀ qx qy width height,
          _kvad_node_find ⟨⟨qx, qy⟩, ⟨width, height⟩⟩ (some kvad_record)
              (tree.root_node.descend path) []
            = some (((data.map kvad_data.triple).filter
                  (fun e => kvad_in_query qx qy width height e)).length,
                (data.map kvad_data.triple).filter
                  (fun e => kvad_in_query qx qy width height e))) ∧
      (s0.is_null = false →
        ∃ w0 w1 w2 w3 : List (ℚ × ℚ × Nat),
          _kvad_node_walk (some kvad_record) s0 [] = some (w0.length, w0) ∧
          _kvad_node_walk (some kvad_record) s1 [] = some (w1.length, w1) ∧
          _kvad_node_walk (some kvad_record) s2 [] = some (w2.length, w2) ∧
          _kvad_node_walk (some kvad_record) s3 [] = some (w3.length, w3) ∧
          _kvad_node_walk (some kvad_record) (tree.root_node.descend path) []
            = some ((w0 ++ w1 ++ w2 ++ w3).length, w0 ++ w1 ++ w2 ++ w3) ∧
          ∀ qx qy width height,
            _kvad_node_find ⟨⟨qx, qy⟩, ⟨width, height⟩⟩ (some kvad_record)
                (tree.root_node.descend path) []
              = some (((w0 ++ w1 ++ w2 ++ w3).filter
                    (fun e => kvad_in_query qx qy width height e)).length,
                  (w0 ++ w1 ++ w2 ++ w3).filter
                    (fun e => kvad_in_query qx qy width height e)))) := by
  have hi := reachable_inv h
  refine ⟨?_, ?_, ?_⟩
  · intro l treeN hN hleaf
    obtain ⟨tN, eN, iN, _⟩ := tree_insert_all_last_level l tree hi
    rw [hN] at eN
    cases eN
    obtain ⟨_, hent⟩ := tree_insert_all_unsplit l tree hi treeN hN hleaf
    refine ⟨tree.root_node.entries.map kvad_data.triple, _, rfl, ?_, ?_, ?_, ?_⟩
    · rw [tree_walk_record hi]; simp
    · rw [tree_walk_record iN, ← hent]; simp
    · intro qx qy width height
      rw [kvad_tree_find, node_find_record iN.2.2.2, hent]
    · intro x0 y0 width height max_levels max_points_per_node ht
      rw [ht]
      simp [kvad_tree_create, _kvad_node_create, kvad_node.entries, kvad_node.is_null]
  · intro x y payload level rc data data_count hb hleaf hns
    obtain ⟨t1, e1, _, _, _, _⟩ := tree_insert_spec hi x y payload
    refine ⟨t1, e1, ?_⟩
    have hr : _kvad_node_insert (kvad_tree_insert_fuel tree) tree tree.root_node ⟨x, y⟩ payload
        = some t1.root_node := by
      simp only [kvad_tree_insert, Option.map_eq_some'] at e1
      obtain ⟨r, er, rfl⟩ := e1
      exact er
    exact insert_no_split tree ⟨x, y⟩ payload level rc data data_count hns tree.root_node
      hi.2.2.2 hb hleaf _ _ hr
  · intro path level rect s0 s1 s2 s3 data data_count hn
    have hinv : node_inv tree (tree.root_node.descend path) := by
      rcases node_inv_descend tree.root_node hi.2.2.2 path with hnull | hinv
      · rw [hnull] at hn; cases hn
      · exact hinv
    constructor
    · intro hs
      have he : (tree.root_node.descend path).entries = data := by
        rw [hn]; simp [kvad_node.entries, hs]
      refine ⟨?_, ?_⟩
      · rw [node_walk_record hinv, he]
      · intro qx qy width height
        rw [node_find_record hinv, he]
    · intro hs
      rw [hn] at hinv
      obtain ⟨_, _, _, _, _, _, ⟨h0, _⟩, ⟨h1, _⟩, ⟨h2, _⟩, ⟨h3, _⟩⟩ := node_inv_internal hinv hs
      have he : (tree.root_node.descend path).entries.map kvad_data.triple
          = s0.entries.map kvad_data.triple ++ s1.entries.map kvad_data.triple
            ++ s2.entries.map kvad_data.triple ++ s3.entries.map kvad_data.triple := by
        rw [hn]; simp [kvad_node.entries, hs]
      refine ⟨_, _, _, _, node_walk_record h0, node_walk_record h1, node_walk_record h2,
        node_walk_record h3, ?_, ?_⟩
      · rw [hn, node_walk_record hinv, ← hn, he]
      · intro qx qy width height
        rw [hn, node_find_record hinv, ← hn, he]

/-- C10. The concrete scenario: on `Create(0, 0, 100, 100, maxLevels = 4,
maxPointsPerNode = 2)` followed by `Insert(1, 1, a)`, `Insert(2, 2, b)`,
`Insert(3, 3, c)` with three distinct payloads, the root has split into four
quadrant subnodes after the third insert, all three entries are stored below the
north-west subnode (quadrant 0) and the other three subnodes are empty leaves; Walk
returns 3, `Find(0, 0, 10, 10)` returns 3, `Find(60, 60, 10, 10)` returns 0,
`RemovePayload(0, 0, b)` returns 1 and Walk then returns 2. -/
theorem C10_scenario (a b c : Nat) (hab : a ≠ b) (_hac : a ≠ c) (hbc : b ≠ c) :
    kvad_tree_insert (kvad_tree_create 0 0 100 100 4 2) 1 1 a = some (scenario_tree1 a) ∧
    kvad_tree_insert (scenario_tree1 a) 2 2 b = some (scenario_tree2 a b) ∧
    kvad_tree_insert (scenario_tree2 a b) 3 3 c = some (scenario_tree3 a b c) ∧
    (∃ nw ne sw se, (scenario_tree3 a b c).root_node
        = .node 0 ⟨⟨0, 0⟩, ⟨100, 100⟩⟩ nw ne sw se [] 0 ∧
      nw.rect? = some ⟨⟨0, 0⟩, ⟨50, 50⟩⟩ ∧ ne.rect? = some ⟨⟨50, 0⟩, ⟨50, 50⟩⟩ ∧
      sw.rect? = some ⟨⟨0, 50⟩, ⟨50, 50⟩⟩ ∧ se.rect? = some ⟨⟨50, 50⟩, ⟨50, 50⟩⟩ ∧
      nw.entries = [⟨⟨3, 3⟩, c⟩, ⟨⟨2, 2⟩, b⟩, ⟨⟨1, 1⟩, a⟩] ∧
      ne.entries = [] ∧ sw.entries = [] ∧ se.entries = []) ∧
    kvad_tree_walk (scenario_tree3 a b c) (some kvad_record) []
      = some (3, [(3, 3, c), (2, 2, b), (1, 1, a)]) ∧
    kvad_tree_find (scenario_tree3 a b c) 0 0 10 10 (some kvad_record) []
      = some (3, [(3, 3, c), (2, 2, b), (1, 1, a)]) ∧
    kvad_tree_find (scenario_tree3 a b c) 60 60 10 10 (some kvad_record) [] = some (0, []) ∧
    kvad_tree_remove_payload (scenario_tree3 a b c) 0 0 b = some (scenario_tree4 a c, 1) ∧
    kvad_tree_walk (scenario_tree4 a c) (some kvad_record) []
      = some (2, [(3, 3, c), (1, 1, a)]) := by
  have hf0 : scenario_payload a b c 0 = a := rfl
  have hf1 : scenario_payload a b c 1 = b := rfl
  have hf2 : scenario_payload a b c 2 = c := rfl
  have h1 : kvad_tree_insert (kvad_tree_create 0 0 100 100 4 2) 1 1 a = some (scenario_tree1 a) := by
    have := tree_insert_relabel (scenario_payload a b c) 4 2
      (_kvad_node_create ⟨⟨0, 0⟩, ⟨100, 100⟩⟩ 0) 1 1 0 (scenario_tree1 0).root_node (by decide!)
    simpa [kvad_node.relabel, kvad_data.relabel, _kvad_node_create, kvad_tree_create,
      scenario_tree1, scenario_leaf, hf0] using this
  have h2 : kvad_tree_insert (scenario_tree1 a) 2 2 b = some (scenario_tree2 a b) := by
    have := tree_insert_relabel (scenario_payload a b c) 4 2
      (scenario_tree1 0).root_node 2 2 1 (scenario_tree2 0 1).root_node (by decide!)
    simpa [kvad_node.relabel, kvad_data.relabel, scenario_tree1, scenario_tree2, scenario_leaf,
      hf0, hf1] using this
  have h3 : kvad_tree_insert (scenario_tree2 a b) 3 3 c = some (scenario_tree3 a b c) := by
    have := tree_insert_relabel (scenario_payload a b c) 4 2
      (scenario_tree2 0 1).root_node 3 3 2 (scenario_tree3 0 1 2).root_node (by decide!)
    simpa [kvad_node.relabel, kvad_data.relabel, scenario_tree2, scenario_tree3, scenario_split,
      scenario_nw, scenario_leaf, hf0, hf1, hf2] using this
  have hr3 : Reachable (scenario_tree3 a b c) :=
    Reachable.insert _ _ 3 3 c (Reachable.insert _ _ 2 2 b (Reachable.insert _ _ 1 1 a
      (Reachable.create 0 0 100 100 4 2 (by norm_num) (by norm_num) (by norm_num [UINT_RANGE])
        (by norm_num [UINT_RANGE])) h1) h2) h3
  have he3 : (scenario_tree3 a b c).root_node.entries
      = [⟨⟨3, 3⟩, c⟩, ⟨⟨2, 2⟩, b⟩, ⟨⟨1, 1⟩, a⟩] := by
    simp [scenario_tree3, scenario_split, scenario_nw, scenario_leaf, kvad_node.entries,
      kvad_node.is_null]
  have h4 : kvad_tree_remove_payload (scenario_tree3 a b c) 0 0 b = some (scenario_tree4 a c, 1) := by
    have hcb : ¬ c = b := fun h => hbc h.symm
    have hl : _kvad_node_remove_payload
        (scenario_leaf 4 0 0 (25 / 4) [⟨⟨3, 3⟩, c⟩, ⟨⟨2, 2⟩, b⟩, ⟨⟨1, 1⟩, a⟩]) ⟨0, 0⟩ b
        = some (scenario_leaf 4 0 0 (25 / 4) [⟨⟨3, 3⟩, c⟩, ⟨⟨1, 1⟩, a⟩], 1) := by
      simp only [scenario_leaf, _kvad_node_remove_payload, _kvad_node_remove_payload_loop,
        kvad_node.is_null, hab, hcb, UINT_RANGE_eq, if_true, if_false, Bool.not_true,
        Bool.false_eq_true, List.length_cons, List.length_nil]
    unfold scenario_leaf at hl
    unfold kvad_tree_remove_payload scenario_tree3 scenario_tree4 scenario_split scenario_nw
      scenario_leaf
    rw [remove_at_subnode0 _ _ _ _ _ _ _ _ _ _ _ _ _ _ _ _ _ (scenario_quadrant 100 (by norm_num)),
      remove_at_subnode0 _ _ _ _ _ _ _ _ _ _ _ _ _ _ _ _ _ (scenario_quadrant 50 (by norm_num)),
      remove_at_subnode0 _ _ _ _ _ _ _ _ _ _ _ _ _ _ _ _ _ (scenario_quadrant 25 (by norm_num)),
      remove_at_subnode0 _ _ _ _ _ _ _ _ _ _ _ _ _ _ _ _ _
        (scenario_quadrant (25 / 2) (by norm_num)), hl]
    rfl
  have hr4 : Reachable (scenario_tree4 a c) := Reachable.remove_payload _ _ 0 0 b 1 hr3 h4
  have he4 : (scenario_tree4 a c).root_node.entries = [⟨⟨3, 3⟩, c⟩, ⟨⟨1, 1⟩, a⟩] := by
    simp [scenario_tree4, scenario_split, scenario_nw, scenario_leaf, kvad_node.entries,
      kvad_node.is_null]
  refine ⟨h1, h2, h3, ⟨_, _, _, _, rfl, rfl, rfl, rfl, rfl, ?_, ?_, ?_, ?_⟩, ?_, ?_, ?_, h4, ?_⟩
  · simp [scenario_nw, scenario_leaf, kvad_node.entries, kvad_node.is_null]
  · simp [scenario_leaf, kvad_node.entries, kvad_node.is_null]
  · simp [scenario_leaf, kvad_node.entries, kvad_node.is_null]
  · simp [scenario_leaf, kvad_node.entries, kvad_node.is_null]
  · rw [tree_walk_record (reachable_inv hr3), he3]
    rfl
  · rw [tree_find_record (reachable_inv hr3), he3]
    norm_num [_kvad_rect_contains_point, kvad_data.triple]
  · rw [tree_find_record (reachable_inv hr3), he3]
    norm_num [_kvad_rect_contains_point, kvad_data.triple]
  · rw [tree_walk_record (reachable_inv hr4), he4]
    rfl

/-- C10 with the payloads 10, 20 and 30. -/
theorem C10_witness :
    (10 ≠ 20 ∧ 10 ≠ 30 ∧ 20 ≠ 30) ∧
    kvad_tree_insert (kvad_tree_create 0 0 100 100 4 2) 1 1 10 = some (scenario_tree1 10) ∧
    kvad_tree_insert (scenario_tree1 10) 2 2 20 = some (scenario_tree2 10 20) ∧
    kvad_tree_insert (scenario_tree2 10 20) 3 3 30 = some (scenario_tree3 10 20 30) ∧
    (∃ nw ne sw se, (scenario_tree3 10 20 30).root_node
        = .node 0 ⟨⟨0, 0⟩, ⟨100, 100⟩⟩ nw ne sw se [] 0 ∧
      nw.rect? = some ⟨⟨0, 0⟩, ⟨50, 50⟩⟩ ∧ ne.rect? = some ⟨⟨50, 0⟩, ⟨50, 50⟩⟩ ∧
      sw.rect? = some ⟨⟨0, 50⟩, ⟨50, 50⟩⟩ ∧ se.rect? = some ⟨⟨50, 50⟩, ⟨50, 50⟩⟩ ∧
      nw.entries = [⟨⟨3, 3⟩, 30⟩, ⟨⟨2, 2⟩, 20⟩, ⟨⟨1, 1⟩, 10⟩] ∧
      ne.entries = [] ∧ sw.entries = [] ∧ se.entries = []) ∧
    kvad_tree_walk (scenario_tree3 10 20 30) (some kvad_record) []
      = some (3, [(3, 3, 30), (2, 2, 20), (1, 1, 10)]) ∧
    kvad_tree_find (scenario_tree3 10 20 30) 0 0 10 10 (some kvad_record) []
      = some (3, [(3, 3, 30), (2, 2, 20), (1, 1, 10)]) ∧
    kvad_tree_find (scenario_tree3 10 20 30) 60 60 10 10 (some kvad_record) [] = some (0, []) ∧
    kvad_tree_remove_payload (scenario_tree3 10 20 30) 0 0 20 = some (scenario_tree4 10 30, 1) ∧
    kvad_tree_walk (scenario_tree4 10 30) (some kvad_record) []
      = some (2, [(3, 3, 30), (1, 1, 10)]) :=
  ⟨⟨by decide, by decide, by decide⟩,
    C10_scenario 10 20 30 (by decide) (by decide) (by decide)⟩

/-- C11. Create sanitizes the capacity: for all arguments the tree returned by
Create stores `max_points_per_node = 1` when 0 was passed and the passed value
otherwise, so at least 1; it stores `max_levels` as passed; its root is an empty leaf
at level 0 with a zero count whose bounds are the given rectangle; Walk on it
returns 0 without calling the callback. -/
theorem C11_create_sanitizes (x y width height : ℚ) (max_levels max_points_per_node : Nat) :
    (kvad_tree_create x y width height max_levels max_points_per_node).max_points_per_node
        = (if max_points_per_node = 0 then 1 else max_points_per_node) ∧
      1 ≤ (kvad_tree_create x y width height max_levels max_points_per_node).max_points_per_node ∧
      (kvad_tree_create x y width height max_levels max_points_per_node).max_levels = max_levels ∧
      (kvad_tree_create x y width height max_levels max_points_per_node).root_node
        = .node 0 ⟨⟨x, y⟩, ⟨width, height⟩⟩ .NULL .NULL .NULL .NULL [] 0 ∧
      kvad_tree_walk (kvad_tree_create x y width height max_levels max_points_per_node)
          (some kvad_record) [] = some (0, []) ∧
      kvad_tree_walk (kvad_tree_create x y width height max_levels max_points_per_node)
          (none : Option (kvad_callback Unit)) () = some (0, ()) := by
  refine ⟨rfl, ?_, rfl, rfl, rfl, rfl⟩
  simp only [kvad_tree_create]
  split_ifs <;> omega

/-- C12. An out-of-bounds insert is a no-op: on every reachable tree, for every
point that fails the inclusive bounds test of the root, Insert returns the tree it
was given, with every node and entry as before, so Walk and every Find return
what they returned before. -/
theorem C12_out_of_bounds_insert_is_noop (tree : kvad_tree) (h : Reachable tree) (x y : ℚ)
    (payload : Nat) (hb : kvad_tree_in_bounds tree x y = false) :
    kvad_tree_insert tree x y payload = some tree ∧
      ∀ tree1, kvad_tree_insert tree x y payload = some tree1 →
        kvad_tree_walk tree1 (some kvad_record) [] = kvad_tree_walk tree (some kvad_record) [] ∧
        ∀ qx qy width height,
          kvad_tree_find tree1 qx qy width height (some kvad_record) []
            = kvad_tree_find tree qx qy width height (some kvad_record) [] := by
  have hi := reachable_inv h
  have hins : kvad_tree_insert tree x y payload = some tree := by
    cases tree with
    | mk ml mp root =>
      cases root with
      | NULL => simp [tree_inv, node_inv] at hi
      | node level rect s0 s1 s2 s3 data dc =>
        have hc : _kvad_rect_contains_point rect ⟨x, y⟩ = false := hb
        simp only [kvad_tree_insert, kvad_tree_insert_fuel, _kvad_node_insert, hc, Bool.not_false,
          if_true, Option.map_some']
  refine ⟨hins, ?_⟩
  intro tree1 h1
  rw [hins] at h1
  cases h1
  exact ⟨rfl, fun _ _ _ _ => rfl⟩

/-- C12 on the sample tree with three entries and one split, for `Insert(200, 200, 9)`. -/
theorem C12_witness :
    Reachable sample_tree3 ∧
      kvad_tree_in_bounds sample_tree3 200 200 = false ∧
    (kvad_tree_insert sample_tree3 200 200 9 = some sample_tree3 ∧
      ∀ tree1, kvad_tree_insert sample_tree3 200 200 9 = some tree1 →
        kvad_tree_walk tree1 (some kvad_record) [] = kvad_tree_walk sample_tree3 (some kvad_record) [] ∧
        ∀ qx qy width height,
          kvad_tree_find tree1 qx qy width height (some kvad_record) []
            = kvad_tree_find sample_tree3 qx qy width height (some kvad_record) []) :=
  ⟨sample_tree3_reachable, by decide!, C12_out_of_bounds_insert_is_noop sample_tree3 sample_tree3_reachable 200 200 9 (by decide!)⟩

/-- C13. Quadrant selection: at every internal node, with `mid = origin + size / 2`,
`_kvad_node_subnode_at_point` returns the subnode of index
`2 * (y > mid.y) + (x > mid.x)`; a point on a midline goes to the lower-index side
of that axis; and `_kvad_node_insert` (for a point inside the bounds) and
`_kvad_node_remove_payload` both continue in exactly that subnode and write the
result back at that index. -/
theorem C13_quadrant_selection (level : Nat) (rect : kvad_rect) (s0 s1 s2 s3 : kvad_node)
    (data : List kvad_data) (data_count : Nat) (point : kvad_point)
    (hs : s0.is_null = false) :
    kvad_quadrant rect point
        = 2 * (if point.y > rect.origin.y + rect.size.height / 2 then 1 else 0)
          + (if point.x > rect.origin.x + rect.size.width / 2 then 1 else 0) ∧
      _kvad_node_subnode_at_point (.node level rect s0 s1 s2 s3 data data_count) point
        = [s0, s1, s2, s3][kvad_quadrant rect point]? ∧
      (point.x = rect.origin.x + rect.size.width / 2 → kvad_quadrant rect point % 2 = 0) ∧
      (point.y = rect.origin.y + rect.size.height / 2 → kvad_quadrant rect point < 2) ∧
      (∀ tree fuel payload, _kvad_rect_contains_point rect point = true →
        _kvad_node_insert (fuel + 1) tree (.node level rect s0 s1 s2 s3 data data_count)
            point payload
          = (_kvad_node_subnode_at_point (.node level rect s0 s1 s2 s3 data data_count)
              point).bind (fun sub =>
                (_kvad_node_insert fuel tree sub point payload).map (fun r =>
                  (kvad_node.node level rect s0 s1 s2 s3 data data_count).set_subnode
                    (kvad_quadrant rect point) r))) ∧
      (∀ payload,
        _kvad_node_remove_payload (.node level rect s0 s1 s2 s3 data data_count) point payload
          = (_kvad_node_subnode_at_point (.node level rect s0 s1 s2 s3 data data_count)
              point).bind (fun sub =>
                (_kvad_node_remove_payload sub point payload).map (fun r =>
                  ((kvad_node.node level rect s0 s1 s2 s3 data data_count).set_subnode
                    (kvad_quadrant rect point) r.1, r.2)))) := by
  have hq4 := quadrant_lt rect point
  refine ⟨?_, ?_, ?_, ?_, ?_, ?_⟩
  · simp only [kvad_quadrant]
    split_ifs <;> rfl
  · have hq : kvad_quadrant rect point = 0 ∨ kvad_quadrant rect point = 1 ∨
        kvad_quadrant rect point = 2 ∨ kvad_quadrant rect point = 3 := by omega
    rcases hq with hq | hq | hq | hq <;> simp [_kvad_node_subnode_at_point, hq]
  · intro hx
    have : ¬ point.x > rect.origin.x + rect.size.width / 2 := by rw [hx]; exact lt_irrefl _
    simp only [kvad_quadrant, if_neg this]
    omega
  · intro hy
    have : ¬ point.y > rect.origin.y + rect.size.height / 2 := by rw [hy]; exact lt_irrefl _
    simp only [kvad_quadrant, if_neg this]
    split_ifs <;> omega
  · intro tree fuel payload hc
    have hq : kvad_quadrant rect point = 0 ∨ kvad_quadrant rect point = 1 ∨
        kvad_quadrant rect point = 2 ∨ kvad_quadrant rect point = 3 := by omega
    rcases hq with hq | hq | hq | hq <;>
    · simp only [_kvad_node_insert, _kvad_node_subnode_at_point, hc, hs, hq, Bool.not_true,
        Bool.not_false, Bool.false_eq_true, if_false, if_true, Option.bind_eq_bind,
        Option.pure_def, Option.some_bind, kvad_node.set_subnode]
      cases _kvad_node_insert fuel tree _ point payload <;> rfl
  · intro payload
    have hq : kvad_quadrant rect point = 0 ∨ kvad_quadrant rect point = 1 ∨
        kvad_quadrant rect point = 2 ∨ kvad_quadrant rect point = 3 := by omega
    rcases hq with hq | hq | hq | hq <;>
    · simp only [_kvad_node_remove_payload, _kvad_node_subnode_at_point, hs, hq,
        Bool.not_false, if_true, Option.bind_eq_bind,
        Option.pure_def, Option.some_bind, kvad_node.set_subnode]
      cases _kvad_node_remove_payload _ point payload <;> rfl

/-- C13 at the root of the sample tree with one split, for the point `(50, 50)` on both midlines. -/
theorem C13_witness :
    sample_nw.is_null = false ∧
    (kvad_quadrant sample_rect (⟨50, 50⟩ : kvad_point)
        = 2 * (if (⟨50, 50⟩ : kvad_point).y > sample_rect.origin.y + sample_rect.size.height / 2 then 1 else 0)
          + (if (⟨50, 50⟩ : kvad_point).x > sample_rect.origin.x + sample_rect.size.width / 2 then 1 else 0) ∧
      _kvad_node_subnode_at_point (.node 0 sample_rect sample_nw (sample_leaf 50 0) (sample_leaf 0 50) (sample_leaf 50 50) [] 0) (⟨50, 50⟩ : kvad_point)
        = [sample_nw, (sample_leaf 50 0), (sample_leaf 0 50), (sample_leaf 50 50)][kvad_quadrant sample_rect (⟨50, 50⟩ : kvad_point)]? ∧
      ((⟨50, 50⟩ : kvad_point).x = sample_rect.origin.x + sample_rect.size.width / 2 → kvad_quadrant sample_rect (⟨50, 50⟩ : kvad_point) % 2 = 0) ∧
      ((⟨50, 50⟩ : kvad_point).y = sample_rect.origin.y + sample_rect.size.height / 2 → kvad_quadrant sample_rect (⟨50, 50⟩ : kvad_point) < 2) ∧
      (∀ tree fuel payload, _kvad_rect_contains_point sample_rect (⟨50, 50⟩ : kvad_point) = true →
        _kvad_node_insert (fuel + 1) tree (.node 0 sample_rect sample_nw (sample_leaf 50 0) (sample_leaf 0 50) (sample_leaf 50 50) [] 0)
            (⟨50, 50⟩ : kvad_point) payload
          = (_kvad_node_subnode_at_point (.node 0 sample_rect sample_nw (sample_leaf 50 0) (sample_leaf 0 50) (sample_leaf 50 50) [] 0)
              (⟨50, 50⟩ : kvad_point)).bind (fun sub =>
                (_kvad_node_insert fuel tree sub (⟨50, 50⟩ : kvad_point) payload).map (fun r =>
                  (kvad_node.node 0 sample_rect sample_nw (sample_leaf 50 0) (sample_leaf 0 50) (sample_leaf 50 50) [] 0).set_subnode
                    (kvad_quadrant sample_rect (⟨50, 50⟩ : kvad_point)) r))) ∧
      (∀ payload,
        _kvad_node_remove_payload (.node 0 sample_rect sample_nw (sample_leaf 50 0) (sample_leaf 0 50) (sample_leaf 50 50) [] 0) (⟨50, 50⟩ : kvad_point) payload
          = (_kvad_node_subnode_at_point (.node 0 sample_rect sample_nw (sample_leaf 50 0) (sample_leaf 0 50) (sample_leaf 50 50) [] 0)
              (⟨50, 50⟩ : kvad_point)).bind (fun sub =>
                (_kvad_node_remove_payload sub (⟨50, 50⟩ : kvad_point) payload).map (fun r =>
                  ((kvad_node.node 0 sample_rect sample_nw (sample_leaf 50 0) (sample_leaf 0 50) (sample_leaf 50 50) [] 0).set_subnode
                    (kvad_quadrant sample_rect (⟨50, 50⟩ : kvad_point)) r.1, r.2))))) :=
  ⟨rfl, C13_quadrant_selection 0 sample_rect sample_nw (sample_leaf 50 0) (sample_leaf 0 50) (sample_leaf 50 50) [] 0 ⟨50, 50⟩ rfl⟩

/-- C14. Invariant N1, leaf and internal are mutually exclusive: in every reachable
tree a node whose `subnodes[0]` is present has all four subnodes present, an empty
list and `data_count = 0`; a node whose `subnodes[0]` is absent has all four
subnodes absent. -/
theorem C14_leaf_internal_exclusive (tree : kvad_tree) (h : Reachable tree) (path : List Nat)
    (level : Nat) (rect : kvad_rect) (s0 s1 s2 s3 : kvad_node) (data : List kvad_data)
    (data_count : Nat)
    (hn : tree.root_node.descend path = .node level rect s0 s1 s2 s3 data data_count) :
    (s0.is_null = false →
      s1.is_null = false ∧ s2.is_null = false ∧ s3.is_null = false ∧
        data = [] ∧ data_count = 0) ∧
    (s0.is_null = true → s0 = .NULL ∧ s1 = .NULL ∧ s2 = .NULL ∧ s3 = .NULL) := by
  have hinv : node_inv tree (.node level rect s0 s1 s2 s3 data data_count) := by
    rcases node_inv_descend tree.root_node (reachable_inv h).2.2.2 path with hnull | hinv
    · rw [hnull] at hn; cases hn
    · rw [hn] at hinv; exact hinv
  constructor
  · intro hs
    obtain ⟨_, _, _, hd, hc, _, ⟨_, _⟩, ⟨h1, _⟩, ⟨h2, _⟩, ⟨h3, _⟩⟩ := node_inv_internal hinv hs
    exact ⟨node_inv_not_null h1, node_inv_not_null h2, node_inv_not_null h3, hd, hc⟩
  · intro hs
    obtain ⟨_, _, _, e1, e2, e3, _⟩ := node_inv_leaf hinv hs
    exact ⟨(is_null_iff s0).1 hs, e1, e2, e3⟩

/-- C14 at the root of the sample tree with three entries and one split. -/
theorem C14_witness :
    Reachable sample_tree3 ∧
      sample_tree3.root_node.descend [] = .node 0 sample_rect sample_nw (sample_leaf 50 0) (sample_leaf 0 50) (sample_leaf 50 50) [] 0 ∧
    ((sample_nw.is_null = false →
      (sample_leaf 50 0).is_null = false ∧ (sample_leaf 0 50).is_null = false ∧ (sample_leaf 50 50).is_null = false ∧
        ([] : List kvad_data) = [] ∧ 0 = 0) ∧
    (sample_nw.is_null = true → sample_nw = .NULL ∧ (sample_leaf 50 0) = .NULL ∧ (sample_leaf 0 50) = .NULL ∧ (sample_leaf 50 50) = .NULL)) :=
  ⟨sample_tree3_reachable, rfl, C14_leaf_internal_exclusive sample_tree3 sample_tree3_reachable [] 0 sample_rect sample_nw (sample_leaf 50 0) (sample_leaf 0 50) (sample_leaf 50 50) [] 0 rfl⟩

/-- At `max_levels = 0` the root never splits and takes every cell. -/
theorem drift_tree_insert (k : Nat) :
    kvad_tree_insert (drift_tree k) 0 0 0 = some (drift_tree (k + 1)) := by
  have hc : _kvad_rect_contains_point ⟨⟨0, 0⟩, ⟨1, 1⟩⟩ ⟨0, 0⟩ = true := by
    rw [contains_iff]; norm_num
  have hnot : ¬ (0 < 0 ∧ (k % UINT_RANGE + 1) % UINT_RANGE > 1) := fun h => lt_irrefl 0 h.1
  simp only [kvad_tree_insert, kvad_tree_insert_fuel, drift_tree, _kvad_node_insert, hc,
    kvad_node.is_null, hnot]
  simp [List.replicate_succ, uint_succ_mod]

theorem drift_tree_insert_all (k : Nat) :
    ∀ j, kvad_tree_insert_all (drift_tree j) (List.replicate k (0, 0, 0))
      = some (drift_tree (j + k)) := by
  induction k with
  | zero => intro j; rfl
  | succ k ih =>
    intro j
    simp only [kvad_tree_insert_all, List.replicate_succ, List.foldlM_cons, drift_tree_insert]
    have := ih (j + 1)
    simp only [kvad_tree_insert_all] at this
    rw [show j + (k + 1) = j + 1 + k by omega]
    exact this

theorem drift_tree_zero : kvad_tree_create 0 0 1 1 0 1 = drift_tree 0 := by
  simp [kvad_tree_create, _kvad_node_create, drift_tree]

theorem drift_tree_reachable (k : Nat) : Reachable (drift_tree k) := by
  induction k with
  | zero =>
    rw [← drift_tree_zero]
    exact Reachable.create 0 0 1 1 0 1 (by norm_num) (by norm_num)
      (by norm_num [UINT_RANGE]) (by norm_num [UINT_RANGE])
  | succ k ih => exact Reachable.insert _ _ 0 0 0 ih (drift_tree_insert k)

/-- While a leaf of a reachable tree holds fewer than `2 ^ 32` cells its
`data_count` is the length of its list. -/
theorem count_eq_length_below_wrap (tree : kvad_tree) (h : Reachable tree) (path : List Nat)
    (level : Nat) (rect : kvad_rect) (s1 s2 s3 : kvad_node) (data : List kvad_data)
    (data_count : Nat)
    (hn : tree.root_node.descend path = .node level rect .NULL s1 s2 s3 data data_count)
    (hl : data.length < UINT_RANGE) : data_count = data.length := by
  rcases node_inv_descend tree.root_node (reachable_inv h).2.2.2 path with hnull | hinv
  · rw [hnull] at hn
    cases hn
  · rw [hn] at hinv
    rw [(node_inv_leaf hinv rfl).2.2.2.2.2.2.1]
    exact Nat.mod_eq_of_lt hl

/-- C16 fails on the code when `data_count` wraps: after
`Create(0, 0, 1, 1, maxLevels = 0, maxPointsPerNode = 1)` and 4294967296 calls
`Insert(0, 0, 0)` the root leaf holds 4294967296 cells while its `data_count` is 0;
Walk counts 4294967296, so its assertion `count == node->data_count` is false; and
the first matching cell met by the loop of RemovePayload takes `data_count` from 0
to 4294967295. -/
theorem C16_count_drift :
    kvad_tree_insert_all (kvad_tree_create 0 0 1 1 0 1)
        (List.replicate 4294967296 (0, 0, 0)) = some (drift_tree 4294967296) ∧
      Reachable (drift_tree 4294967296) ∧
      (drift_tree 4294967296).root_node
        = .node 0 ⟨⟨0, 0⟩, ⟨1, 1⟩⟩ .NULL .NULL .NULL .NULL
            (List.replicate 4294967296 ⟨⟨0, 0⟩, 0⟩) 0 ∧
      (List.replicate 4294967296 (⟨⟨0, 0⟩, 0⟩ : kvad_data)).length = 4294967296 ∧
      kvad_tree_walk (drift_tree 4294967296) (none : Option (kvad_callback Unit)) ()
        = some (4294967296, ()) ∧
      _kvad_node_remove_payload_loop 0 (List.replicate (4294967295 + 1) ⟨⟨0, 0⟩, 0⟩) 0 0
        = _kvad_node_remove_payload_loop 0 (List.replicate 4294967295 ⟨⟨0, 0⟩, 0⟩) 1
            4294967295 := by
  have hmod : 4294967296 % UINT_RANGE = 0 := by rw [UINT_RANGE_eq]
  refine ⟨?_, drift_tree_reachable _, ?_, List.length_replicate _ _, ?_, ?_⟩
  · have h := drift_tree_insert_all 4294967296 0
    rw [Nat.zero_add] at h
    rw [drift_tree_zero]
    exact h
  · rw [drift_tree, hmod]
  · have he : (drift_tree 4294967296).root_node.entries
        = List.replicate 4294967296 ⟨⟨0, 0⟩, 0⟩ := by
      simp only [drift_tree, kvad_node.entries, kvad_node.is_null, if_true]
    exact (tree_walk_eq (reachable_inv (drift_tree_reachable 4294967296)) none ()).trans
      (congrArg some (Prod.ext ((congrArg List.length he).trans (List.length_replicate _ _))
        (Subsingleton.elim _ _)))
  · have hdec : (0 + UINT_RANGE - 1) % UINT_RANGE = 4294967295 := by rw [UINT_RANGE_eq]
    rw [List.replicate_succ, _kvad_node_remove_payload_loop, if_pos rfl, hdec]

/-! ## C17: the frame of a removal -/

theorem remove_loop_fst (payload : Nat) (l : List kvad_data) :
    ∀ count dc, (_kvad_node_remove_payload_loop payload l count dc).1
      = l.filter (fun d => ¬ d.payload = payload) := by
  induction l with
  | nil => intro count dc; rfl
  | cons d l ih =>
    intro count dc
    by_cases hd : d.payload = payload
    · rw [_kvad_node_remove_payload_loop, if_pos hd, ih, List.filter_cons_of_neg (by simpa using hd)]
    · rw [_kvad_node_remove_payload_loop, if_neg hd]
      simp only [ih]
      rw [List.filter_cons_of_pos (by simpa using hd)]

theorem descend_leaf_path (point : kvad_point) (n : kvad_node) :
    n.descend (n.leaf_path point) = n.leaf_at point := by
  induction n with
  | NULL => rfl
  | node level rect s0 s1 s2 s3 data dc ih0 ih1 ih2 ih3 =>
    by_cases hs : s0.is_null = true
    · simp [kvad_node.leaf_path, kvad_node.leaf_at, hs, kvad_node.descend]
    · have hq4 := quadrant_lt rect point
      have hq : kvad_quadrant rect point = 0 ∨ kvad_quadrant rect point = 1 ∨
          kvad_quadrant rect point = 2 ∨ kvad_quadrant rect point = 3 := by omega
      rcases hq with hq | hq | hq | hq <;>
        simp [kvad_node.leaf_path, kvad_node.leaf_at, hs, hq, kvad_node.descend, ih0, ih1, ih2, ih3]

/-- The frame of `_kvad_node_remove_payload`: the list of the selected leaf loses
the cells with the payload, and no other node has its list or its count changed. -/
theorem remove_frame (point : kvad_point) (payload : Nat) (n : kvad_node) :
    ∀ r c, _kvad_node_remove_payload n point payload = some (r, c) →
      (r.descend (n.leaf_path point)).data?
          = (n.leaf_at point).data?.map (fun l => l.filter (fun d => ¬ d.payload = payload)) ∧
        ∀ path, path ≠ n.leaf_path point →
          (r.descend path).data? = (n.descend path).data? ∧
            (r.descend path).data_count? = (n.descend path).data_count? := by
  induction n with
  | NULL => intro r c h; simp [_kvad_node_remove_payload] at h
  | node level rect s0 s1 s2 s3 data dc ih0 ih1 ih2 ih3 =>
    intro r c h
    by_cases hs : s0.is_null = true
    · simp only [_kvad_node_remove_payload, hs, Bool.not_true, Bool.false_eq_true, if_false,
        Option.some.injEq, Prod.mk.injEq] at h
      obtain ⟨hr, -⟩ := h
      subst hr
      refine ⟨?_, ?_⟩
      · simp [kvad_node.leaf_path, kvad_node.leaf_at, hs, kvad_node.descend, kvad_node.data?,
          remove_loop_fst]
      · intro path hp
        cases path with
        | nil => simp [kvad_node.leaf_path, hs] at hp
        | cons j rest =>
          match j with
          | 0 | 1 | 2 | 3 | _ + 4 => simp [kvad_node.descend]
    · have hq4 := quadrant_lt rect point
      have hq : kvad_quadrant rect point = 0 ∨ kvad_quadrant rect point = 1 ∨
          kvad_quadrant rect point = 2 ∨ kvad_quadrant rect point = 3 := by omega
      rcases hq with hq | hq | hq | hq
      · simp only [_kvad_node_remove_payload, hs, hq, Bool.not_false, if_true, Bool.not_eq_true] at h
        cases h0 : _kvad_node_remove_payload s0 point payload with
        | none => simp [h0] at h
        | some rc =>
          obtain ⟨r0, c0⟩ := rc
          simp [h0] at h
          obtain ⟨hr, -⟩ := h
          subst hr
          obtain ⟨f1, f2⟩ := ih0 r0 c0 h0
          refine ⟨?_, ?_⟩
          · simpa [kvad_node.leaf_path, kvad_node.leaf_at, hs, hq, kvad_node.descend] using f1
          · intro path hp
            cases path with
            | nil => simp [kvad_node.descend, kvad_node.data?, kvad_node.data_count?]
            | cons j rest =>
              match j with
              | 0 =>
                have hp1 : rest ≠ s0.leaf_path point := by
                  intro e; apply hp; simp [kvad_node.leaf_path, hs, hq, e]
                simpa [kvad_node.descend] using f2 rest hp1
              | 1 | 2 | 3 | _ + 4 => simp [kvad_node.descend]
      · simp only [_kvad_node_remove_payload, hs, hq, Bool.not_false, if_true, Bool.not_eq_true] at h
        cases h0 : _kvad_node_remove_payload s1 point payload with
        | none => simp [h0] at h
        | some rc =>
          obtain ⟨r0, c0⟩ := rc
          simp [h0] at h
          obtain ⟨hr, -⟩ := h
          subst hr
          obtain ⟨f1, f2⟩ := ih1 r0 c0 h0
          refine ⟨?_, ?_⟩
          · simpa [kvad_node.leaf_path, kvad_node.leaf_at, hs, hq, kvad_node.descend] using f1
          · intro path hp
            cases path with
            | nil => simp [kvad_node.descend, kvad_node.data?, kvad_node.data_count?]
            | cons j rest =>
              match j with
              | 1 =>
                have hp1 : rest ≠ s1.leaf_path point := by
                  intro e; apply hp; simp [kvad_node.leaf_path, hs, hq, e]
                simpa [kvad_node.descend] using f2 rest hp1
              | 0 | 2 | 3 | _ + 4 => simp [kvad_node.descend]
      · simp only [_kvad_node_remove_payload, hs, hq, Bool.not_false, if_true, Bool.not_eq_true] at h
        cases h0 : _kvad_node_remove_payload s2 point payload with
        | none => simp [h0] at h
        | some rc =>
          obtain ⟨r0, c0⟩ := rc
          simp [h0] at h
          obtain ⟨hr, -⟩ := h
          subst hr
          obtain ⟨f1, f2⟩ := ih2 r0 c0 h0
          refine ⟨?_, ?_⟩
          · simpa [kvad_node.leaf_path, kvad_node.leaf_at, hs, hq, kvad_node.descend] using f1
          · intro path hp
            cases path with
            | nil => simp [kvad_node.descend, kvad_node.data?, kvad_node.data_count?]
            | cons j rest =>
              match j with
              | 2 =>
                have hp1 : rest ≠ s2.leaf_path point := by
                  intro e; apply hp; simp [kvad_node.leaf_path, hs, hq, e]
                simpa [kvad_node.descend] using f2 rest hp1
              | 0 | 1 | 3 | _ + 4 => simp [kvad_node.descend]
      · simp only [_kvad_node_remove_payload, hs, hq, Bool.not_false, if_true, Bool.not_eq_true] at h
        cases h0 : _kvad_node_remove_payload s3 point payload with
        | none => simp [h0] at h
        | some rc =>
          obtain ⟨r0, c0⟩ := rc
          simp [h0] at h
          obtain ⟨hr, -⟩ := h
          subst hr
          obtain ⟨f1, f2⟩ := ih3 r0 c0 h0
          refine ⟨?_, ?_⟩
          · simpa [kvad_node.leaf_path, kvad_node.leaf_at, hs, hq, kvad_node.descend] using f1
          · intro path hp
            cases path with
            | nil => simp [kvad_node.descend, kvad_node.data?, kvad_node.data_count?]
            | cons j rest =>
              match j with
              | 3 =>
                have hp1 : rest ≠ s3.leaf_path point := by
                  intro e; apply hp; simp [kvad_node.leaf_path, hs, hq, e]
                simpa [kvad_node.descend] using f2 rest hp1
              | 0 | 1 | 2 | _ + 4 => simp [kvad_node.descend]

theorem node_inv_leaf_at {tree : kvad_tree} (point : kvad_point) (n : kvad_node) :
    node_inv tree n → node_inv tree (n.leaf_at point) ∧ (n.leaf_at point).is_leaf = true := by
  induction n with
  | NULL => intro h; simp [node_inv] at h
  | node level rect s0 s1 s2 s3 data dc ih0 ih1 ih2 ih3 =>
    intro hn
    by_cases hs : s0.is_null = true
    · simp only [kvad_node.leaf_at, hs, if_true]
      exact ⟨hn, by simp [kvad_node.is_leaf, hs]⟩
    · simp only [Bool.not_eq_true] at hs
      have hi := node_inv_internal hn hs
      have hq4 := quadrant_lt rect point
      have hq : kvad_quadrant rect point = 0 ∨ kvad_quadrant rect point = 1 ∨
          kvad_quadrant rect point = 2 ∨ kvad_quadrant rect point = 3 := by omega
      rcases hq with hq | hq | hq | hq
      · simp only [kvad_node.leaf_at, hs, hq, Bool.false_eq_true, if_false]
        exact ih0 hi.2.2.2.2.2.2.1.1
      · simp only [kvad_node.leaf_at, hs, hq, Bool.false_eq_true, if_false]
        exact ih1 hi.2.2.2.2.2.2.2.1.1
      · simp only [kvad_node.leaf_at, hs, hq, Bool.false_eq_true, if_false]
        exact ih2 hi.2.2.2.2.2.2.2.2.1.1
      · simp only [kvad_node.leaf_at, hs, hq, Bool.false_eq_true, if_false]
        exact ih3 hi.2.2.2.2.2.2.2.2.2.1

theorem leaf_fields_of_inv {tree : kvad_tree} {n : kvad_node} (hn : node_inv tree n)
    (hl : n.is_leaf = true) :
    ∃ data, n.data? = some data ∧ n.data_count? = some (data.length % UINT_RANGE) ∧
      n.entries = data := by
  cases n with
  | NULL => simp [kvad_node.is_leaf] at hl
  | node level rect s0 s1 s2 s3 data dc =>
    have hs : s0.is_null = true := hl
    refine ⟨data, rfl, ?_, by simp [kvad_node.entries, hs]⟩
    rw [(node_inv_leaf hn hs).2.2.2.2.2.2.1]
    rfl

theorem is_null_of_level_eq {a b : kvad_node} (h : a.level? = b.level?) :
    a.is_null = b.is_null := by
  cases a <;> cases b <;> simp_all [kvad_node.level?, kvad_node.is_null]

theorem entries_of_data_eq {a b : kvad_node} (hd : a.data? = b.data?)
    (hl : a.is_leaf = b.is_leaf) (hb : b.is_leaf = true) : a.entries = b.entries := by
  rw [hb] at hl
  cases a with
  | NULL => simp [kvad_node.is_leaf] at hl
  | node la ra a0 a1 a2 a3 da ca =>
    cases b with
    | NULL => simp [kvad_node.is_leaf] at hb
    | node lb rb b0 b1 b2 b3 db cb =>
      have h1 : a0.is_null = true := hl
      have h2 : b0.is_null = true := hb
      simp only [kvad_node.data?, Option.some.injEq] at hd
      simp [kvad_node.entries, h1, h2, hd]

/-- C17. Invariant N5, removal never restructures: on a reachable tree
`kvad_tree_remove_payload` returns, keeps the limits, and leaves at every place of
the tree the same node or `NULL`, with the same level, bounds and leaf status, so an
internal node stays internal; the descent by quadrant selection ends on a leaf, the
only node whose list or count may differ: its list loses the cells with the payload
and its count is the new length modulo `2 ^ 32`; every other node keeps its list
and count, every other leaf its entries; a leaf emptied by the call stays a leaf
with an empty list and the count 0. -/
theorem C17_remove_never_restructures (tree : kvad_tree) (h : Reachable tree) (x y : ℚ)
    (payload : Nat) :
    ∃ tree1 c, kvad_tree_remove_payload tree x y payload = some (tree1, c) ∧
      tree1.max_levels = tree.max_levels ∧
      tree1.max_points_per_node = tree.max_points_per_node ∧
      (∀ path,
        (tree1.root_node.descend path).is_null = (tree.root_node.descend path).is_null ∧
        (tree1.root_node.descend path).level? = (tree.root_node.descend path).level? ∧
        (tree1.root_node.descend path).rect? = (tree.root_node.descend path).rect? ∧
        (tree1.root_node.descend path).is_leaf = (tree.root_node.descend path).is_leaf) ∧
      tree.root_node.descend (tree.root_node.leaf_path ⟨x, y⟩) = tree.root_node.leaf_at ⟨x, y⟩ ∧
      (tree.root_node.leaf_at ⟨x, y⟩).is_leaf = true ∧
      (∀ path, path ≠ tree.root_node.leaf_path ⟨x, y⟩ →
        (tree1.root_node.descend path).data? = (tree.root_node.descend path).data? ∧
        (tree1.root_node.descend path).data_count?
          = (tree.root_node.descend path).data_count? ∧
        ((tree.root_node.descend path).is_leaf = true →
          (tree1.root_node.descend path).entries = (tree.root_node.descend path).entries)) ∧
      (∃ data, (tree.root_node.leaf_at ⟨x, y⟩).data? = some data ∧
        (tree1.root_node.descend (tree.root_node.leaf_path ⟨x, y⟩)).is_leaf = true ∧
        (tree1.root_node.descend (tree.root_node.leaf_path ⟨x, y⟩)).data?
          = some (data.filter (fun d => ¬ d.payload = payload)) ∧
        (tree1.root_node.descend (tree.root_node.leaf_path ⟨x, y⟩)).data_count?
          = some ((data.filter (fun d => ¬ d.payload = payload)).length % UINT_RANGE) ∧
        ((∀ d ∈ data, d.payload = payload) →
          (tree1.root_node.descend (tree.root_node.leaf_path ⟨x, y⟩)).data? = some [] ∧
          (tree1.root_node.descend (tree.root_node.leaf_path ⟨x, y⟩)).data_count? = some 0 ∧
          (tree1.root_node.descend (tree.root_node.leaf_path ⟨x, y⟩)).entries = [])) := by
  have hinv := reachable_inv h
  obtain ⟨tree1, c, e1, hml, hmp, hinv1, hn1, hshape, -⟩ := tree_remove_spec hinv x y payload
  have hnode : _kvad_node_remove_payload tree.root_node ⟨x, y⟩ payload
      = some (tree1.root_node, c) := by
    have e2 := e1
    rw [kvad_tree_remove_payload] at e2
    cases hr : _kvad_node_remove_payload tree.root_node ⟨x, y⟩ payload with
    | none => rw [hr] at e2; cases e2
    | some rc =>
      rw [hr] at e2
      simp only [Option.map_some', Option.some.injEq, Prod.mk.injEq] at e2
      rw [← e2.1, ← e2.2]
  obtain ⟨f1, f2⟩ := remove_frame ⟨x, y⟩ payload tree.root_node tree1.root_node c hnode
  obtain ⟨hli, hll⟩ := node_inv_leaf_at ⟨x, y⟩ tree.root_node hinv.2.2.2
  obtain ⟨data, hd, -, -⟩ := leaf_fields_of_inv hli hll
  have hlp := descend_leaf_path ⟨x, y⟩ tree.root_node
  have hleaf1 : (tree1.root_node.descend (tree.root_node.leaf_path ⟨x, y⟩)).is_leaf = true := by
    rw [(hshape _).2.2, hlp, hll]
  have hinvl : node_inv tree (tree1.root_node.descend (tree.root_node.leaf_path ⟨x, y⟩)) := by
    rcases node_inv_descend tree1.root_node hn1 (tree.root_node.leaf_path ⟨x, y⟩) with hnull | hi
    · rw [hnull] at hleaf1
      simp [kvad_node.is_leaf] at hleaf1
    · exact hi
  obtain ⟨data1, hd1, hc1, he1⟩ := leaf_fields_of_inv hinvl hleaf1
  have hdata1 : data1 = data.filter (fun d => ¬ d.payload = payload) := by
    rw [hd1, hd] at f1
    simpa using f1
  refine ⟨tree1, c, e1, hml, hmp, ?_, hlp, hll, ?_, data, hd, hleaf1, ?_, ?_, ?_⟩
  · intro path
    exact ⟨is_null_of_level_eq (hshape path).1, (hshape path).1, (hshape path).2.1,
      (hshape path).2.2⟩
  · intro path hp
    refine ⟨(f2 path hp).1, (f2 path hp).2, fun hl => ?_⟩
    exact entries_of_data_eq (f2 path hp).1 (hshape path).2.2 hl
  · rw [hd1, hdata1]
  · rw [hc1, hdata1]
  · intro hall
    have hnil : data.filter (fun d => ¬ d.payload = payload) = [] := by
      rw [List.filter_eq_nil_iff]
      intro d hd
      simpa using hall d hd
    rw [hd1, hc1, he1, hdata1, hnil]
    exact ⟨rfl, rfl, rfl⟩

/-- The frame of a removal, on the sample tree with the call `RemovePayload(1, 1, 7)`. -/
theorem C17_witness :
    Reachable sample_tree3 ∧
    (∃ tree1 c, kvad_tree_remove_payload sample_tree3 1 1 7 = some (tree1, c) ∧
      tree1.max_levels = sample_tree3.max_levels ∧
      tree1.max_points_per_node = sample_tree3.max_points_per_node ∧
      (∀ path,
        (tree1.root_node.descend path).is_null = (sample_tree3.root_node.descend path).is_null ∧
        (tree1.root_node.descend path).level? = (sample_tree3.root_node.descend path).level? ∧
        (tree1.root_node.descend path).rect? = (sample_tree3.root_node.descend path).rect? ∧
        (tree1.root_node.descend path).is_leaf = (sample_tree3.root_node.descend path).is_leaf) ∧
      sample_tree3.root_node.descend (sample_tree3.root_node.leaf_path ⟨1, 1⟩) = sample_tree3.root_node.leaf_at ⟨1, 1⟩ ∧
      (sample_tree3.root_node.leaf_at ⟨1, 1⟩).is_leaf = true ∧
      (∀ path, path ≠ sample_tree3.root_node.leaf_path ⟨1, 1⟩ →
        (tree1.root_node.descend path).data? = (sample_tree3.root_node.descend path).data? ∧
        (tree1.root_node.descend path).data_count?
          = (sample_tree3.root_node.descend path).data_count? ∧
        ((sample_tree3.root_node.descend path).is_leaf = true →
          (tree1.root_node.descend path).entries = (sample_tree3.root_node.descend path).entries)) ∧
      (∃ data, (sample_tree3.root_node.leaf_at ⟨1, 1⟩).data? = some data ∧
        (tree1.root_node.descend (sample_tree3.root_node.leaf_path ⟨1, 1⟩)).is_leaf = true ∧
        (tree1.root_node.descend (sample_tree3.root_node.leaf_path ⟨1, 1⟩)).data?
          = some (data.filter (fun d => ¬ d.payload = 7)) ∧
        (tree1.root_node.descend (sample_tree3.root_node.leaf_path ⟨1, 1⟩)).data_count?
          = some ((data.filter (fun d => ¬ d.payload = 7)).length % UINT_RANGE) ∧
        ((∀ d ∈ data, d.payload = 7) →
          (tree1.root_node.descend (sample_tree3.root_node.leaf_path ⟨1, 1⟩)).data? = some [] ∧
          (tree1.root_node.descend (sample_tree3.root_node.leaf_path ⟨1, 1⟩)).data_count? = some 0 ∧
          (tree1.root_node.descend (sample_tree3.root_node.leaf_path ⟨1, 1⟩)).entries = []))) :=
  ⟨sample_tree3_reachable, C17_remove_never_restructures sample_tree3 sample_tree3_reachable 1 1 7⟩

/-! ## C18: termination of an insertion -/

/-- Erasing the ghost counter of `_kvad_node_insert_splits` gives
`_kvad_node_insert`. -/
theorem insert_splits_fst (tree : kvad_tree) (fuel : Nat) :
    ∀ n point payload, (_kvad_node_insert_splits fuel tree n point payload).map Prod.fst
      = _kvad_node_insert fuel tree n point payload := by
  induction fuel with
  | zero => intro n point payload; rfl
  | succ fuel ih =>
    intro n point payload
    cases n with
    | NULL => rfl
    | node level rect s0 s1 s2 s3 data dc =>
      have hfold : ∀ (l : List kvad_data) (acc : kvad_node × Nat),
          (l.foldlM (fun (acc : kvad_node × Nat) (d : kvad_data) => do
              let r ← _kvad_node_insert_splits fuel tree acc.1 d.point d.payload
              pure (r.1, max acc.2 r.2)) acc).map Prod.fst
            = l.foldlM (fun node (d : kvad_data) => _kvad_node_insert fuel tree node d.point d.payload)
                acc.1 := by
        intro l
        induction l with
        | nil => intro acc; rfl
        | cons d l ihl =>
          intro acc
          rw [List.foldlM_cons, List.foldlM_cons, ← ih acc.1 d.point d.payload]
          cases h1 : _kvad_node_insert_splits fuel tree acc.1 d.point d.payload with
          | none => rfl
          | some r1 => exact ihl (r1.1, max acc.2 r1.2)
      by_cases hc : _kvad_rect_contains_point rect point = true
      swap
      · simp [_kvad_node_insert_splits, _kvad_node_insert, hc]
      by_cases hs : s0.is_null = true
      · by_cases hsplit : level < tree.max_levels ∧ (dc + 1) % UINT_RANGE > tree.max_points_per_node
        · simp only [_kvad_node_insert_splits, _kvad_node_insert, hc, hs, hsplit, Bool.not_true,
            Bool.false_eq_true, if_false, if_true, and_self, Option.map_map]
          exact hfold _ _
        · simp only [_kvad_node_insert_splits, _kvad_node_insert, hc, hs, hsplit, Bool.not_true,
            Bool.false_eq_true, if_false, Option.map_some']
      · simp only [Bool.not_eq_true] at hs
        have hq4 := quadrant_lt rect point
        have hq : kvad_quadrant rect point = 0 ∨ kvad_quadrant rect point = 1 ∨
            kvad_quadrant rect point = 2 ∨ kvad_quadrant rect point = 3 := by omega
        rcases hq with hq | hq | hq | hq
        · simp only [_kvad_node_insert_splits, _kvad_node_insert, hc, hs, hq, Bool.not_true,
            Bool.not_false, Bool.false_eq_true, if_false, if_true, ← ih s0 point payload]
          cases _kvad_node_insert_splits fuel tree s0 point payload <;> rfl
        · simp only [_kvad_node_insert_splits, _kvad_node_insert, hc, hs, hq, Bool.not_true,
            Bool.not_false, Bool.false_eq_true, if_false, if_true, ← ih s1 point payload]
          cases _kvad_node_insert_splits fuel tree s1 point payload <;> rfl
        · simp only [_kvad_node_insert_splits, _kvad_node_insert, hc, hs, hq, Bool.not_true,
            Bool.not_false, Bool.false_eq_true, if_false, if_true, ← ih s2 point payload]
          cases _kvad_node_insert_splits fuel tree s2 point payload <;> rfl
        · simp only [_kvad_node_insert_splits, _kvad_node_insert, hc, hs, hq, Bool.not_true,
            Bool.not_false, Bool.false_eq_true, if_false, if_true, ← ih s3 point payload]
          cases _kvad_node_insert_splits fuel tree s3 point payload <;> rfl

/-- The splits made by one call of `_kvad_node_insert` on a node of level `level`
nest at most `max_levels - level` deep, and one level less below an internal
node. -/
theorem insert_splits_bound (tree : kvad_tree) (hml : tree.max_levels < UINT_RANGE)
    (fuel : Nat) :
    ∀ n point payload level, node_inv tree n → n.level? = some level →
      kvad_insert_depth tree n ≤ fuel →
      ∀ r k, _kvad_node_insert_splits fuel tree n point payload = some (r, k) →
        level + (if n.is_leaf then 0 else 1) + k ≤ tree.max_levels := by
  induction fuel with
  | zero => intro n point payload level hn hl hf r k h; simp [_kvad_node_insert_splits] at h
  | succ fuel ih =>
    intro n point payload level hn hl hf r k h
    cases n with
    | NULL => simp [node_inv] at hn
    | node lv rect s0 s1 s2 s3 data dc =>
      simp only [kvad_node.level?, Option.some.injEq] at hl
      subst hl
      have hfold : ∀ (l : List kvad_data) (acc : kvad_node × Nat),
          node_inv tree acc.1 → acc.1.level? = some lv → acc.1.is_leaf = false →
          kvad_insert_depth tree acc.1 ≤ fuel → lv + 1 + acc.2 ≤ tree.max_levels →
          ∀ res, l.foldlM (fun (acc : kvad_node × Nat) (d : kvad_data) => do
              let r ← _kvad_node_insert_splits fuel tree acc.1 d.point d.payload
              pure (r.1, max acc.2 r.2)) acc = some res →
            lv + 1 + res.2 ≤ tree.max_levels := by
        intro l
        induction l with
        | nil =>
          intro acc _ _ _ _ hb res hres
          simp only [List.foldlM_nil, pure, Option.some.injEq] at hres
          rw [← hres]
          exact hb
        | cons d l ihl =>
          intro acc hinv hlv hleaf hdepth hb res hres
          rw [List.foldlM_cons] at hres
          cases h1 : _kvad_node_insert_splits fuel tree acc.1 d.point d.payload with
          | none => simp [h1] at hres
          | some r1 =>
            have b := ih acc.1 d.point d.payload lv hinv hlv hdepth r1.1 r1.2 h1
            rw [hleaf] at b
            simp only [Bool.false_eq_true, if_false] at b
            obtain ⟨r2, er, pr⟩ := insert_spec tree hml fuel acc.1 d.point d.payload hinv hdepth
            have he := insert_splits_fst tree fuel acc.1 d.point d.payload
            rw [h1, er] at he
            simp only [Option.map_some', Option.some.injEq] at he
            have hnn : acc.1.is_null = false := node_inv_not_null hinv
            have hleaf1 := insert_post_internal pr hleaf hnn
            rw [← he] at pr hleaf1
            rw [h1] at hres
            refine ihl (r1.1, max acc.2 r1.2) pr.1 (pr.2.1.trans hlv) hleaf1
              (le_trans pr.2.2.2.1 hdepth) ?_ res hres
            show lv + 1 + max acc.2 r1.2 ≤ tree.max_levels
            rcases le_total acc.2 r1.2 with hm | hm
            · rw [max_eq_right hm]; exact b
            · rw [max_eq_left hm]; exact hb
      by_cases hc : _kvad_rect_contains_point rect point = true
      swap
      · simp only [_kvad_node_insert_splits, hc, Bool.not_false, if_true, Option.some.injEq,
          Prod.mk.injEq] at h
        obtain ⟨-, hk⟩ := h
        subst hk
        by_cases hs : s0.is_null = true
        · have := (node_inv_leaf hn hs).2.2.1
          simp only [kvad_node.is_leaf, hs, if_true]
          omega
        · simp only [Bool.not_eq_true] at hs
          have := (node_inv_internal hn hs).2.2.2.2.2.1
          simp only [kvad_node.is_leaf, hs, Bool.false_eq_true, if_false]
          omega
      by_cases hs : s0.is_null = true
      · obtain ⟨hw, hh, hl, e1, e2, e3, hdc, hin, hcap⟩ := node_inv_leaf hn hs
        simp only [kvad_node.is_leaf, hs, if_true]
        by_cases hsplit : lv < tree.max_levels ∧ (dc + 1) % UINT_RANGE > tree.max_points_per_node
        · have hlv : (lv + 1) % UINT_RANGE = lv + 1 := Nat.mod_eq_of_lt (by omega)
          have hinv := node_inv_split tree lv rect hw hh hsplit.1
          have hdepth : kvad_insert_depth tree
              (.node lv rect (_kvad_node_create (kvad_subnode_rect rect 0) (lv + 1))
                (_kvad_node_create (kvad_subnode_rect rect 1) (lv + 1))
                (_kvad_node_create (kvad_subnode_rect rect 2) (lv + 1))
                (_kvad_node_create (kvad_subnode_rect rect 3) (lv + 1)) [] 0) ≤ fuel := by
            simp only [kvad_insert_depth, hs, if_true] at hf
            simp only [kvad_insert_depth, _kvad_node_create, kvad_node.is_null,
              Bool.false_eq_true, if_false]
            omega
          simp only [_kvad_node_insert_splits, hc, hs, hsplit, hlv, Bool.not_true,
            Bool.false_eq_true, if_false, if_true, and_self] at h
          cases hfd : List.foldlM (fun (acc : kvad_node × Nat) (d : kvad_data) => do
              let r ← _kvad_node_insert_splits fuel tree acc.1 d.point d.payload
              pure (r.1, max acc.2 r.2))
              ((kvad_node.node lv rect (_kvad_node_create (kvad_subnode_rect rect 0) (lv + 1))
                (_kvad_node_create (kvad_subnode_rect rect 1) (lv + 1))
                (_kvad_node_create (kvad_subnode_rect rect 2) (lv + 1))
                (_kvad_node_create (kvad_subnode_rect rect 3) (lv + 1)) [] 0, 0) : kvad_node × Nat)
              ({ point := point, payload := payload } :: data) with
          | none => rw [hfd] at h; simp at h
          | some res =>
            rw [hfd] at h
            simp only [Option.map_some', Option.some.injEq, Prod.mk.injEq] at h
            have := hfold ({ point := point, payload := payload } :: data)
              ((kvad_node.node lv rect (_kvad_node_create (kvad_subnode_rect rect 0) (lv + 1))
                (_kvad_node_create (kvad_subnode_rect rect 1) (lv + 1))
                (_kvad_node_create (kvad_subnode_rect rect 2) (lv + 1))
                (_kvad_node_create (kvad_subnode_rect rect 3) (lv + 1)) [] 0, 0) : kvad_node × Nat)
              hinv rfl rfl hdepth (by omega) res hfd
            omega
        · simp only [_kvad_node_insert_splits, hc, hs, hsplit, Bool.not_true,
            Bool.false_eq_true, if_false, Option.some.injEq, Prod.mk.injEq] at h
          omega
      · simp only [Bool.not_eq_true] at hs
        have hi := node_inv_internal hn hs
        have hlt := hi.2.2.2.2.2.1
        simp only [kvad_insert_depth, hs, Bool.false_eq_true, if_false] at hf
        simp only [kvad_node.is_leaf, hs, Bool.false_eq_true, if_false]
        have hq4 := quadrant_lt rect point
        have hq : kvad_quadrant rect point = 0 ∨ kvad_quadrant rect point = 1 ∨
            kvad_quadrant rect point = 2 ∨ kvad_quadrant rect point = 3 := by omega
        rcases hq with hq | hq | hq | hq
        · simp only [_kvad_node_insert_splits, hc, hs, hq, Bool.not_true, Bool.not_false,
            Bool.false_eq_true, if_false, if_true] at h
          cases h1 : _kvad_node_insert_splits fuel tree s0 point payload with
          | none => simp [h1] at h
          | some r1 =>
            simp [h1] at h
            have b := ih s0 point payload (lv + 1) hi.2.2.2.2.2.2.1.1 hi.2.2.2.2.2.2.1.2.1
              (by have := @insert_depth_of_level tree _ _ hi.2.2.2.2.2.2.1.2.1; omega)
              r1.1 r1.2 h1
            rw [← h.2]
            omega
        · simp only [_kvad_node_insert_splits, hc, hs, hq, Bool.not_true, Bool.not_false,
            Bool.false_eq_true, if_false, if_true] at h
          cases h1 : _kvad_node_insert_splits fuel tree s1 point payload with
          | none => simp [h1] at h
          | some r1 =>
            simp [h1] at h
            have b := ih s1 point payload (lv + 1) hi.2.2.2.2.2.2.2.1.1 hi.2.2.2.2.2.2.2.1.2.1
              (by have := @insert_depth_of_level tree _ _ hi.2.2.2.2.2.2.2.1.2.1; omega)
              r1.1 r1.2 h1
            rw [← h.2]
            omega
        · simp only [_kvad_node_insert_splits, hc, hs, hq, Bool.not_true, Bool.not_false,
            Bool.false_eq_true, if_false, if_true] at h
          cases h1 : _kvad_node_insert_splits fuel tree s2 point payload with
          | none => simp [h1] at h
          | some r1 =>
            simp [h1] at h
            have b := ih s2 point payload (lv + 1) hi.2.2.2.2.2.2.2.2.1.1 hi.2.2.2.2.2.2.2.2.1.2.1
              (by have := @insert_depth_of_level tree _ _ hi.2.2.2.2.2.2.2.2.1.2.1; omega)
              r1.1 r1.2 h1
            rw [← h.2]
            omega
        · simp only [_kvad_node_insert_splits, hc, hs, hq, Bool.not_true, Bool.not_false,
            Bool.false_eq_true, if_false, if_true] at h
          cases h1 : _kvad_node_insert_splits fuel tree s3 point payload with
          | none => simp [h1] at h
          | some r1 =>
            simp [h1] at h
            have b := ih s3 point payload (lv + 1) hi.2.2.2.2.2.2.2.2.2.1 hi.2.2.2.2.2.2.2.2.2.2.1
              (by have := @insert_depth_of_level tree _ _ hi.2.2.2.2.2.2.2.2.2.2.1; omega)
              r1.1 r1.2 h1
            rw [← h.2]
            omega

theorem tree_insert_all_returns (l : List (ℚ × ℚ × Nat)) :
    ∀ tree, tree_inv tree → ∃ treeN, kvad_tree_insert_all tree l = some treeN ∧
      tree_inv treeN := by
  induction l with
  | nil => intro tree h; exact ⟨tree, rfl, h⟩
  | cons e l ih =>
    intro tree h
    obtain ⟨tree1, e1, -, -, h1, -⟩ := tree_insert_spec h e.1 e.2.1 e.2.2
    obtain ⟨treeN, eN, hN⟩ := ih tree1 h1
    refine ⟨treeN, ?_, hN⟩
    simp only [kvad_tree_insert_all, List.foldlM_cons, e1] at eN ⊢
    exact eN

theorem nested_tree_reachable : Reachable nested_tree :=
  Reachable.insert (kvad_tree_create 0 0 100 100 2 1) nested_tree 1 1 7
    (Reachable.create 0 0 100 100 2 1 (by norm_num) (by norm_num)
      (by norm_num [UINT_RANGE]) (by norm_num [UINT_RANGE])) (by decide!)

/-- C18. Insert terminates: on every node of a reachable tree, whatever the point and
the payload, `_kvad_node_insert` returns the same node for every bound
`fuel ≥ 2 * (max_levels - level) + 1` on the depth of its nested calls, each call
making one nested call per cell of a finite list at most; the splits of the call
nest at most `max_levels - level` deep. So `kvad_tree_insert` returns, and so does
any run of inserts of cells with identical coordinates. On the tree of
`Create(0, 0, 100, 100, 2, 1)` after `Insert(1, 1, 7)`, the call `Insert(1, 1, 8)`
re-inserts both cells into the same quadrant twice and returns with splits nested
`2 = max_levels - 0` deep. -/
theorem C18_insert_terminates (tree : kvad_tree) (h : Reachable tree) (path : List Nat)
    (level : Nat) (hl : (tree.root_node.descend path).level? = some level)
    (point : kvad_point) (payload : Nat) :
    (∃ r, ∀ fuel, 2 * (tree.max_levels - level) + 1 ≤ fuel →
      _kvad_node_insert fuel tree (tree.root_node.descend path) point payload = some r ∧
      ∃ k, _kvad_node_insert_splits fuel tree (tree.root_node.descend path) point payload
          = some (r, k) ∧
        k ≤ tree.max_levels - level) ∧
    (∃ tree1, kvad_tree_insert tree point.x point.y payload = some tree1) ∧
    (∀ payloads : List Nat, ∃ treeN,
      kvad_tree_insert_all tree (payloads.map (fun p => (point.x, point.y, p))) = some treeN) ∧
    Reachable nested_tree ∧
    (_kvad_node_insert_splits (kvad_tree_insert_fuel nested_tree) nested_tree
        nested_tree.root_node ⟨1, 1⟩ 8).map Prod.snd = some 2 ∧
    (kvad_tree_insert nested_tree 1 1 8).map
        (fun t => ((t.root_node.descend [0, 0]).entries, (t.root_node.descend [0, 0]).level?))
      = some ([⟨⟨1, 1⟩, 8⟩, ⟨⟨1, 1⟩, 7⟩], some 2) := by
  have hinv := reachable_inv h
  have hn : node_inv tree (tree.root_node.descend path) := by
    rcases node_inv_descend tree.root_node hinv.2.2.2 path with hnull | hi
    · rw [hnull] at hl
      simp [kvad_node.level?] at hl
    · exact hi
  have hd := @insert_depth_of_level tree _ _ hl
  obtain ⟨r, er, -⟩ := insert_spec tree hinv.1 _ (tree.root_node.descend path) point payload
    hn hd
  refine ⟨⟨r, ?_⟩, ?_, ?_, nested_tree_reachable, by decide!, by decide!⟩
  · intro fuel hf
    have hr : _kvad_node_insert fuel tree (tree.root_node.descend path) point payload
        = some r := by
      have := insert_fuel_le tree _ (fuel - (2 * (tree.max_levels - level) + 1)) _ point
        payload r er
      rwa [Nat.add_sub_cancel' hf] at this
    refine ⟨hr, ?_⟩
    have he := insert_splits_fst tree fuel (tree.root_node.descend path) point payload
    rw [hr] at he
    cases hk : _kvad_node_insert_splits fuel tree (tree.root_node.descend path) point payload with
    | none => rw [hk] at he; cases he
    | some rk =>
      rw [hk] at he
      simp only [Option.map_some', Option.some.injEq] at he
      have hb := insert_splits_bound tree hinv.1 fuel (tree.root_node.descend path) point
        payload level hn hl (le_trans hd hf) rk.1 rk.2 hk
      refine ⟨rk.2, by rw [← he], ?_⟩
      omega
  · obtain ⟨tree1, e1, -⟩ := tree_insert_spec hinv point.x point.y payload
    exact ⟨tree1, e1⟩
  · intro payloads
    obtain ⟨treeN, eN, -⟩ := tree_insert_all_returns
      (payloads.map (fun p => (point.x, point.y, p))) tree hinv
    exact ⟨treeN, eN⟩

/-- Termination of an insertion, at the root of the sample tree with the call `Insert(1, 1, 9)`. -/
theorem C18_witness :
    Reachable sample_tree3 ∧
      (sample_tree3.root_node.descend []).level? = some 0 ∧
    ((∃ r, ∀ fuel, 2 * (sample_tree3.max_levels - 0) + 1 ≤ fuel →
      _kvad_node_insert fuel sample_tree3 (sample_tree3.root_node.descend []) (⟨1, 1⟩ : kvad_point) 9 = some r ∧
      ∃ k, _kvad_node_insert_splits fuel sample_tree3 (sample_tree3.root_node.descend []) (⟨1, 1⟩ : kvad_point) 9
          = some (r, k) ∧
        k ≤ sample_tree3.max_levels - 0) ∧
    (∃ tree1, kvad_tree_insert sample_tree3 (⟨1, 1⟩ : kvad_point).x (⟨1, 1⟩ : kvad_point).y 9 = some tree1) ∧
    (∀ payloads : List Nat, ∃ treeN,
      kvad_tree_insert_all sample_tree3 (payloads.map (fun p => ((⟨1, 1⟩ : kvad_point).x, (⟨1, 1⟩ : kvad_point).y, p))) = some treeN) ∧
    Reachable nested_tree ∧
    (_kvad_node_insert_splits (kvad_tree_insert_fuel nested_tree) nested_tree
        nested_tree.root_node ⟨1, 1⟩ 8).map Prod.snd = some 2 ∧
    (kvad_tree_insert nested_tree 1 1 8).map
        (fun t => ((t.root_node.descend [0, 0]).entries, (t.root_node.descend [0, 0]).level?))
      = some ([⟨⟨1, 1⟩, 8⟩, ⟨⟨1, 1⟩, 7⟩], some 2)) :=
  ⟨sample_tree3_reachable, by decide!, C18_insert_terminates sample_tree3 sample_tree3_reachable [] 0 (by decide!) ⟨1, 1⟩ 9⟩

/-! ## C19: cells and the bounds of their leaf -/

theorem contains_of_rect_eq_some {n : kvad_node} {rect : kvad_rect} (h : n.rect? = some rect)
    (point : kvad_point) : n.contains point = _kvad_rect_contains_point rect point := by
  cases n with
  | NULL => simp [kvad_node.rect?] at h
  | node level rc s0 s1 s2 s3 data dc =>
    simp only [kvad_node.rect?, Option.some.injEq] at h
    rw [← h]
    rfl

/-- A cell stored in a leaf of a well-formed tree is stored below the root, and
quadrant selection on its point leads from the root to that leaf. -/
theorem leaf_at_of_mem {tree : kvad_tree} (n : kvad_node) :
    node_inv tree n → ∀ path, (n.descend path).is_leaf = true →
      ∀ d ∈ (n.descend path).entries,
        d ∈ n.entries ∧ n.leaf_at d.point = n.descend path ∧ n.leaf_path d.point = path := by
  induction n with
  | NULL => intro h; simp [node_inv] at h
  | node level rect s0 s1 s2 s3 data dc ih0 ih1 ih2 ih3 =>
    intro hn path hl d hd
    cases path with
    | nil =>
      have hs : s0.is_null = true := hl
      exact ⟨hd, by simp [kvad_node.leaf_at, hs, kvad_node.descend],
        by simp [kvad_node.leaf_path, hs]⟩
    | cons i rest =>
      by_cases hs : s0.is_null = true
      · obtain ⟨-, -, -, e1, e2, e3, -⟩ := node_inv_leaf hn hs
        have e0 := (is_null_iff s0).1 hs
        subst e0 e1 e2 e3
        match i with
        | 0 | 1 | 2 | 3 | _ + 4 =>
          simp [kvad_node.descend, descend_NULL, kvad_node.is_leaf] at hl
      · simp only [Bool.not_eq_true] at hs
        have hi := node_inv_internal hn hs
        match i with
        | 0 =>
          obtain ⟨m, la, lp⟩ := ih0 hi.2.2.2.2.2.2.1.1 rest hl d hd
          have hq := hi.2.2.2.2.2.2.1.2.2.2 d m
          refine ⟨?_, ?_, ?_⟩
          · simp only [kvad_node.entries, hs, Bool.false_eq_true, if_false, List.mem_append]
            exact Or.inl (Or.inl (Or.inl m))
          · simpa [kvad_node.leaf_at, hs, hq, kvad_node.descend] using la
          · simpa [kvad_node.leaf_path, hs, hq] using lp
        | 1 =>
          obtain ⟨m, la, lp⟩ := ih1 hi.2.2.2.2.2.2.2.1.1 rest hl d hd
          have hq := hi.2.2.2.2.2.2.2.1.2.2.2 d m
          refine ⟨?_, ?_, ?_⟩
          · simp only [kvad_node.entries, hs, Bool.false_eq_true, if_false, List.mem_append]
            exact Or.inl (Or.inl (Or.inr m))
          · simpa [kvad_node.leaf_at, hs, hq, kvad_node.descend] using la
          · simpa [kvad_node.leaf_path, hs, hq] using lp
        | 2 =>
          obtain ⟨m, la, lp⟩ := ih2 hi.2.2.2.2.2.2.2.2.1.1 rest hl d hd
          have hq := hi.2.2.2.2.2.2.2.2.1.2.2.2 d m
          refine ⟨?_, ?_, ?_⟩
          · simp only [kvad_node.entries, hs, Bool.false_eq_true, if_false, List.mem_append]
            exact Or.inl (Or.inr m)
          · simpa [kvad_node.leaf_at, hs, hq, kvad_node.descend] using la
          · simpa [kvad_node.leaf_path, hs, hq] using lp
        | 3 =>
          obtain ⟨m, la, lp⟩ := ih3 hi.2.2.2.2.2.2.2.2.2.1 rest hl d hd
          have hq := hi.2.2.2.2.2.2.2.2.2.2.2.2 d m
          refine ⟨?_, ?_, ?_⟩
          · simp only [kvad_node.entries, hs, Bool.false_eq_true, if_false, List.mem_append]
            exact Or.inr m
          · simpa [kvad_node.leaf_at, hs, hq, kvad_node.descend] using la
          · simpa [kvad_node.leaf_path, hs, hq] using lp
        | _ + 4 => simp [kvad_node.descend, kvad_node.is_leaf] at hl

/-- The subnode that `_kvad_node_subnode_at_point` picks below an internal node of a
well-formed tree passes the bounds test for every point that the node passes it
for. -/
theorem subnode_at_point_contains {tree : kvad_tree} {n : kvad_node} (hn : node_inv tree n)
    (hl : n.is_leaf = false) (point : kvad_point) (hc : n.contains point = true) :
    ∃ sub, _kvad_node_subnode_at_point n point = some sub ∧ node_inv tree sub ∧
      sub.contains point = true := by
  cases n with
  | NULL => simp [node_inv] at hn
  | node level rect s0 s1 s2 s3 data dc =>
    have hs : s0.is_null = false := hl
    have hi := node_inv_internal hn hs
    have hq4 := quadrant_lt rect point
    have hsub := subnode_rect_contains (show _kvad_rect_contains_point rect point = true from hc)
    have hq : kvad_quadrant rect point = 0 ∨ kvad_quadrant rect point = 1 ∨
        kvad_quadrant rect point = 2 ∨ kvad_quadrant rect point = 3 := by omega
    rcases hq with hq | hq | hq | hq
    · rw [hq] at hsub
      exact ⟨s0, by simp [_kvad_node_subnode_at_point, hq], hi.2.2.2.2.2.2.1.1,
        by rw [contains_of_rect_eq_some hi.2.2.2.2.2.2.1.2.2.1]; exact hsub⟩
    · rw [hq] at hsub
      exact ⟨s1, by simp [_kvad_node_subnode_at_point, hq], hi.2.2.2.2.2.2.2.1.1,
        by rw [contains_of_rect_eq_some hi.2.2.2.2.2.2.2.1.2.2.1]; exact hsub⟩
    · rw [hq] at hsub
      exact ⟨s2, by simp [_kvad_node_subnode_at_point, hq], hi.2.2.2.2.2.2.2.2.1.1,
        by rw [contains_of_rect_eq_some hi.2.2.2.2.2.2.2.2.1.2.2.1]; exact hsub⟩
    · rw [hq] at hsub
      exact ⟨s3, by simp [_kvad_node_subnode_at_point, hq], hi.2.2.2.2.2.2.2.2.2.1,
        by rw [contains_of_rect_eq_some hi.2.2.2.2.2.2.2.2.2.2.2.1]; exact hsub⟩

/-- A split drops no cell: when `_kvad_node_insert` splits a leaf of a well-formed
tree it returns an internal node that stores the new cell and every cell of the
leaf. -/
theorem insert_split_keeps (tree : kvad_tree) (hml : tree.max_levels < UINT_RANGE)
    (level : Nat) (rect : kvad_rect) (data : List kvad_data) (dc : Nat) (point : kvad_point)
    (payload : Nat)
    (hn : node_inv tree (.node level rect .NULL .NULL .NULL .NULL data dc))
    (hc : _kvad_rect_contains_point rect point = true)
    (hsplit : level < tree.max_levels ∧ (dc + 1) % UINT_RANGE > tree.max_points_per_node) :
    ∃ r, _kvad_node_insert (2 * (tree.max_levels - level) + 1) tree
        (.node level rect .NULL .NULL .NULL .NULL data dc) point payload = some r ∧
      r.is_leaf = false ∧ r.level? = some level ∧ r.rect? = some rect ∧
      (r.entries : Multiset kvad_data) = (⟨point, payload⟩ :: data : List kvad_data) := by
  obtain ⟨hw, hh, hl, -, -, -, hdc, hin, -⟩ := node_inv_leaf hn rfl
  have hin1 : ∀ d ∈ ({ point := point, payload := payload } :: data : List kvad_data),
      _kvad_rect_contains_point rect d.point = true := by
    intro d hd
    rcases List.mem_cons.1 hd with h | h
    · rw [h]; exact hc
    · exact hin d h
  have hlv : (level + 1) % UINT_RANGE = level + 1 := Nat.mod_eq_of_lt (by omega)
  have hinv := node_inv_split tree level rect hw hh hsplit.1
  have hdepth : kvad_insert_depth tree
      (.node level rect (_kvad_node_create (kvad_subnode_rect rect 0) (level + 1))
        (_kvad_node_create (kvad_subnode_rect rect 1) (level + 1))
        (_kvad_node_create (kvad_subnode_rect rect 2) (level + 1))
        (_kvad_node_create (kvad_subnode_rect rect 3) (level + 1)) [] 0)
      = 2 * (tree.max_levels - level) := by
    simp [kvad_insert_depth, _kvad_node_create, kvad_node.is_null]
  obtain ⟨r, er, ir, lr, rr, fr, mr⟩ := insert_fold tree (2 * (tree.max_levels - level))
    (insert_spec tree hml _) ({ point := point, payload := payload } :: data) _ hinv
    (le_of_eq hdepth) (by simpa [kvad_node.contains] using hin1)
  refine ⟨r, ?_, ?_, lr, rr, ?_⟩
  · simp only [_kvad_node_insert, hc, kvad_node.is_null, hsplit, hlv]
    simpa using er
  · rw [hdepth] at fr
    cases r with
    | NULL => rfl
    | node l2 rc2 t0 t1 t2 t3 d2 c2 =>
      simp only [kvad_node.level?, Option.some.injEq] at lr
      simp only [kvad_insert_depth, lr] at fr
      simp only [kvad_node.is_leaf]
      by_contra hne
      simp only [Bool.not_eq_false] at hne
      rw [hne] at fr
      simp only [if_true] at fr
      omega
  · rw [mr]
    simp [kvad_node.entries, kvad_node.is_null, _kvad_node_create]

/-- With arithmetic that does not round, entries stay inside their leaf: in every reachable tree each cell stored in
a leaf passes the inclusive bounds test of that leaf, and quadrant selection on the
cell's point leads from the root to that very leaf; every cell stored in the tree is
in the leaf selected for its point. The subnode picked by quadrant selection for a
point inside a node's bounds has bounds that contain the point, so that a call of
`_kvad_node_insert` that splits a leaf returns an internal node holding the new cell
and every cell of the leaf, none being dropped by the bounds test. -/
theorem entries_stay_inside_leaf_exact (tree : kvad_tree) (h : Reachable tree) :
    (∀ path, (tree.root_node.descend path).is_leaf = true →
      ∀ d ∈ (tree.root_node.descend path).entries,
        (tree.root_node.descend path).contains d.point = true ∧
        tree.root_node.leaf_path d.point = path ∧
        tree.root_node.leaf_at d.point = tree.root_node.descend path) ∧
    (∀ d ∈ tree.root_node.entries,
      d ∈ (tree.root_node.leaf_at d.point).entries ∧
      (tree.root_node.leaf_at d.point).is_leaf = true ∧
      (tree.root_node.leaf_at d.point).contains d.point = true) ∧
    (∀ rect point, _kvad_rect_contains_point rect point = true →
      _kvad_rect_contains_point (kvad_subnode_rect rect (kvad_quadrant rect point)) point
        = true) ∧
    (∀ path point, (tree.root_node.descend path).is_leaf = false →
      (tree.root_node.descend path).contains point = true →
      ∃ sub, _kvad_node_subnode_at_point (tree.root_node.descend path) point = some sub ∧
        sub.contains point = true) ∧
    (∀ path level rect data data_count point payload,
      tree.root_node.descend path = .node level rect .NULL .NULL .NULL .NULL data data_count →
      _kvad_rect_contains_point rect point = true →
      level < tree.max_levels →
      (data_count + 1) % UINT_RANGE > tree.max_points_per_node →
      ∃ r, _kvad_node_insert (2 * (tree.max_levels - level) + 1) tree
          (tree.root_node.descend path) point payload = some r ∧
        r.is_leaf = false ∧ r.rect? = some rect ∧
        (r.entries : Multiset kvad_data) = (⟨point, payload⟩ :: data : List kvad_data) ∧
        ∀ d ∈ r.entries, _kvad_rect_contains_point rect d.point = true) := by
  have hinv := reachable_inv h
  have hleaf : ∀ path, (tree.root_node.descend path).is_leaf = true →
      node_inv tree (tree.root_node.descend path) := by
    intro path hl
    rcases node_inv_descend tree.root_node hinv.2.2.2 path with hnull | hi
    · rw [hnull] at hl
      simp [kvad_node.is_leaf] at hl
    · exact hi
  have hcont : ∀ {n : kvad_node}, node_inv tree n → ∀ d ∈ n.entries,
      n.contains d.point = true := by
    intro n hn d hd
    cases n with
    | NULL => simp [node_inv] at hn
    | node level rect s0 s1 s2 s3 data dc => exact entries_in_rect hn rfl d hd
  refine ⟨?_, ?_, fun rect point hc => subnode_rect_contains hc, ?_, ?_⟩
  · intro path hl d hd
    obtain ⟨-, la, lp⟩ := leaf_at_of_mem tree.root_node hinv.2.2.2 path hl d hd
    exact ⟨hcont (hleaf path hl) d hd, lp, la⟩
  · intro d hd
    obtain ⟨hli, hll⟩ := node_inv_leaf_at d.point tree.root_node hinv.2.2.2
    have hm : d ∈ (tree.root_node.leaf_at d.point).entries := by
      have hcount := @count_leaf_at tree d tree.root_node hinv.2.2.2
      have hpos : 0 < List.count d tree.root_node.entries := List.count_pos_iff.2 hd
      rw [hcount] at hpos
      exact List.count_pos_iff.1 hpos
    exact ⟨hm, hll, hcont hli d hm⟩
  · intro path point hl hc
    rcases node_inv_descend tree.root_node hinv.2.2.2 path with hnull | hi
    · rw [hnull] at hc
      simp [kvad_node.contains] at hc
    · obtain ⟨sub, e, -, c⟩ := subnode_at_point_contains hi hl point hc
      exact ⟨sub, e, c⟩
  · intro path level rect data data_count point payload hp hc hlt hcnt
    have hn : node_inv tree (tree.root_node.descend path) :=
      hleaf path (by rw [hp]; rfl)
    rw [hp] at hn ⊢
    obtain ⟨r, er, lr, -, rr, mr⟩ := insert_split_keeps tree hinv.1 level rect data data_count
      point payload hn hc ⟨hlt, hcnt⟩
    refine ⟨r, er, lr, rr, mr, ?_⟩
    have hpost := insert_spec tree hinv.1 (2 * (tree.max_levels - level) + 1) _ point payload hn
      (by simp [kvad_insert_depth, kvad_node.is_null])
    obtain ⟨r2, er2, ir2, -⟩ := hpost
    rw [er] at er2
    simp only [Option.some.injEq] at er2
    rw [← er2] at ir2
    exact entries_in_rect ir2 rr

/-! ## C20: intersecting rectangles -/

theorem intersects_comm (r0 r1 : kvad_rect) :
    _kvad_rect_intersects_rect r0 r1 = _kvad_rect_intersects_rect r1 r0 := by
  rw [Bool.eq_iff_iff, intersects_iff, intersects_iff]
  constructor <;> intro ⟨a, b, c, d⟩ <;> exact ⟨b, a, d, c⟩

/-- C20. Intersects means sharing a point: for rectangles of non-negative width and
height, `_kvad_rect_intersects_rect` holds exactly when some point passes the
inclusive test `_kvad_rect_contains_point` of both; the test is symmetric, and
rectangles that touch along an edge or at a corner intersect. -/
theorem C20_intersects_iff_common_point (r0 r1 : kvad_rect)
    (hw0 : 0 ≤ r0.size.width) (hh0 : 0 ≤ r0.size.height)
    (hw1 : 0 ≤ r1.size.width) (hh1 : 0 ≤ r1.size.height) :
    (_kvad_rect_intersects_rect r0 r1 = true ↔
      ∃ point, _kvad_rect_contains_point r0 point = true ∧
        _kvad_rect_contains_point r1 point = true) ∧
    _kvad_rect_intersects_rect r0 r1 = _kvad_rect_intersects_rect r1 r0 ∧
    (r1.origin.x = r0.origin.x + r0.size.width →
      r1.origin.y ≤ r0.origin.y + r0.size.height → r0.origin.y ≤ r1.origin.y + r1.size.height →
      _kvad_rect_intersects_rect r0 r1 = true) ∧
    (r1.origin.y = r0.origin.y + r0.size.height →
      r1.origin.x ≤ r0.origin.x + r0.size.width → r0.origin.x ≤ r1.origin.x + r1.size.width →
      _kvad_rect_intersects_rect r0 r1 = true) ∧
    (r1.origin.x = r0.origin.x + r0.size.width → r1.origin.y = r0.origin.y + r0.size.height →
      _kvad_rect_intersects_rect r0 r1 = true) := by
  refine ⟨⟨?_, ?_⟩, intersects_comm r0 r1, ?_, ?_, ?_⟩
  · intro hi
    rw [intersects_iff] at hi
    obtain ⟨a, b, c, d⟩ := hi
    refine ⟨⟨max r0.origin.x r1.origin.x, max r0.origin.y r1.origin.y⟩, ?_, ?_⟩
    · rw [contains_iff]
      refine ⟨le_max_left _ _, max_le (by linarith) a, le_max_left _ _, max_le (by linarith) c⟩
    · rw [contains_iff]
      refine ⟨le_max_right _ _, max_le b (by linarith), le_max_right _ _, max_le d (by linarith)⟩
  · rintro ⟨point, h0, h1⟩
    exact intersects_of_common_point h0 h1
  · intro hx hy1 hy2
    rw [intersects_iff]
    exact ⟨by linarith, by linarith, hy1, hy2⟩
  · intro hy hx1 hx2
    rw [intersects_iff]
    exact ⟨hx1, hx2, by linarith, by linarith⟩
  · intro hx hy
    rw [intersects_iff]
    exact ⟨by linarith, by linarith, by linarith, by linarith⟩

/-- Two squares of side 50 that touch at the corner `(50, 50)` intersect. -/
theorem C20_witness :
    0 ≤ touching_rect0.size.width ∧
      0 ≤ touching_rect0.size.height ∧
      0 ≤ touching_rect1.size.width ∧
      0 ≤ touching_rect1.size.height ∧
    ((_kvad_rect_intersects_rect touching_rect0 touching_rect1 = true ↔
      ∃ point, _kvad_rect_contains_point touching_rect0 point = true ∧
        _kvad_rect_contains_point touching_rect1 point = true) ∧
    _kvad_rect_intersects_rect touching_rect0 touching_rect1 = _kvad_rect_intersects_rect touching_rect1 touching_rect0 ∧
    (touching_rect1.origin.x = touching_rect0.origin.x + touching_rect0.size.width →
      touching_rect1.origin.y ≤ touching_rect0.origin.y + touching_rect0.size.height → touching_rect0.origin.y ≤ touching_rect1.origin.y + touching_rect1.size.height →
      _kvad_rect_intersects_rect touching_rect0 touching_rect1 = true) ∧
    (touching_rect1.origin.y = touching_rect0.origin.y + touching_rect0.size.height →
      touching_rect1.origin.x ≤ touching_rect0.origin.x + touching_rect0.size.width → touching_rect0.origin.x ≤ touching_rect1.origin.x + touching_rect1.size.width →
      _kvad_rect_intersects_rect touching_rect0 touching_rect1 = true) ∧
    (touching_rect1.origin.x = touching_rect0.origin.x + touching_rect0.size.width → touching_rect1.origin.y = touching_rect0.origin.y + touching_rect0.size.height →
      _kvad_rect_intersects_rect touching_rect0 touching_rect1 = true)) :=
  ⟨by decide!, by decide!, by decide!, by decide!, C20_intersects_iff_common_point touching_rect0 touching_rect1 (by decide!) (by decide!) (by decide!) (by decide!)⟩

/-! ## Rounded arithmetic: the case without rounding -/

theorem contains_fl_id (rect : kvad_rect) (point : kvad_point) :
    _kvad_rect_contains_point_fl id rect point = _kvad_rect_contains_point rect point := rfl

theorem quadrant_fl_id (rect : kvad_rect) (point : kvad_point) :
    kvad_quadrant_fl id rect point = kvad_quadrant rect point := rfl

theorem subnode_rect_fl_id (rect : kvad_rect) (i : Nat) :
    kvad_subnode_rect_fl id rect i = kvad_subnode_rect rect i := rfl

/-- Without rounding `_kvad_node_insert_fl` is `_kvad_node_insert`. -/
theorem insert_fl_id (tree : kvad_tree) (fuel : Nat) :
    ∀ n point payload, _kvad_node_insert_fl id fuel tree n point payload
      = _kvad_node_insert fuel tree n point payload := by
  induction fuel with
  | zero => intro n point payload; rfl
  | succ fuel ih =>
    intro n point payload
    cases n with
    | NULL => rfl
    | node level rect s0 s1 s2 s3 data dc =>
      have hf : (fun node (d : kvad_data) => _kvad_node_insert_fl id fuel tree node d.point d.payload)
          = (fun node (d : kvad_data) => _kvad_node_insert fuel tree node d.point d.payload) := by
        funext node d
        exact ih node d.point d.payload
      simp only [_kvad_node_insert_fl, _kvad_node_insert, contains_fl_id, quadrant_fl_id,
        subnode_rect_fl_id, ih, hf]

/-- Without rounding `_kvad_node_remove_payload_fl` is `_kvad_node_remove_payload`. -/
theorem remove_fl_id (point : kvad_point) (payload : Nat) (n : kvad_node) :
    _kvad_node_remove_payload_fl id n point payload
      = _kvad_node_remove_payload n point payload := by
  induction n with
  | NULL => rfl
  | node level rect s0 s1 s2 s3 data dc ih0 ih1 ih2 ih3 =>
    simp only [_kvad_node_remove_payload_fl, _kvad_node_remove_payload, quadrant_fl_id, ih0, ih1,
      ih2, ih3]

theorem tree_insert_fl_id (tree : kvad_tree) (x y : ℚ) (payload : Nat) :
    kvad_tree_insert_fl id tree x y payload = kvad_tree_insert tree x y payload := by
  simp only [kvad_tree_insert_fl, kvad_tree_insert, insert_fl_id]

theorem tree_remove_fl_id (tree : kvad_tree) (x y : ℚ) (payload : Nat) :
    kvad_tree_remove_payload_fl id tree x y payload = kvad_tree_remove_payload tree x y payload := by
  simp only [kvad_tree_remove_payload_fl, kvad_tree_remove_payload, remove_fl_id]

theorem tree_insert_all_fl_id (tree : kvad_tree) (l : List (ℚ × ℚ × Nat)) :
    kvad_tree_insert_all_fl id tree l = kvad_tree_insert_all tree l := by
  simp only [kvad_tree_insert_all_fl, kvad_tree_insert_all, tree_insert_fl_id]

/-! ## Rounded arithmetic: what holds whatever the rounding -/

theorem quadrant_fl_lt (rnd : ℚ → ℚ) (rect : kvad_rect) (point : kvad_point) :
    kvad_quadrant_fl rnd rect point < 4 := by
  simp only [kvad_quadrant_fl]
  split_ifs <;> omega

theorem shape_inv_leaf_iff {tree : kvad_tree} {level : Nat} {rect : kvad_rect}
    {s0 s1 s2 s3 : kvad_node} {data : List kvad_data} {data_count : Nat}
    (hs : s0.is_null = true) :
    shape_inv tree (.node level rect s0 s1 s2 s3 data data_count) ↔
      (level ≤ tree.max_levels ∧ s1 = .NULL ∧ s2 = .NULL ∧ s3 = .NULL) := by
  rw [shape_inv]
  simp only [hs, if_true]

theorem shape_inv_internal_iff {tree : kvad_tree} {level : Nat} {rect : kvad_rect}
    {s0 s1 s2 s3 : kvad_node} {data : List kvad_data} {data_count : Nat}
    (hs : s0.is_null = false) :
    shape_inv tree (.node level rect s0 s1 s2 s3 data data_count) ↔
      (level ≤ tree.max_levels ∧ level < tree.max_levels ∧
        (shape_inv tree s0 ∧ s0.level? = some (level + 1)) ∧
        (shape_inv tree s1 ∧ s1.level? = some (level + 1)) ∧
        (shape_inv tree s2 ∧ s2.level? = some (level + 1)) ∧
        (shape_inv tree s3 ∧ s3.level? = some (level + 1))) := by
  rw [shape_inv]
  simp only [hs, Bool.false_eq_true, if_false]

theorem shape_inv_level_le {tree : kvad_tree} {level : Nat} {rect : kvad_rect}
    {s0 s1 s2 s3 : kvad_node} {data : List kvad_data} {data_count : Nat}
    (h : shape_inv tree (.node level rect s0 s1 s2 s3 data data_count)) :
    level ≤ tree.max_levels := by
  rw [shape_inv] at h
  exact h.1

/-- A node just made by `_kvad_node_create` below `max_levels` has the right shape. -/
theorem shape_inv_create (tree : kvad_tree) (rect : kvad_rect) (level : Nat)
    (hl : level ≤ tree.max_levels) : shape_inv tree (_kvad_node_create rect level) := by
  have hs : kvad_node.NULL.is_null = true := rfl
  rw [_kvad_node_create, shape_inv_leaf_iff hs]
  exact ⟨hl, rfl, rfl, rfl⟩

theorem shape_inv_not_null {tree : kvad_tree} {n : kvad_node} (h : shape_inv tree n) :
    n.is_null = false := by
  cases n with
  | NULL => simp [shape_inv] at h
  | node level rect s0 s1 s2 s3 data dc => rfl

theorem shape_inv_congr {t1 t2 : kvad_tree} (hl : t1.max_levels = t2.max_levels)
    (n : kvad_node) : shape_inv t1 n → shape_inv t2 n := by
  induction n with
  | NULL => intro h; simp [shape_inv] at h
  | node level rect s0 s1 s2 s3 data dc ih0 ih1 ih2 ih3 =>
    intro h
    by_cases hs : s0.is_null = true
    · rw [shape_inv_leaf_iff hs] at h ⊢
      rw [← hl]
      exact h
    · simp only [Bool.not_eq_true] at hs
      rw [shape_inv_internal_iff hs] at h ⊢
      rw [← hl]
      obtain ⟨hle, hlt, ⟨a0, b0⟩, ⟨a1, b1⟩, ⟨a2, b2⟩, ⟨a3, b3⟩⟩ := h
      exact ⟨hle, hlt, ⟨ih0 a0, b0⟩, ⟨ih1 a1, b1⟩, ⟨ih2 a2, b2⟩, ⟨ih3 a3, b3⟩⟩

/-- Whatever the rounding, a call of `_kvad_node_insert` on a node of a tree of the
right shape returns within the depth budget and keeps the shape and the level. -/
theorem insert_fl_spec (rnd : ℚ → ℚ) (tree : kvad_tree) (hml : tree.max_levels < UINT_RANGE)
    (fuel : Nat) :
    ∀ n point payload, shape_inv tree n → kvad_insert_depth tree n ≤ fuel →
      ∃ r, _kvad_node_insert_fl rnd fuel tree n point payload = some r ∧
        shape_inv tree r ∧ r.level? = n.level? ∧
        kvad_insert_depth tree r ≤ kvad_insert_depth tree n := by
  induction fuel with
  | zero =>
    intro n point payload hn hf
    cases n with
    | NULL => simp [shape_inv] at hn
    | node level rect s0 s1 s2 s3 data dc =>
      by_cases hs : s0.is_null = true
      · simp [kvad_insert_depth, hs] at hf
      · simp only [Bool.not_eq_true] at hs
        have := ((shape_inv_internal_iff hs).1 hn).2.1
        simp [kvad_insert_depth, hs] at hf
        omega
  | succ fuel ih =>
    intro n point payload hn hf
    cases n with
    | NULL => simp [shape_inv] at hn
    | node level rect s0 s1 s2 s3 data dc =>
      have hfold : ∀ (l : List kvad_data) (m : kvad_node), shape_inv tree m →
          kvad_insert_depth tree m ≤ fuel →
          ∃ r, l.foldlM (fun node (d : kvad_data) =>
              _kvad_node_insert_fl rnd fuel tree node d.point d.payload) m = some r ∧
            shape_inv tree r ∧ r.level? = m.level? ∧
            kvad_insert_depth tree r ≤ kvad_insert_depth tree m := by
        intro l
        induction l with
        | nil => intro m hm _; exact ⟨m, rfl, hm, rfl, le_refl _⟩
        | cons d l ihl =>
          intro m hm hd
          obtain ⟨r1, e1, i1, l1, f1⟩ := ih m d.point d.payload hm hd
          obtain ⟨r, e2, i2, l2, f2⟩ := ihl r1 i1 (le_trans f1 hd)
          refine ⟨r, ?_, i2, l2.trans l1, le_trans f2 f1⟩
          rw [List.foldlM_cons, e1]
          exact e2
      by_cases hc : _kvad_rect_contains_point_fl rnd rect point = true
      swap
      · exact ⟨_, by simp [_kvad_node_insert_fl, hc], hn, rfl, le_refl _⟩
      have hl := shape_inv_level_le hn
      by_cases hs : s0.is_null = true
      · by_cases hsplit : level < tree.max_levels ∧
            (dc + 1) % UINT_RANGE > tree.max_points_per_node
        · have hlv : (level + 1) % UINT_RANGE = level + 1 := Nat.mod_eq_of_lt (by omega)
          have hleaf : ∀ i, shape_inv tree
              (_kvad_node_create (kvad_subnode_rect_fl rnd rect i) (level + 1)) ∧
              (_kvad_node_create (kvad_subnode_rect_fl rnd rect i) (level + 1)).level?
                = some (level + 1) :=
            fun i => ⟨shape_inv_create tree _ _ hsplit.1, rfl⟩
          have hinv : shape_inv tree
              (.node level rect (_kvad_node_create (kvad_subnode_rect_fl rnd rect 0) (level + 1))
                (_kvad_node_create (kvad_subnode_rect_fl rnd rect 1) (level + 1))
                (_kvad_node_create (kvad_subnode_rect_fl rnd rect 2) (level + 1))
                (_kvad_node_create (kvad_subnode_rect_fl rnd rect 3) (level + 1)) [] 0) := by
            have h0n : (_kvad_node_create (kvad_subnode_rect_fl rnd rect 0) (level + 1)).is_null
                = false := rfl
            rw [shape_inv_internal_iff h0n]
            exact ⟨hl, hsplit.1, hleaf 0, hleaf 1, hleaf 2, hleaf 3⟩
          have hdepth : kvad_insert_depth tree
              (.node level rect (_kvad_node_create (kvad_subnode_rect_fl rnd rect 0) (level + 1))
                (_kvad_node_create (kvad_subnode_rect_fl rnd rect 1) (level + 1))
                (_kvad_node_create (kvad_subnode_rect_fl rnd rect 2) (level + 1))
                (_kvad_node_create (kvad_subnode_rect_fl rnd rect 3) (level + 1)) [] 0)
              = 2 * (tree.max_levels - level) := by
            simp [kvad_insert_depth, _kvad_node_create, kvad_node.is_null]
          simp only [kvad_insert_depth, hs, if_true] at hf
          obtain ⟨r, er, ir, lr, fr⟩ := hfold ({ point := point, payload := payload } :: data) _
            hinv (by rw [hdepth]; omega)
          refine ⟨r, ?_, ir, lr, ?_⟩
          · simp only [_kvad_node_insert_fl, hc, hs, hsplit, hlv, Bool.not_true,
              Bool.false_eq_true, if_false, if_true, and_self]
            exact er
          · rw [hdepth] at fr
            have hdn : kvad_insert_depth tree (.node level rect s0 s1 s2 s3 data dc)
                = 2 * (tree.max_levels - level) + 1 := by
              simp only [kvad_insert_depth, hs, if_true]
            rw [hdn]
            omega
        · refine ⟨.node level rect s0 s1 s2 s3 ({ point := point, payload := payload } :: data)
            ((dc + 1) % UINT_RANGE), ?_, ?_, rfl, le_refl _⟩
          · simp only [_kvad_node_insert_fl, hc, hs, hsplit, Bool.not_true, Bool.false_eq_true,
              if_false]
          · rw [shape_inv_leaf_iff hs]
            exact ⟨hl, ((shape_inv_leaf_iff hs).1 hn).2⟩
      · simp only [Bool.not_eq_true] at hs
        obtain ⟨-, hlt, ⟨a0, b0⟩, ⟨a1, b1⟩, ⟨a2, b2⟩, ⟨a3, b3⟩⟩ := (shape_inv_internal_iff hs).1 hn
        simp only [kvad_insert_depth, hs, Bool.false_eq_true, if_false] at hf
        have hq4 := quadrant_fl_lt rnd rect point
        have hq : kvad_quadrant_fl rnd rect point = 0 ∨ kvad_quadrant_fl rnd rect point = 1 ∨
            kvad_quadrant_fl rnd rect point = 2 ∨ kvad_quadrant_fl rnd rect point = 3 := by omega
        rcases hq with hq | hq | hq | hq
        · obtain ⟨r, er, ir, lr, -⟩ := ih s0 point payload a0
            (by have := @insert_depth_of_level tree _ _ b0; omega)
          refine ⟨.node level rect r s1 s2 s3 data dc, ?_, ?_, rfl, ?_⟩
          · simp [_kvad_node_insert_fl, hc, hs, hq, er]
          · rw [shape_inv_internal_iff (shape_inv_not_null ir)]
            exact ⟨hl, hlt, ⟨ir, lr.trans b0⟩, ⟨a1, b1⟩, ⟨a2, b2⟩, ⟨a3, b3⟩⟩
          · simp [kvad_insert_depth, hs, shape_inv_not_null ir]
        · obtain ⟨r, er, ir, lr, -⟩ := ih s1 point payload a1
            (by have := @insert_depth_of_level tree _ _ b1; omega)
          refine ⟨.node level rect s0 r s2 s3 data dc, ?_, ?_, rfl, ?_⟩
          · simp [_kvad_node_insert_fl, hc, hs, hq, er]
          · rw [shape_inv_internal_iff hs]
            exact ⟨hl, hlt, ⟨a0, b0⟩, ⟨ir, lr.trans b1⟩, ⟨a2, b2⟩, ⟨a3, b3⟩⟩
          · simp [kvad_insert_depth, hs]
        · obtain ⟨r, er, ir, lr, -⟩ := ih s2 point payload a2
            (by have := @insert_depth_of_level tree _ _ b2; omega)
          refine ⟨.node level rect s0 s1 r s3 data dc, ?_, ?_, rfl, ?_⟩
          · simp [_kvad_node_insert_fl, hc, hs, hq, er]
          · rw [shape_inv_internal_iff hs]
            exact ⟨hl, hlt, ⟨a0, b0⟩, ⟨a1, b1⟩, ⟨ir, lr.trans b2⟩, ⟨a3, b3⟩⟩
          · simp [kvad_insert_depth, hs]
        · obtain ⟨r, er, ir, lr, -⟩ := ih s3 point payload a3
            (by have := @insert_depth_of_level tree _ _ b3; omega)
          refine ⟨.node level rect s0 s1 s2 r data dc, ?_, ?_, rfl, ?_⟩
          · simp [_kvad_node_insert_fl, hc, hs, hq, er]
          · rw [shape_inv_internal_iff hs]
            exact ⟨hl, hlt, ⟨a0, b0⟩, ⟨a1, b1⟩, ⟨a2, b2⟩, ⟨ir, lr.trans b3⟩⟩
          · simp [kvad_insert_depth, hs]

/-- Whatever the rounding, `_kvad_node_remove_payload` on a node of a tree of the
right shape returns and keeps the shape and the level. -/
theorem remove_fl_spec (rnd : ℚ → ℚ) (tree : kvad_tree) (point : kvad_point) (payload : Nat)
    (n : kvad_node) :
    shape_inv tree n →
      ∃ r c, _kvad_node_remove_payload_fl rnd n point payload = some (r, c) ∧
        shape_inv tree r ∧ r.level? = n.level? := by
  induction n with
  | NULL => intro hn; simp [shape_inv] at hn
  | node level rect s0 s1 s2 s3 data dc ih0 ih1 ih2 ih3 =>
    intro hn
    have hl := shape_inv_level_le hn
    by_cases hs : s0.is_null = true
    · refine ⟨.node level rect s0 s1 s2 s3 (_kvad_node_remove_payload_loop payload data 0 dc).1
          (_kvad_node_remove_payload_loop payload data 0 dc).2.2,
        (_kvad_node_remove_payload_loop payload data 0 dc).2.1,
        by simp only [_kvad_node_remove_payload_fl, hs, Bool.not_true, Bool.false_eq_true,
          if_false], ?_, rfl⟩
      rw [shape_inv_leaf_iff hs]
      exact (shape_inv_leaf_iff hs).1 hn
    · simp only [Bool.not_eq_true] at hs
      obtain ⟨-, hlt, ⟨a0, b0⟩, ⟨a1, b1⟩, ⟨a2, b2⟩, ⟨a3, b3⟩⟩ := (shape_inv_internal_iff hs).1 hn
      have hq4 := quadrant_fl_lt rnd rect point
      have hq : kvad_quadrant_fl rnd rect point = 0 ∨ kvad_quadrant_fl rnd rect point = 1 ∨
          kvad_quadrant_fl rnd rect point = 2 ∨ kvad_quadrant_fl rnd rect point = 3 := by omega
      rcases hq with hq | hq | hq | hq
      · obtain ⟨r, c, er, ir, lr⟩ := ih0 a0
        refine ⟨.node level rect r s1 s2 s3 data dc, c,
          by simp [_kvad_node_remove_payload_fl, hs, hq, er], ?_, rfl⟩
        rw [shape_inv_internal_iff (shape_inv_not_null ir)]
        exact ⟨hl, hlt, ⟨ir, lr.trans b0⟩, ⟨a1, b1⟩, ⟨a2, b2⟩, ⟨a3, b3⟩⟩
      · obtain ⟨r, c, er, ir, lr⟩ := ih1 a1
        refine ⟨.node level rect s0 r s2 s3 data dc, c,
          by simp [_kvad_node_remove_payload_fl, hs, hq, er], ?_, rfl⟩
        rw [shape_inv_internal_iff hs]
        exact ⟨hl, hlt, ⟨a0, b0⟩, ⟨ir, lr.trans b1⟩, ⟨a2, b2⟩, ⟨a3, b3⟩⟩
      · obtain ⟨r, c, er, ir, lr⟩ := ih2 a2
        refine ⟨.node level rect s0 s1 r s3 data dc, c,
          by simp [_kvad_node_remove_payload_fl, hs, hq, er], ?_, rfl⟩
        rw [shape_inv_internal_iff hs]
        exact ⟨hl, hlt, ⟨a0, b0⟩, ⟨a1, b1⟩, ⟨ir, lr.trans b2⟩, ⟨a3, b3⟩⟩
      · obtain ⟨r, c, er, ir, lr⟩ := ih3 a3
        refine ⟨.node level rect s0 s1 s2 r data dc, c,
          by simp [_kvad_node_remove_payload_fl, hs, hq, er], ?_, rfl⟩
        rw [shape_inv_internal_iff hs]
        exact ⟨hl, hlt, ⟨a0, b0⟩, ⟨a1, b1⟩, ⟨a2, b2⟩, ⟨ir, lr.trans b3⟩⟩

/-- What holds of every tree reachable with rounded arithmetic: the depth limit fits
an `unsigned int`, the root is at level 0 and the tree has the right shape. -/
theorem reachable_fl_inv {rnd : ℚ → ℚ} {tree : kvad_tree} (h : Reachable_fl rnd tree) :
    tree.max_levels < UINT_RANGE ∧ tree.root_node.level? = some 0 ∧
      shape_inv tree tree.root_node := by
  induction h with
  | create x y width height max_levels max_points_per_node hw hh hml hmp =>
    refine ⟨hml, rfl, ?_⟩
    exact shape_inv_create _ _ 0 (Nat.zero_le _)
  | insert tree tree1 x y payload _ e ih =>
    obtain ⟨hml, hl0, hn⟩ := ih
    have hd : kvad_insert_depth tree tree.root_node ≤ kvad_tree_insert_fuel tree := by
      have := @insert_depth_of_level tree _ _ hl0
      simp only [kvad_tree_insert_fuel]
      omega
    obtain ⟨r, er, ir, lr, -⟩ := insert_fl_spec rnd tree hml _ tree.root_node ⟨x, y⟩ payload hn hd
    rw [kvad_tree_insert_fl, er] at e
    simp only [Option.map_some', Option.some.injEq] at e
    rw [← e]
    exact ⟨hml, lr.trans hl0, @shape_inv_congr tree { tree with root_node := r } rfl r ir⟩
  | remove_payload tree tree1 x y payload count _ e ih =>
    obtain ⟨hml, hl0, hn⟩ := ih
    obtain ⟨r, c, er, ir, lr⟩ := remove_fl_spec rnd tree ⟨x, y⟩ payload tree.root_node hn
    rw [kvad_tree_remove_payload_fl, er] at e
    simp only [Option.map_some', Option.some.injEq, Prod.mk.injEq] at e
    rw [← e.1]
    exact ⟨hml, lr.trans hl0, @shape_inv_congr tree { tree with root_node := r } rfl r ir⟩

/-- Whatever the rounding, `kvad_tree_insert` returns on a reachable tree. -/
theorem tree_insert_fl_returns {rnd : ℚ → ℚ} {tree : kvad_tree} (h : Reachable_fl rnd tree)
    (x y : ℚ) (payload : Nat) :
    ∃ tree1, kvad_tree_insert_fl rnd tree x y payload = some tree1 := by
  obtain ⟨hml, hl0, hn⟩ := reachable_fl_inv h
  have hd : kvad_insert_depth tree tree.root_node ≤ kvad_tree_insert_fuel tree := by
    have := @insert_depth_of_level tree _ _ hl0
    simp only [kvad_tree_insert_fuel]
    omega
  obtain ⟨r, er, -⟩ := insert_fl_spec rnd tree hml _ tree.root_node ⟨x, y⟩ payload hn hd
  exact ⟨{ tree with root_node := r }, by rw [kvad_tree_insert_fl, er]; rfl⟩

/-- Whatever the rounding, a call of `_kvad_node_insert` whose point passes every
bounds test on its way down, and that does not split the leaf it reaches, puts the
new cell at the head of the list of that leaf and changes nothing else of it. -/
theorem insert_fl_no_split (rnd : ℚ → ℚ) (tree : kvad_tree) (point : kvad_point)
    (payload : Nat) (level : Nat) (rc : kvad_rect) (t1 t2 t3 : kvad_node)
    (data : List kvad_data) (dc : Nat)
    (hns : ¬ (level < tree.max_levels ∧ (dc + 1) % UINT_RANGE > tree.max_points_per_node))
    (n : kvad_node) :
    n.passes_fl rnd point = true →
      n.leaf_at_fl rnd point = .node level rc .NULL t1 t2 t3 data dc →
      ∀ fuel r, _kvad_node_insert_fl rnd fuel tree n point payload = some r →
        r.leaf_at_fl rnd point
          = .node level rc .NULL t1 t2 t3 (⟨point, payload⟩ :: data) ((dc + 1) % UINT_RANGE) := by
  induction n with
  | NULL => intro hp; simp [kvad_node.passes_fl] at hp
  | node lv rect s0 s1 s2 s3 dt cnt ih0 ih1 ih2 ih3 =>
    intro hp hleaf fuel r hr
    cases fuel with
    | zero => simp [_kvad_node_insert_fl] at hr
    | succ fuel =>
      simp only [kvad_node.passes_fl, Bool.and_eq_true, Bool.or_eq_true] at hp
      obtain ⟨hc, hrest⟩ := hp
      by_cases hs : s0.is_null = true
      · simp only [kvad_node.leaf_at_fl, hs, if_true, kvad_node.node.injEq] at hleaf
        obtain ⟨e1, e2, e3, e4, e5, e6, e7, e8⟩ := hleaf
        subst e1 e2 e3 e4 e5 e6 e7 e8
        simp only [_kvad_node_insert_fl, hc, kvad_node.is_null, hns, Bool.not_true,
          Bool.false_eq_true, if_false, Option.some.injEq] at hr
        rw [← hr]
        simp [kvad_node.leaf_at_fl, kvad_node.is_null]
      · simp only [Bool.not_eq_true] at hs
        simp only [hs, Bool.false_eq_true, false_or] at hrest
        have hq4 := quadrant_fl_lt rnd rect point
        have hq : kvad_quadrant_fl rnd rect point = 0 ∨ kvad_quadrant_fl rnd rect point = 1 ∨
            kvad_quadrant_fl rnd rect point = 2 ∨ kvad_quadrant_fl rnd rect point = 3 := by omega
        rcases hq with hq | hq | hq | hq
        · simp only [hq] at hrest
          simp only [kvad_node.leaf_at_fl, hs, hq, Bool.false_eq_true, if_false] at hleaf
          simp only [_kvad_node_insert_fl, hc, hs, hq, Bool.not_true, Bool.not_false,
            Bool.false_eq_true, if_false, if_true] at hr
          cases h1 : _kvad_node_insert_fl rnd fuel tree s0 point payload with
          | none => simp [h1] at hr
          | some r1 =>
            simp [h1] at hr
            have := ih0 hrest hleaf fuel r1 h1
            have hrn : r1.is_null = false := by
              cases r1 with
              | NULL => simp [kvad_node.leaf_at_fl] at this
              | node _ _ _ _ _ _ _ _ => rfl
            rw [← hr]
            simpa only [kvad_node.leaf_at_fl, hrn, hq, Bool.false_eq_true, if_false] using this
        · simp only [hq] at hrest
          simp only [kvad_node.leaf_at_fl, hs, hq, Bool.false_eq_true, if_false] at hleaf
          simp only [_kvad_node_insert_fl, hc, hs, hq, Bool.not_true, Bool.not_false,
            Bool.false_eq_true, if_false, if_true] at hr
          cases h1 : _kvad_node_insert_fl rnd fuel tree s1 point payload with
          | none => simp [h1] at hr
          | some r1 =>
            simp [h1] at hr
            have := ih1 hrest hleaf fuel r1 h1
            rw [← hr]
            simpa only [kvad_node.leaf_at_fl, hs, hq, Bool.false_eq_true, if_false] using this
        · simp only [hq] at hrest
          simp only [kvad_node.leaf_at_fl, hs, hq, Bool.false_eq_true, if_false] at hleaf
          simp only [_kvad_node_insert_fl, hc, hs, hq, Bool.not_true, Bool.not_false,
            Bool.false_eq_true, if_false, if_true] at hr
          cases h1 : _kvad_node_insert_fl rnd fuel tree s2 point payload with
          | none => simp [h1] at hr
          | some r1 =>
            simp [h1] at hr
            have := ih2 hrest hleaf fuel r1 h1
            rw [← hr]
            simpa only [kvad_node.leaf_at_fl, hs, hq, Bool.false_eq_true, if_false] using this
        · simp only [hq] at hrest
          simp only [kvad_node.leaf_at_fl, hs, hq, Bool.false_eq_true, if_false] at hleaf
          simp only [_kvad_node_insert_fl, hc, hs, hq, Bool.not_true, Bool.not_false,
            Bool.false_eq_true, if_false, if_true] at hr
          cases h1 : _kvad_node_insert_fl rnd fuel tree s3 point payload with
          | none => simp [h1] at hr
          | some r1 =>
            simp [h1] at hr
            have := ih3 hrest hleaf fuel r1 h1
            rw [← hr]
            simpa only [kvad_node.leaf_at_fl, hs, hq, Bool.false_eq_true, if_false] using this

theorem remove_fl_not_null (rnd : ℚ → ℚ) (point : kvad_point) (payload : Nat) (n r : kvad_node)
    (c : Nat) (h : _kvad_node_remove_payload_fl rnd n point payload = some (r, c)) :
    r.is_null = false := by
  cases n with
  | NULL => simp [_kvad_node_remove_payload_fl] at h
  | node level rect s0 s1 s2 s3 data dc =>
    by_cases hs : s0.is_null = true
    · simp only [_kvad_node_remove_payload_fl, hs, Bool.not_true, Bool.false_eq_true, if_false,
        Option.some.injEq, Prod.mk.injEq] at h
      rw [← h.1]
      rfl
    · simp only [Bool.not_eq_true] at hs
      have hq4 := quadrant_fl_lt rnd rect point
      have hq : kvad_quadrant_fl rnd rect point = 0 ∨ kvad_quadrant_fl rnd rect point = 1 ∨
          kvad_quadrant_fl rnd rect point = 2 ∨ kvad_quadrant_fl rnd rect point = 3 := by omega
      rcases hq with hq | hq | hq | hq <;>
      · simp only [_kvad_node_remove_payload_fl, hs, hq, Bool.not_false, if_true] at h
        simp only [Option.bind_eq_bind, Option.bind_eq_some, Option.pure_def, Option.some.injEq,
          Prod.mk.injEq] at h
        obtain ⟨a, -, ha, -⟩ := h
        rw [← ha]
        rfl

/-- Whatever the rounding, `_kvad_node_remove_payload` removes no cell that carries
another payload: the cells with another payload are the same, in the same order,
before and after. -/
theorem remove_fl_spares_other_payloads (rnd : ℚ → ℚ) (point : kvad_point) (payload : Nat)
    (n : kvad_node) :
    ∀ r c, _kvad_node_remove_payload_fl rnd n point payload = some (r, c) →
      r.entries.filter (fun d => ¬ d.payload = payload)
        = n.entries.filter (fun d => ¬ d.payload = payload) := by
  induction n with
  | NULL => intro r c h; simp [_kvad_node_remove_payload_fl] at h
  | node level rect s0 s1 s2 s3 data dc ih0 ih1 ih2 ih3 =>
    intro r c h
    by_cases hs : s0.is_null = true
    · simp only [_kvad_node_remove_payload_fl, hs, Bool.not_true, Bool.false_eq_true, if_false,
        Option.some.injEq, Prod.mk.injEq] at h
      rw [← h.1]
      simp only [kvad_node.entries, hs, if_true, remove_loop_fst, List.filter_filter]
      congr 1
      funext d
      simp
    · simp only [Bool.not_eq_true] at hs
      have hq4 := quadrant_fl_lt rnd rect point
      have hq : kvad_quadrant_fl rnd rect point = 0 ∨ kvad_quadrant_fl rnd rect point = 1 ∨
          kvad_quadrant_fl rnd rect point = 2 ∨ kvad_quadrant_fl rnd rect point = 3 := by omega
      rcases hq with hq | hq | hq | hq
      · simp only [_kvad_node_remove_payload_fl, hs, hq, Bool.not_false, if_true] at h
        cases h0 : _kvad_node_remove_payload_fl rnd s0 point payload with
        | none => simp [h0] at h
        | some rc =>
          obtain ⟨r0, c0⟩ := rc
          simp [h0] at h
          have hrn := remove_fl_not_null rnd point payload s0 r0 c0 h0
          rw [← h.1]
          simp only [kvad_node.entries, hs, hrn, Bool.false_eq_true, if_false, List.filter_append,
            ih0 r0 c0 h0]
      · simp only [_kvad_node_remove_payload_fl, hs, hq, Bool.not_false, if_true] at h
        cases h0 : _kvad_node_remove_payload_fl rnd s1 point payload with
        | none => simp [h0] at h
        | some rc =>
          obtain ⟨r0, c0⟩ := rc
          simp [h0] at h
          rw [← h.1]
          simp only [kvad_node.entries, hs, Bool.false_eq_true, if_false, List.filter_append,
            ih1 r0 c0 h0]
      · simp only [_kvad_node_remove_payload_fl, hs, hq, Bool.not_false, if_true] at h
        cases h0 : _kvad_node_remove_payload_fl rnd s2 point payload with
        | none => simp [h0] at h
        | some rc =>
          obtain ⟨r0, c0⟩ := rc
          simp [h0] at h
          rw [← h.1]
          simp only [kvad_node.entries, hs, Bool.false_eq_true, if_false, List.filter_append,
            ih2 r0 c0 h0]
      · simp only [_kvad_node_remove_payload_fl, hs, hq, Bool.not_false, if_true] at h
        cases h0 : _kvad_node_remove_payload_fl rnd s3 point payload with
        | none => simp [h0] at h
        | some rc =>
          obtain ⟨r0, c0⟩ := rc
          simp [h0] at h
          rw [← h.1]
          simp only [kvad_node.entries, hs, Bool.false_eq_true, if_false, List.filter_append,
            ih3 r0 c0 h0]

/-- Walk on a tree of the right shape visits exactly the cells of `entries`, in that
order, and counts them. -/
theorem walk_shape_eq {σ : Type} (tree : kvad_tree) (callback : Option (kvad_callback σ))
    (n : kvad_node) (h : shape_inv tree n) (context : σ) :
    _kvad_node_walk callback n context
      = some (n.entries.length, n.entries.foldl (fun c d => kvad_invoke callback d c) context) := by
  induction n generalizing context with
  | NULL => simp [shape_inv] at h
  | node level rect s0 s1 s2 s3 data data_count ih0 ih1 ih2 ih3 =>
    by_cases hs : s0.is_null = true
    · simp [_kvad_node_walk, kvad_node.entries, hs, walk_loop_eq]
    · simp only [Bool.not_eq_true] at hs
      obtain ⟨_, _, ⟨h0, _⟩, ⟨h1, _⟩, ⟨h2, _⟩, ⟨h3, _⟩⟩ := (shape_inv_internal_iff hs).1 h
      simp [_kvad_node_walk, kvad_node.entries, hs, ih0 h0, ih1 h1, ih2 h2, ih3 h3,
        Nat.add_assoc]

theorem walk_shape_record {tree : kvad_tree} {n : kvad_node} (h : shape_inv tree n) :
    _kvad_node_walk (some kvad_record) n []
      = some ((n.entries.map kvad_data.triple).length, n.entries.map kvad_data.triple) := by
  rw [walk_shape_eq tree _ n h, invoke_record_foldl]
  simp

theorem find_loop_fl_eq {σ : Type} (rnd : ℚ → ℚ) (rect : kvad_rect)
    (callback : Option (kvad_callback σ)) (l : List kvad_data) (count : Nat) (context : σ) :
    _kvad_node_find_loop_fl rnd rect callback l count context
      = (count + (l.filter (fun d => _kvad_rect_contains_point_fl rnd rect d.point)).length,
         (l.filter (fun d => _kvad_rect_contains_point_fl rnd rect d.point)).foldl
           (fun c d => kvad_invoke callback d c) context) := by
  induction l generalizing count context with
  | nil => simp [_kvad_node_find_loop_fl]
  | cons d l ih =>
    by_cases h : _kvad_rect_contains_point_fl rnd rect d.point = true
    · simp [_kvad_node_find_loop_fl, ih, h]; omega
    · simp [_kvad_node_find_loop_fl, ih, h]

theorem filter_map_triple_fl (rnd : ℚ → ℚ) (x y width height : ℚ) (l : List kvad_data) :
    (l.filter (fun d => _kvad_rect_contains_point_fl rnd ⟨⟨x, y⟩, ⟨width, height⟩⟩ d.point)).map
        kvad_data.triple
      = (l.map kvad_data.triple).filter (fun e => kvad_in_query_fl rnd x y width height e) := by
  induction l with
  | nil => rfl
  | cons d l ih =>
    by_cases hd : _kvad_rect_contains_point_fl rnd ⟨⟨x, y⟩, ⟨width, height⟩⟩ d.point = true
    · have : kvad_in_query_fl rnd x y width height d.triple = true := hd
      simp [hd, this, ih]
    · have : ¬ kvad_in_query_fl rnd x y width height d.triple = true := hd
      simp [hd, this, ih]

/-- Find at a leaf, with the recording callback: the cells of the list that pass the
test of the query rectangle, head first, after what was recorded before. -/
theorem find_fl_leaf_record (rnd : ℚ → ℚ) (x y width height : ℚ) (level : Nat)
    (rect : kvad_rect) (s0 s1 s2 s3 : kvad_node) (data : List kvad_data) (dc : Nat)
    (hs : s0.is_null = true) (context : List (ℚ × ℚ × Nat)) :
    _kvad_node_find_fl rnd ⟨⟨x, y⟩, ⟨width, height⟩⟩ (some kvad_record)
        (.node level rect s0 s1 s2 s3 data dc) context
      = some (((data.map kvad_data.triple).filter
            (fun e => kvad_in_query_fl rnd x y width height e)).length,
          context ++ (data.map kvad_data.triple).filter
            (fun e => kvad_in_query_fl rnd x y width height e)) := by
  simp only [_kvad_node_find_fl, hs, Bool.not_true, Bool.false_eq_true, if_false, find_loop_fl_eq,
    invoke_record_foldl, filter_map_triple_fl, Nat.zero_add]
  rw [← filter_map_triple_fl, List.length_map]

/-- Find with the recording callback, on a tree of the right shape, appends its
report to what was recorded before and counts it. -/
theorem find_fl_record (rnd : ℚ → ℚ) (tree : kvad_tree) (x y width height : ℚ)
    (n : kvad_node) (h : shape_inv tree n) :
    ∃ l : List (ℚ × ℚ × Nat), ∀ context,
      _kvad_node_find_fl rnd ⟨⟨x, y⟩, ⟨width, height⟩⟩ (some kvad_record) n context
        = some (l.length, context ++ l) := by
  induction n with
  | NULL => simp [shape_inv] at h
  | node level rect s0 s1 s2 s3 data dc ih0 ih1 ih2 ih3 =>
    by_cases hs : s0.is_null = true
    · exact ⟨_, fun context => find_fl_leaf_record rnd x y width height level rect s0 s1 s2 s3
        data dc hs context⟩
    · simp only [Bool.not_eq_true] at hs
      obtain ⟨_, _, ⟨h0, _⟩, ⟨h1, _⟩, ⟨h2, _⟩, ⟨h3, _⟩⟩ := (shape_inv_internal_iff hs).1 h
      obtain ⟨l0, e0⟩ := ih0 h0
      obtain ⟨l1, e1⟩ := ih1 h1
      obtain ⟨l2, e2⟩ := ih2 h2
      obtain ⟨l3, e3⟩ := ih3 h3
      have hr : ∀ {m : kvad_node}, shape_inv tree m → ∃ r, m.rect? = some r := by
        intro m hm
        cases m with
        | NULL => simp [shape_inv] at hm
        | node _ r _ _ _ _ _ _ => exact ⟨r, rfl⟩
      obtain ⟨r0, q0⟩ := hr h0
      obtain ⟨r1, q1⟩ := hr h1
      obtain ⟨r2, q2⟩ := hr h2
      obtain ⟨r3, q3⟩ := hr h3
      refine ⟨(if _kvad_rect_intersects_rect_fl rnd r0 ⟨⟨x, y⟩, ⟨width, height⟩⟩ then l0 else [])
        ++ (if _kvad_rect_intersects_rect_fl rnd r1 ⟨⟨x, y⟩, ⟨width, height⟩⟩ then l1 else [])
        ++ (if _kvad_rect_intersects_rect_fl rnd r2 ⟨⟨x, y⟩, ⟨width, height⟩⟩ then l2 else [])
        ++ (if _kvad_rect_intersects_rect_fl rnd r3 ⟨⟨x, y⟩, ⟨width, height⟩⟩ then l3 else []),
        ?_⟩
      intro context
      simp only [_kvad_node_find_fl, hs, q0, q1, q2, q3, Bool.not_false, if_true]
      by_cases i0 : _kvad_rect_intersects_rect_fl rnd r0 ⟨⟨x, y⟩, ⟨width, height⟩⟩ = true <;>
      by_cases i1 : _kvad_rect_intersects_rect_fl rnd r1 ⟨⟨x, y⟩, ⟨width, height⟩⟩ = true <;>
      by_cases i2 : _kvad_rect_intersects_rect_fl rnd r2 ⟨⟨x, y⟩, ⟨width, height⟩⟩ = true <;>
      by_cases i3 : _kvad_rect_intersects_rect_fl rnd r3 ⟨⟨x, y⟩, ⟨width, height⟩⟩ = true <;>
      simp [i0, i1, i2, i3, e0, e1, e2, e3, Nat.add_assoc, List.append_assoc]

/-- The re-insertion loop of a split, whatever the rounding: it returns and keeps the
shape, the level and the depth budget of the node it works on. -/
theorem insert_fl_fold (rnd : ℚ → ℚ) (tree : kvad_tree) (hml : tree.max_levels < UINT_RANGE)
    (fuel : Nat) (l : List kvad_data) :
    ∀ m, shape_inv tree m → kvad_insert_depth tree m ≤ fuel →
      ∃ r, l.foldlM (fun node (d : kvad_data) =>
          _kvad_node_insert_fl rnd fuel tree node d.point d.payload) m = some r ∧
        shape_inv tree r ∧ r.level? = m.level? ∧
        kvad_insert_depth tree r ≤ kvad_insert_depth tree m := by
  induction l with
  | nil => intro m hm _; exact ⟨m, rfl, hm, rfl, le_refl _⟩
  | cons d l ihl =>
    intro m hm hd
    obtain ⟨r1, e1, i1, l1, f1⟩ := insert_fl_spec rnd tree hml fuel m d.point d.payload hm hd
    obtain ⟨r, e2, i2, l2, f2⟩ := ihl r1 i1 (le_trans f1 hd)
    refine ⟨r, ?_, i2, l2.trans l1, le_trans f2 f1⟩
    rw [List.foldlM_cons, e1]
    exact e2

/-- A node at the level of an internal node and within its depth budget is
internal. -/
theorem internal_of_depth_le {tree : kvad_tree} {n r : kvad_node} (hl : r.level? = n.level?)
    (hd : kvad_insert_depth tree r ≤ kvad_insert_depth tree n) (hn : n.is_leaf = false)
    (hnn : n.is_null = false) : r.is_leaf = false := by
  cases n with
  | NULL => simp [kvad_node.is_null] at hnn
  | node level rect s0 s1 s2 s3 data dc =>
    cases r with
    | NULL => rfl
    | node l2 rc2 t0 t1 t2 t3 d2 c2 =>
      simp only [kvad_node.is_leaf] at hn ⊢
      simp only [kvad_node.level?, Option.some.injEq] at hl
      simp only [kvad_insert_depth, hn, hl, Bool.false_eq_true, if_false] at hd
      by_contra hc
      simp only [Bool.not_eq_false] at hc
      rw [hc] at hd
      simp only [if_true] at hd
      omega

/-- Whatever the rounding, a call of `_kvad_node_insert` on a leaf that leaves a leaf
has put the new cell at the head of the list when the point passed the bounds test,
and has changed nothing otherwise. -/
theorem insert_fl_leaf_stays_leaf (rnd : ℚ → ℚ) (tree : kvad_tree)
    (hml : tree.max_levels < UINT_RANGE) (fuel : Nat) (level : Nat) (rect : kvad_rect)
    (s0 s1 s2 s3 : kvad_node) (data : List kvad_data) (dc : Nat) (point : kvad_point)
    (payload : Nat) (hn : shape_inv tree (.node level rect s0 s1 s2 s3 data dc))
    (hs : s0.is_null = true)
    (hf : kvad_insert_depth tree (.node level rect s0 s1 s2 s3 data dc) ≤ fuel) (r : kvad_node)
    (hr : _kvad_node_insert_fl rnd fuel tree (.node level rect s0 s1 s2 s3 data dc) point payload
      = some r)
    (hrl : r.is_leaf = true) :
    r.rect? = some rect ∧
      r.entries = (if _kvad_rect_contains_point_fl rnd rect point then [⟨point, payload⟩] else [])
        ++ data := by
  cases fuel with
  | zero => simp [_kvad_node_insert_fl] at hr
  | succ fuel =>
    by_cases hc : _kvad_rect_contains_point_fl rnd rect point = true
    swap
    · simp only [_kvad_node_insert_fl, hc, Bool.not_false, if_true, Option.some.injEq] at hr
      rw [← hr]
      simp [kvad_node.rect?, kvad_node.entries, hs, hc]
    by_cases hsplit : level < tree.max_levels ∧ (dc + 1) % UINT_RANGE > tree.max_points_per_node
    · exfalso
      have hl := shape_inv_level_le hn
      have hlv : (level + 1) % UINT_RANGE = level + 1 := Nat.mod_eq_of_lt (by omega)
      have hleaf : ∀ i, shape_inv tree
          (_kvad_node_create (kvad_subnode_rect_fl rnd rect i) (level + 1)) ∧
          (_kvad_node_create (kvad_subnode_rect_fl rnd rect i) (level + 1)).level?
            = some (level + 1) :=
        fun i => ⟨shape_inv_create tree _ _ hsplit.1, rfl⟩
      have hinv : shape_inv tree
          (.node level rect (_kvad_node_create (kvad_subnode_rect_fl rnd rect 0) (level + 1))
            (_kvad_node_create (kvad_subnode_rect_fl rnd rect 1) (level + 1))
            (_kvad_node_create (kvad_subnode_rect_fl rnd rect 2) (level + 1))
            (_kvad_node_create (kvad_subnode_rect_fl rnd rect 3) (level + 1)) [] 0) := by
        have h0n : (_kvad_node_create (kvad_subnode_rect_fl rnd rect 0) (level + 1)).is_null
            = false := rfl
        rw [shape_inv_internal_iff h0n]
        exact ⟨hl, hsplit.1, hleaf 0, hleaf 1, hleaf 2, hleaf 3⟩
      have hdepth : kvad_insert_depth tree
          (.node level rect (_kvad_node_create (kvad_subnode_rect_fl rnd rect 0) (level + 1))
            (_kvad_node_create (kvad_subnode_rect_fl rnd rect 1) (level + 1))
            (_kvad_node_create (kvad_subnode_rect_fl rnd rect 2) (level + 1))
            (_kvad_node_create (kvad_subnode_rect_fl rnd rect 3) (level + 1)) [] 0)
          = 2 * (tree.max_levels - level) := by
        simp [kvad_insert_depth, _kvad_node_create, kvad_node.is_null]
      simp only [kvad_insert_depth, hs, if_true] at hf
      obtain ⟨r1, er, -, lr, fr⟩ := insert_fl_fold rnd tree hml fuel
        ({ point := point, payload := payload } :: data) _ hinv (by rw [hdepth]; omega)
      simp only [_kvad_node_insert_fl, hc, hs, hsplit, hlv, Bool.not_true, Bool.false_eq_true,
        if_false, if_true, and_self] at hr
      rw [er] at hr
      simp only [Option.some.injEq] at hr
      subst hr
      have := internal_of_depth_le lr fr rfl rfl
      rw [this] at hrl
      exact Bool.false_ne_true hrl
    · simp only [_kvad_node_insert_fl, hc, hs, hsplit, Bool.not_true, Bool.false_eq_true,
        if_false, Option.some.injEq] at hr
      rw [← hr]
      simp [kvad_node.rect?, kvad_node.entries, hs, hc]

theorem in_bounds_fl_of_rect_eq (rnd : ℚ → ℚ) {t1 t2 : kvad_tree}
    (h : t1.root_node.rect? = t2.root_node.rect?) (x y : ℚ) :
    kvad_tree_in_bounds_fl rnd t1 x y = kvad_tree_in_bounds_fl rnd t2 x y := by
  cases t1 with
  | mk a1 b1 r1 =>
    cases t2 with
    | mk a2 b2 r2 =>
      cases r1 <;> cases r2 <;> simp_all [kvad_node.rect?, kvad_tree_in_bounds_fl]

/-- Whatever the rounding: while the root is a leaf, a run of inserts puts the
triples that pass its bounds test, the newest first, ahead of the cells that were
there. -/
theorem tree_insert_all_fl_unsplit (rnd : ℚ → ℚ) (l : List (ℚ × ℚ × Nat)) :
    ∀ tree, Reachable_fl rnd tree → ∀ treeN, kvad_tree_insert_all_fl rnd tree l = some treeN →
      treeN.root_node.is_leaf = true →
      tree.root_node.is_leaf = true ∧ Reachable_fl rnd treeN ∧
        treeN.root_node.entries.map kvad_data.triple
          = (l.filter (fun e => kvad_tree_in_bounds_fl rnd tree e.1 e.2.1)).reverse
            ++ tree.root_node.entries.map kvad_data.triple := by
  induction l with
  | nil =>
    intro tree hR treeN hN hleaf
    simp only [kvad_tree_insert_all_fl, List.foldlM_nil, Option.pure_def, Option.some.injEq] at hN
    subst hN
    exact ⟨hleaf, hR, by simp⟩
  | cons e l ih =>
    intro tree hR treeN hN hleaf
    obtain ⟨hml, hl0, hn⟩ := reachable_fl_inv hR
    obtain ⟨t1, e1⟩ := tree_insert_fl_returns hR e.1 e.2.1 e.2.2
    have hR1 : Reachable_fl rnd t1 := Reachable_fl.insert tree t1 e.1 e.2.1 e.2.2 hR e1
    simp only [kvad_tree_insert_all_fl, List.foldlM_cons, e1, Option.bind_eq_bind,
      Option.some_bind] at hN
    obtain ⟨hl1, hRN, hent⟩ := ih t1 hR1 treeN hN hleaf
    have hd : kvad_insert_depth tree tree.root_node ≤ kvad_tree_insert_fuel tree := by
      have := @insert_depth_of_level tree _ _ hl0
      simp only [kvad_tree_insert_fuel]
      omega
    obtain ⟨r, er, ir, lr, fr⟩ := insert_fl_spec rnd tree hml _ tree.root_node ⟨e.1, e.2.1⟩ e.2.2
      hn hd
    have ht1 : t1.root_node = r := by
      rw [kvad_tree_insert_fl, er] at e1
      simp only [Option.map_some', Option.some.injEq] at e1
      rw [← e1]
    have hleaf0 : tree.root_node.is_leaf = true := by
      by_contra hc
      simp only [Bool.not_eq_true] at hc
      have := internal_of_depth_le lr fr hc (shape_inv_not_null hn)
      rw [ht1, this] at hl1
      exact Bool.false_ne_true hl1
    refine ⟨hleaf0, hRN, ?_⟩
    cases hroot : tree.root_node with
    | NULL => rw [hroot] at hn; simp [shape_inv] at hn
    | node level rect s0 s1 s2 s3 data dc =>
      rw [hroot] at hn hd er hleaf0
      have hs : s0.is_null = true := hleaf0
      obtain ⟨hrect, hentr⟩ := insert_fl_leaf_stays_leaf rnd tree hml _ level rect s0 s1 s2 s3
        data dc ⟨e.1, e.2.1⟩ e.2.2 hn hs hd r er (by rw [← ht1]; exact hl1)
      have hb : ∀ a : ℚ × ℚ × Nat,
          kvad_tree_in_bounds_fl rnd t1 a.1 a.2.1 = kvad_tree_in_bounds_fl rnd tree a.1 a.2.1 :=
        fun a => in_bounds_fl_of_rect_eq rnd (by rw [ht1, hrect, hroot]; rfl) a.1 a.2.1
      have hin0 : kvad_tree_in_bounds_fl rnd tree e.1 e.2.1
          = _kvad_rect_contains_point_fl rnd rect ⟨e.1, e.2.1⟩ := by
        simp only [kvad_tree_in_bounds_fl, hroot]
      rw [hent, ht1, hentr]
      simp only [hb]
      have hdata : (kvad_node.node level rect s0 s1 s2 s3 data dc).entries = data := by
        simp [kvad_node.entries, hs]
      rw [hdata]
      by_cases hin : _kvad_rect_contains_point_fl rnd rect ⟨e.1, e.2.1⟩ = true
      · simp [hin, hin0, List.filter_cons, triple_mk]
      · simp [hin, hin0, List.filter_cons]

theorem shape_inv_descend {tree : kvad_tree} (n : kvad_node) :
    shape_inv tree n → ∀ path, n.descend path = .NULL ∨ shape_inv tree (n.descend path) := by
  induction n with
  | NULL => intro h; simp [shape_inv] at h
  | node level rect s0 s1 s2 s3 data dc ih0 ih1 ih2 ih3 =>
    intro hn path
    cases path with
    | nil => exact Or.inr (by simpa [kvad_node.descend] using hn)
    | cons i rest =>
      by_cases hs : s0.is_null = true
      · obtain ⟨_, e1, e2, e3⟩ := (shape_inv_leaf_iff hs).1 hn
        have e0 := (is_null_iff s0).1 hs
        subst e0 e1 e2 e3
        left
        match i with
        | 0 | 1 | 2 | 3 | _ + 4 => simp [kvad_node.descend, descend_NULL]
      · simp only [Bool.not_eq_true] at hs
        obtain ⟨_, _, ⟨h0, _⟩, ⟨h1, _⟩, ⟨h2, _⟩, ⟨h3, _⟩⟩ := (shape_inv_internal_iff hs).1 hn
        match i with
        | 0 => simpa [kvad_node.descend] using ih0 h0 rest
        | 1 => simpa [kvad_node.descend] using ih1 h1 rest
        | 2 => simpa [kvad_node.descend] using ih2 h2 rest
        | 3 => simpa [kvad_node.descend] using ih3 h3 rest
        | _ + 4 => simp [kvad_node.descend]

/-- What Find reports below a subnode of the right shape: its own report when the
bounds pass the intersection test, nothing otherwise. -/
theorem find_below_fl_eq (rnd : ℚ → ℚ) (tree : kvad_tree) (x y width height : ℚ)
    (n : kvad_node) (h : shape_inv tree n) :
    ∃ (r : kvad_rect) (l : List (ℚ × ℚ × Nat)), n.rect? = some r ∧
      (∀ context, _kvad_node_find_fl rnd ⟨⟨x, y⟩, ⟨width, height⟩⟩ (some kvad_record) n context
        = some (l.length, context ++ l)) ∧
      kvad_find_below_fl rnd ⟨⟨x, y⟩, ⟨width, height⟩⟩ n
        = some (if _kvad_rect_intersects_rect_fl rnd r ⟨⟨x, y⟩, ⟨width, height⟩⟩ then l else []) := by
  obtain ⟨l, el⟩ := find_fl_record rnd tree x y width height n h
  cases n with
  | NULL => simp [shape_inv] at h
  | node level r s0 s1 s2 s3 data dc =>
    refine ⟨r, l, rfl, el, ?_⟩
    simp only [kvad_find_below_fl, kvad_node.rect?, el, Option.map_some', List.nil_append]
    split_ifs <;> rfl

/-- Find at an internal node, with the recording callback: the reports below the
subnodes 0, 1, 2, 3, in this order, after what was recorded before. -/
theorem find_fl_internal (rnd : ℚ → ℚ) (tree : kvad_tree) (x y width height : ℚ) (level : Nat)
    (rect : kvad_rect) (s0 s1 s2 s3 : kvad_node) (data : List kvad_data) (dc : Nat)
    (h : shape_inv tree (.node level rect s0 s1 s2 s3 data dc)) (hs : s0.is_null = false) :
    ∃ f0 f1 f2 f3 : List (ℚ × ℚ × Nat),
      kvad_find_below_fl rnd ⟨⟨x, y⟩, ⟨width, height⟩⟩ s0 = some f0 ∧
      kvad_find_below_fl rnd ⟨⟨x, y⟩, ⟨width, height⟩⟩ s1 = some f1 ∧
      kvad_find_below_fl rnd ⟨⟨x, y⟩, ⟨width, height⟩⟩ s2 = some f2 ∧
      kvad_find_below_fl rnd ⟨⟨x, y⟩, ⟨width, height⟩⟩ s3 = some f3 ∧
      ∀ context,
        _kvad_node_find_fl rnd ⟨⟨x, y⟩, ⟨width, height⟩⟩ (some kvad_record)
            (.node level rect s0 s1 s2 s3 data dc) context
          = some ((f0 ++ f1 ++ f2 ++ f3).length, context ++ (f0 ++ f1 ++ f2 ++ f3)) := by
  obtain ⟨_, _, ⟨h0, _⟩, ⟨h1, _⟩, ⟨h2, _⟩, ⟨h3, _⟩⟩ := (shape_inv_internal_iff hs).1 h
  obtain ⟨r0, l0, q0, e0, b0⟩ := find_below_fl_eq rnd tree x y width height s0 h0
  obtain ⟨r1, l1, q1, e1, b1⟩ := find_below_fl_eq rnd tree x y width height s1 h1
  obtain ⟨r2, l2, q2, e2, b2⟩ := find_below_fl_eq rnd tree x y width height s2 h2
  obtain ⟨r3, l3, q3, e3, b3⟩ := find_below_fl_eq rnd tree x y width height s3 h3
  refine ⟨_, _, _, _, b0, b1, b2, b3, ?_⟩
  intro context
  simp only [_kvad_node_find_fl, hs, q0, q1, q2, q3, Bool.not_false, if_true]
  by_cases i0 : _kvad_rect_intersects_rect_fl rnd r0 ⟨⟨x, y⟩, ⟨width, height⟩⟩ = true <;>
  by_cases i1 : _kvad_rect_intersects_rect_fl rnd r1 ⟨⟨x, y⟩, ⟨width, height⟩⟩ = true <;>
  by_cases i2 : _kvad_rect_intersects_rect_fl rnd r2 ⟨⟨x, y⟩, ⟨width, height⟩⟩ = true <;>
  by_cases i3 : _kvad_rect_intersects_rect_fl rnd r3 ⟨⟨x, y⟩, ⟨width, height⟩⟩ = true <;>
  simp [i0, i1, i2, i3, e0, e1, e2, e3, Nat.add_assoc, List.append_assoc]

theorem sample_tree1_reachable_fl : Reachable_fl round_double sample_tree1 :=
  Reachable_fl.insert sample_tree0 sample_tree1 1 1 7
    (Reachable_fl.create 0 0 100 100 1 2 (by norm_num) (by norm_num) (by norm_num [UINT_RANGE])
      (by norm_num [UINT_RANGE])) (by decide!)

theorem intersects_fl_id (r0 r1 : kvad_rect) :
    _kvad_rect_intersects_rect_fl id r0 r1 = _kvad_rect_intersects_rect r0 r1 := rfl

theorem in_query_fl_id (x y width height : ℚ) (e : ℚ × ℚ × Nat) :
    kvad_in_query_fl id x y width height e = kvad_in_query x y width height e := rfl

theorem find_loop_fl_id {σ : Type} (rect : kvad_rect) (callback : Option (kvad_callback σ))
    (l : List kvad_data) :
    ∀ count context, _kvad_node_find_loop_fl id rect callback l count context
      = _kvad_node_find_loop rect callback l count context := by
  induction l with
  | nil => intro count context; rfl
  | cons d l ih =>
    intro count context
    simp only [_kvad_node_find_loop_fl, _kvad_node_find_loop, contains_fl_id, ih]

/-- Without rounding `_kvad_node_find_fl` is `_kvad_node_find`. -/
theorem find_fl_id {σ : Type} (rect : kvad_rect) (callback : Option (kvad_callback σ))
    (n : kvad_node) :
    ∀ context, _kvad_node_find_fl id rect callback n context
      = _kvad_node_find rect callback n context := by
  induction n with
  | NULL => intro context; rfl
  | node level r s0 s1 s2 s3 data dc ih0 ih1 ih2 ih3 =>
    intro context
    simp only [_kvad_node_find_fl, _kvad_node_find, intersects_fl_id, find_loop_fl_id, ih0, ih1,
      ih2, ih3]

theorem tree_find_fl_id {σ : Type} (tree : kvad_tree) (x y width height : ℚ)
    (callback : Option (kvad_callback σ)) (context : σ) :
    kvad_tree_find_fl id tree x y width height callback context
      = kvad_tree_find tree x y width height callback context := by
  simp only [kvad_tree_find_fl, kvad_tree_find, find_fl_id]

theorem tree_in_bounds_fl_id (tree : kvad_tree) (x y : ℚ) :
    kvad_tree_in_bounds_fl id tree x y = kvad_tree_in_bounds tree x y := by
  cases tree with
  | mk a b r => cases r <;> rfl

theorem leaf_at_fl_id (point : kvad_point) (n : kvad_node) :
    n.leaf_at_fl id point = n.leaf_at point := by
  induction n with
  | NULL => rfl
  | node level rect s0 s1 s2 s3 data dc ih0 ih1 ih2 ih3 =>
    simp only [kvad_node.leaf_at_fl, kvad_node.leaf_at, quadrant_fl_id, ih0, ih1, ih2,
      ih3]

/-- Without rounding the trees reachable with `Reachable_fl` are those of
`Reachable`. -/
theorem reachable_fl_id (tree : kvad_tree) : Reachable_fl id tree ↔ Reachable tree := by
  constructor
  · intro h
    induction h with
    | create x y width height max_levels max_points_per_node hw hh hml hmp =>
      exact Reachable.create x y width height max_levels max_points_per_node hw hh hml hmp
    | insert tree tree1 x y payload _ e ih =>
      rw [tree_insert_fl_id] at e
      exact Reachable.insert tree tree1 x y payload ih e
    | remove_payload tree tree1 x y payload count _ e ih =>
      rw [tree_remove_fl_id] at e
      exact Reachable.remove_payload tree tree1 x y payload count ih e
  · intro h
    induction h with
    | create x y width height max_levels max_points_per_node hw hh hml hmp =>
      exact Reachable_fl.create x y width height max_levels max_points_per_node hw hh hml hmp
    | insert tree tree1 x y payload _ e ih =>
      rw [← tree_insert_fl_id] at e
      exact Reachable_fl.insert tree tree1 x y payload ih e
    | remove_payload tree tree1 x y payload count _ e ih =>
      rw [← tree_remove_fl_id] at e
      exact Reachable_fl.remove_payload tree tree1 x y payload count ih e

/-- Without rounding, a point inside the bounds of a node of a well-formed tree
passes the bounds test of every node on its way down. -/
theorem passes_fl_id_of_contains {tree : kvad_tree} (point : kvad_point) (n : kvad_node) :
    node_inv tree n → n.contains point = true → n.passes_fl id point = true := by
  induction n with
  | NULL => intro h; simp [node_inv] at h
  | node level rect s0 s1 s2 s3 data dc ih0 ih1 ih2 ih3 =>
    intro hn hc
    have hc1 : _kvad_rect_contains_point rect point = true := hc
    by_cases hs : s0.is_null = true
    · simp [kvad_node.passes_fl, contains_fl_id, hc1, hs]
    · simp only [Bool.not_eq_true] at hs
      have hi := node_inv_internal hn hs
      have hsub := subnode_rect_contains hc1
      have hq4 := quadrant_lt rect point
      have hq : kvad_quadrant rect point = 0 ∨ kvad_quadrant rect point = 1 ∨
          kvad_quadrant rect point = 2 ∨ kvad_quadrant rect point = 3 := by omega
      rcases hq with hq | hq | hq | hq
      · rw [hq] at hsub
        have := ih0 hi.2.2.2.2.2.2.1.1
          (by rw [contains_of_rect_eq_some hi.2.2.2.2.2.2.1.2.2.1]; exact hsub)
        simp [kvad_node.passes_fl, contains_fl_id, quadrant_fl_id, hc1, hs, hq, this]
      · rw [hq] at hsub
        have := ih1 hi.2.2.2.2.2.2.2.1.1
          (by rw [contains_of_rect_eq_some hi.2.2.2.2.2.2.2.1.2.2.1]; exact hsub)
        simp [kvad_node.passes_fl, contains_fl_id, quadrant_fl_id, hc1, hs, hq, this]
      · rw [hq] at hsub
        have := ih2 hi.2.2.2.2.2.2.2.2.1.1
          (by rw [contains_of_rect_eq_some hi.2.2.2.2.2.2.2.2.1.2.2.1]; exact hsub)
        simp [kvad_node.passes_fl, contains_fl_id, quadrant_fl_id, hc1, hs, hq, this]
      · rw [hq] at hsub
        have := ih3 hi.2.2.2.2.2.2.2.2.2.1
          (by rw [contains_of_rect_eq_some hi.2.2.2.2.2.2.2.2.2.2.2.1]; exact hsub)
        simp [kvad_node.passes_fl, contains_fl_id, quadrant_fl_id, hc1, hs, hq, this]

/-! ## The rounding of `double` -/

/-- Values of `round_double`: numbers that a `double` holds are kept; `1 / 10` gets
the 53-bit value of the literal `0.1`; `2 ^ 53 + 1` and `2 ^ 53 + 3`, half way
between two values, go to the one with the even significand; below the normal range
the spacing stays `2 ^ (-1074)`. -/
theorem round_double_values :
    round_double 0 = 0 ∧ round_double 100 = 100 ∧ round_double (-3 / 2) = -3 / 2 ∧
    round_double 9007199254740994 = 9007199254740994 ∧
    round_double (1 / 10) = 3602879701896397 / 36028797018963968 ∧
    round_double (-17 / 10) = -7656119366529843 / 4503599627370496 ∧
    round_double 9007199254740993 = 9007199254740992 ∧
    round_double 9007199254740995 = 9007199254740996 ∧
    round_double (1 - 1 / 18014398509481984) = 1 ∧
    round_double (3 / kvad_pow2 1075) = 1 / kvad_pow2 1073 ∧
    round_double (1 / kvad_pow2 1075) = 0 := by
  refine ⟨by decide!, by decide!, by decide!, by decide!, by decide!, by decide!, by decide!,
    by decide!, by decide!, by decide!, by decide!⟩

/-- C2 fails on the code, which computes on `double`: after
`Create(0, 0, 100, 100, maxLevels = 61, maxPointsPerNode = 1)` the point `(1, 1)` is
inside the root bounds; `Insert(1, 1, 7)` makes Walk report one entry; the in-bounds
`Insert(1, 1, 8)` then splits 61 times and both cells fail the bounds test of the
node they are re-inserted into on the last level, so Walk reports no entry at all
instead of two. Without rounding the same calls store both entries. -/
theorem C2_rounding_drops_inserted_entries :
    kvad_tree_in_bounds_fl round_double deep_tree0 1 1 = true ∧
    (kvad_tree_insert_all_fl round_double deep_tree0 [(1, 1, 7)]).bind
        (fun t => kvad_tree_walk t (some kvad_record) []) = some (1, [(1, 1, 7)]) ∧
    (kvad_tree_insert_all_fl round_double deep_tree0 [(1, 1, 7)]).map
        (fun t => kvad_tree_in_bounds_fl round_double t 1 1) = some true ∧
    (kvad_tree_insert_all_fl round_double deep_tree0 [(1, 1, 7), (1, 1, 8)]).bind
        (fun t => kvad_tree_walk t (some kvad_record) []) = some (0, []) ∧
    (kvad_tree_insert_all deep_tree0 [(1, 1, 7), (1, 1, 8)]).bind
        (fun t => kvad_tree_walk t (some kvad_record) []) = some (2, [(1, 1, 7), (1, 1, 8)]) := by
  refine ⟨by decide!, by decide!, by decide!, by decide!, by decide!⟩

/-- C4 fails on the code, which computes on `double`: after
`Create(0, 0, 100, 100, maxLevels = 61, maxPointsPerNode = 1)`, which stores
nothing, the in-bounds entry `(1, 1, 7)` is inserted twice; the second call splits
61 times and both cells fail the bounds test of the node they are re-inserted into on
the last level, so `RemovePayload(1, 1, 7)` returns 0 instead of 2. Without rounding
it returns 2. -/
theorem C4_rounding_remove_returns_zero :
    kvad_tree_in_bounds_fl round_double deep_tree0 1 1 = true ∧
    kvad_tree_walk deep_tree0 (some kvad_record) [] = some (0, []) ∧
    (kvad_tree_insert_all_fl round_double deep_tree0 [(1, 1, 7), (1, 1, 7)]).bind
        (fun t => (kvad_tree_remove_payload_fl round_double t 1 1 7).map (fun r => r.2))
      = some 0 ∧
    (kvad_tree_insert_all deep_tree0 [(1, 1, 7), (1, 1, 7)]).bind
        (fun t => (kvad_tree_remove_payload t 1 1 7).map (fun r => r.2)) = some 2 := by
  refine ⟨by decide!, by decide!, by decide!, by decide!⟩

/-- C5 fails on the code, which computes on `double`: after
`Create(0, 0, 100, 100, maxLevels = 61, maxPointsPerNode = 1)` the point `(1, 1)` is
inserted with the payloads 7 and 8; the second call splits 61 times and both cells
fail the bounds test of the node they are re-inserted into on the last level;
`RemovePayload(1, 1, 7)` returns 0 and Walk afterwards does not report `(1, 1, 8)`.
Without rounding Walk reports it. -/
theorem C5_rounding_loses_other_payload :
    kvad_tree_in_bounds_fl round_double deep_tree0 1 1 = true ∧
    (kvad_tree_insert_all_fl round_double deep_tree0 [(1, 1, 7), (1, 1, 8)]).bind
        (fun t => (kvad_tree_remove_payload_fl round_double t 1 1 7).bind
          (fun r => (kvad_tree_walk r.1 (some kvad_record) []).map (fun w => (r.2, w))))
      = some (0, 0, []) ∧
    (kvad_tree_insert_all deep_tree0 [(1, 1, 7), (1, 1, 8)]).bind
        (fun t => (kvad_tree_remove_payload t 1 1 7).bind
          (fun r => (kvad_tree_walk r.1 (some kvad_record) []).map (fun w => (r.2, w))))
      = some (1, 1, [(1, 1, 8)]) := by
  refine ⟨by decide!, by decide!, by decide!⟩

/-- C19 fails on the code, which computes on `double`. With integer arguments: in
the rectangle `(2 ^ 53, 2 ^ 53, 2, 2)` the point `(2 ^ 53 + 2, 2 ^ 53 + 2)` passes
the bounds test, quadrant selection picks subnode 3, whose bounds are
`(2 ^ 53, 2 ^ 53, 1, 1)` because `2 ^ 53 + 1` rounds to `2 ^ 53`, and the point
fails their test; so after `Create(2 ^ 53, 2 ^ 53, 2, 2, 1, 1)` and
`Insert(2 ^ 53 + 2, 2 ^ 53 + 2, 7)` the call `Insert(2 ^ 53, 2 ^ 53, 8)` splits the
root and drops the entry with payload 7. The same happens at
`Create(-1.7, -1.7, 1.2, 1.2, 1, 1)`, `Insert(-0.5, -0.5, 7)`,
`Insert(-1.5, -1.5, 8)`. Without rounding no entry is dropped. -/
theorem C19_rounding_child_excludes_point :
    _kvad_rect_contains_point_fl round_double big_rect ⟨9007199254740994, 9007199254740994⟩
      = true ∧
    kvad_quadrant_fl round_double big_rect ⟨9007199254740994, 9007199254740994⟩ = 3 ∧
    kvad_subnode_rect_fl round_double big_rect 3
      = ⟨⟨9007199254740992, 9007199254740992⟩, ⟨1, 1⟩⟩ ∧
    _kvad_rect_contains_point_fl round_double (kvad_subnode_rect_fl round_double big_rect 3)
      ⟨9007199254740994, 9007199254740994⟩ = false ∧
    (kvad_tree_insert_all_fl round_double big_tree0
        [(9007199254740994, 9007199254740994, 7)]).bind
        (fun t => kvad_tree_walk t (some kvad_record) [])
      = some (1, [(9007199254740994, 9007199254740994, 7)]) ∧
    (kvad_tree_insert_all_fl round_double big_tree0
        [(9007199254740994, 9007199254740994, 7), (9007199254740992, 9007199254740992, 8)]).bind
        (fun t => kvad_tree_walk t (some kvad_record) [])
      = some (1, [(9007199254740992, 9007199254740992, 8)]) ∧
    (kvad_tree_insert_all big_tree0
        [(9007199254740994, 9007199254740994, 7), (9007199254740992, 9007199254740992, 8)]).bind
        (fun t => kvad_tree_walk t (some kvad_record) [])
      = some (2, [(9007199254740992, 9007199254740992, 8),
          (9007199254740994, 9007199254740994, 7)]) ∧
    kvad_tree_in_bounds_fl round_double decimal_tree0 (-1 / 2) (-1 / 2) = true ∧
    (kvad_tree_insert_all_fl round_double decimal_tree0 [(-1 / 2, -1 / 2, 7), (-3 / 2, -3 / 2, 8)]).bind
        (fun t => kvad_tree_walk t (some kvad_record) [])
      = some (1, [(-3 / 2, -3 / 2, 8)]) := by
  refine ⟨by decide!, by decide!, by decide!, by decide!, by decide!, by decide!, by decide!,
    by decide!, by decide!⟩

/-- C9, amended. Leaf order is newest first until a split, whatever the rounding
`rnd` of the arithmetic (that of `double` in the code, none with exact
coordinates): in every tree reachable with it (1) while the root is a leaf, a run
of Insert calls puts the entries that pass its bounds test in reverse insertion
order ahead of those stored before, and Walk and Find report them so, the most
recently inserted first; (2) an Insert whose point passes the bounds test of every
node on its way down and that does not split the leaf it reaches puts the new entry
at the head of that leaf's list; (3) Find and Walk report the list of a leaf head
first, and below an internal node the reports of the subnodes 0, 1, 2, 3 in this
order, Find skipping a subnode whose bounds fail the intersection test. With the
rounding of `double`: after `Create(0, 0, 100, 100, 1, 2)`, `Insert(1, 1, 7)`,
`Insert(2, 2, 7)` Walk and Find report `(2, 2, 7)` first; after the split by
`Insert(3, 3, 8)`, the calls `Insert(60, 60, 9)` and `Insert(70, 70, 5)` leave
`(70, 70, 5)` at the head of the list of the leaf they reach. -/
theorem C9_leaf_order_until_split (rnd : ℚ → ℚ) (tree : kvad_tree)
    (h : Reachable_fl rnd tree) :
    (∀ (l : List (ℚ × ℚ × Nat)) (treeN : kvad_tree),
      kvad_tree_insert_all_fl rnd tree l = some treeN → treeN.root_node.is_leaf = true →
      ∃ before newest_first : List (ℚ × ℚ × Nat),
        newest_first
          = (l.filter (fun e => kvad_tree_in_bounds_fl rnd tree e.1 e.2.1)).reverse ∧
        kvad_tree_walk tree (some kvad_record) [] = some (before.length, before) ∧
        kvad_tree_walk treeN (some kvad_record) []
          = some ((newest_first ++ before).length, newest_first ++ before) ∧
        (∀ qx qy width height,
          kvad_tree_find_fl rnd treeN qx qy width height (some kvad_record) []
            = some (((newest_first ++ before).filter
                  (fun e => kvad_in_query_fl rnd qx qy width height e)).length,
                (newest_first ++ before).filter
                  (fun e => kvad_in_query_fl rnd qx qy width height e))) ∧
        (∀ x0 y0 width height max_levels max_points_per_node,
          tree = kvad_tree_create x0 y0 width height max_levels max_points_per_node →
          before = [])) ∧
    (∀ x y payload level rc data data_count,
      tree.root_node.passes_fl rnd ⟨x, y⟩ = true →
      tree.root_node.leaf_at_fl rnd ⟨x, y⟩
        = .node level rc .NULL .NULL .NULL .NULL data data_count →
      ¬ (level < tree.max_levels ∧
        (data_count + 1) % UINT_RANGE > tree.max_points_per_node) →
      ∃ tree1, kvad_tree_insert_fl rnd tree x y payload = some tree1 ∧
        tree1.root_node.leaf_at_fl rnd ⟨x, y⟩
          = .node level rc .NULL .NULL .NULL .NULL (⟨⟨x, y⟩, payload⟩ :: data)
              ((data_count + 1) % UINT_RANGE)) ∧
    (∀ path level rect s0 s1 s2 s3 data data_count,
      tree.root_node.descend path = .node level rect s0 s1 s2 s3 data data_count →
      (s0.is_null = true →
        _kvad_node_walk (some kvad_record) (tree.root_node.descend path) []
            = some ((data.map kvad_data.triple).length, data.map kvad_data.triple) ∧
        ∀ qx qy width height,
          _kvad_node_find_fl rnd ⟨⟨qx, qy⟩, ⟨width, height⟩⟩ (some kvad_record)
              (tree.root_node.descend path) []
            = some (((data.map kvad_data.triple).filter
                  (fun e => kvad_in_query_fl rnd qx qy width height e)).length,
                (data.map kvad_data.triple).filter
                  (fun e => kvad_in_query_fl rnd qx qy width height e))) ∧
      (s0.is_null = false →
        (∃ w0 w1 w2 w3 : List (ℚ × ℚ × Nat),
          _kvad_node_walk (some kvad_record) s0 [] = some (w0.length, w0) ∧
          _kvad_node_walk (some kvad_record) s1 [] = some (w1.length, w1) ∧
          _kvad_node_walk (some kvad_record) s2 [] = some (w2.length, w2) ∧
          _kvad_node_walk (some kvad_record) s3 [] = some (w3.length, w3) ∧
          _kvad_node_walk (some kvad_record) (tree.root_node.descend path) []
            = some ((w0 ++ w1 ++ w2 ++ w3).length, w0 ++ w1 ++ w2 ++ w3)) ∧
        ∀ qx qy width height, ∃ f0 f1 f2 f3 : List (ℚ × ℚ × Nat),
          kvad_find_below_fl rnd ⟨⟨qx, qy⟩, ⟨width, height⟩⟩ s0 = some f0 ∧
          kvad_find_below_fl rnd ⟨⟨qx, qy⟩, ⟨width, height⟩⟩ s1 = some f1 ∧
          kvad_find_below_fl rnd ⟨⟨qx, qy⟩, ⟨width, height⟩⟩ s2 = some f2 ∧
          kvad_find_below_fl rnd ⟨⟨qx, qy⟩, ⟨width, height⟩⟩ s3 = some f3 ∧
          _kvad_node_find_fl rnd ⟨⟨qx, qy⟩, ⟨width, height⟩⟩ (some kvad_record)
              (tree.root_node.descend path) []
            = some ((f0 ++ f1 ++ f2 ++ f3).length, f0 ++ f1 ++ f2 ++ f3))) ∧
    kvad_tree_insert_all_fl round_double sample_tree0 [(1, 1, 7), (2, 2, 7)]
      = some sample_tree2 ∧
    kvad_tree_walk sample_tree2 (some kvad_record) [] = some (2, [(2, 2, 7), (1, 1, 7)]) ∧
    kvad_tree_find_fl round_double sample_tree2 0 0 100 100 (some kvad_record) []
      = some (2, [(2, 2, 7), (1, 1, 7)]) ∧
    kvad_tree_insert_fl round_double sample_tree2 3 3 8 = some sample_tree3 ∧
    sample_tree3.root_node.passes_fl round_double ⟨60, 60⟩ = true ∧
    sample_tree3.root_node.passes_fl round_double ⟨70, 70⟩ = true ∧
    (kvad_tree_insert_all_fl round_double sample_tree3 [(60, 60, 9), (70, 70, 5)]).map
        (fun t => (t.root_node.leaf_at_fl round_double ⟨70, 70⟩).entries)
      = some [⟨⟨70, 70⟩, 5⟩, ⟨⟨60, 60⟩, 9⟩] := by
  obtain ⟨hml, hl0, hn⟩ := reachable_fl_inv h
  refine ⟨?_, ?_, ?_, by decide!, by decide!, by decide!, by decide!, by decide!, by decide!,
    by decide!⟩
  · intro l treeN hN hleaf
    obtain ⟨hleaf0, hRN, hent⟩ := tree_insert_all_fl_unsplit rnd l tree h treeN hN hleaf
    obtain ⟨-, -, hnN⟩ := reachable_fl_inv hRN
    refine ⟨tree.root_node.entries.map kvad_data.triple, _, rfl, ?_, ?_, ?_, ?_⟩
    · rw [kvad_tree_walk, walk_shape_record hn]
    · rw [kvad_tree_walk, walk_shape_record hnN, ← hent]
    · intro qx qy width height
      cases hroot : treeN.root_node with
      | NULL => rw [hroot] at hnN; simp [shape_inv] at hnN
      | node level rect s0 s1 s2 s3 data dc =>
        rw [hroot] at hleaf hent
        have hs : s0.is_null = true := hleaf
        have hdata : (kvad_node.node level rect s0 s1 s2 s3 data dc).entries = data := by
          simp [kvad_node.entries, hs]
        rw [hdata] at hent
        rw [kvad_tree_find_fl, hroot, find_fl_leaf_record rnd qx qy width height level rect s0 s1
          s2 s3 data dc hs [], hent, List.nil_append]
    · intro x0 y0 width height max_levels max_points_per_node ht
      rw [ht]
      simp [kvad_tree_create, _kvad_node_create, kvad_node.entries, kvad_node.is_null]
  · intro x y payload level rc data data_count hp hleaf hns
    obtain ⟨tree1, e1⟩ := tree_insert_fl_returns h x y payload
    refine ⟨tree1, e1, ?_⟩
    cases hr : _kvad_node_insert_fl rnd (kvad_tree_insert_fuel tree) tree tree.root_node ⟨x, y⟩
        payload with
    | none => rw [kvad_tree_insert_fl, hr] at e1; cases e1
    | some r =>
      rw [kvad_tree_insert_fl, hr] at e1
      simp only [Option.map_some', Option.some.injEq] at e1
      rw [← e1]
      exact insert_fl_no_split rnd tree ⟨x, y⟩ payload level rc .NULL .NULL .NULL data data_count
        hns tree.root_node hp hleaf _ r hr
  · intro path level rect s0 s1 s2 s3 data data_count hp
    have hinv : shape_inv tree (tree.root_node.descend path) := by
      rcases shape_inv_descend tree.root_node hn path with hnull | hinv
      · rw [hnull] at hp; cases hp
      · exact hinv
    constructor
    · intro hs
      have he : (tree.root_node.descend path).entries = data := by
        rw [hp]; simp [kvad_node.entries, hs]
      refine ⟨?_, ?_⟩
      · rw [walk_shape_record hinv, he]
      · intro qx qy width height
        rw [hp, find_fl_leaf_record rnd qx qy width height level rect s0 s1 s2 s3 data data_count
          hs [], List.nil_append]
    · intro hs
      rw [hp] at hinv
      obtain ⟨_, _, ⟨h0, _⟩, ⟨h1, _⟩, ⟨h2, _⟩, ⟨h3, _⟩⟩ := (shape_inv_internal_iff hs).1 hinv
      have he : (tree.root_node.descend path).entries.map kvad_data.triple
          = s0.entries.map kvad_data.triple ++ s1.entries.map kvad_data.triple
            ++ s2.entries.map kvad_data.triple ++ s3.entries.map kvad_data.triple := by
        rw [hp]; simp [kvad_node.entries, hs]
      refine ⟨⟨_, _, _, _, walk_shape_record h0, walk_shape_record h1, walk_shape_record h2,
        walk_shape_record h3, ?_⟩, ?_⟩
      · rw [hp, walk_shape_record hinv, ← hp, he]
      · intro qx qy width height
        obtain ⟨f0, f1, f2, f3, b0, b1, b2, b3, e⟩ := find_fl_internal rnd tree qx qy width height
          level rect s0 s1 s2 s3 data data_count hinv hs
        refine ⟨f0, f1, f2, f3, b0, b1, b2, b3, ?_⟩
        rw [hp, e [], List.nil_append]

/-- C9, amended, with the rounding of `double` on the sample tree with one entry, whose root
is a leaf with room for one more. -/
theorem C9_witness :
    Reachable_fl round_double sample_tree1 ∧
    ((∀ (l : List (ℚ × ℚ × Nat)) (treeN : kvad_tree),
      kvad_tree_insert_all_fl round_double sample_tree1 l = some treeN → treeN.root_node.is_leaf = true →
      ∃ before newest_first : List (ℚ × ℚ × Nat),
        newest_first
          = (l.filter (fun e => kvad_tree_in_bounds_fl round_double sample_tree1 e.1 e.2.1)).reverse ∧
        kvad_tree_walk sample_tree1 (some kvad_record) [] = some (before.length, before) ∧
        kvad_tree_walk treeN (some kvad_record) []
          = some ((newest_first ++ before).length, newest_first ++ before) ∧
        (∀ qx qy width height,
          kvad_tree_find_fl round_double treeN qx qy width height (some kvad_record) []
            = some (((newest_first ++ before).filter
                  (fun e => kvad_in_query_fl round_double qx qy width height e)).length,
                (newest_first ++ before).filter
                  (fun e => kvad_in_query_fl round_double qx qy width height e))) ∧
        (∀ x0 y0 width height max_levels max_points_per_node,
          sample_tree1 = kvad_tree_create x0 y0 width height max_levels max_points_per_node →
          before = [])) ∧
    (∀ x y payload level rc data data_count,
      sample_tree1.root_node.passes_fl round_double ⟨x, y⟩ = true →
      sample_tree1.root_node.leaf_at_fl round_double ⟨x, y⟩
        = .node level rc .NULL .NULL .NULL .NULL data data_count →
      ¬ (level < sample_tree1.max_levels ∧
        (data_count + 1) % UINT_RANGE > sample_tree1.max_points_per_node) →
      ∃ tree1, kvad_tree_insert_fl round_double sample_tree1 x y payload = some tree1 ∧
        tree1.root_node.leaf_at_fl round_double ⟨x, y⟩
          = .node level rc .NULL .NULL .NULL .NULL (⟨⟨x, y⟩, payload⟩ :: data)
              ((data_count + 1) % UINT_RANGE)) ∧
    (∀ path level rect s0 s1 s2 s3 data data_count,
      sample_tree1.root_node.descend path = .node level rect s0 s1 s2 s3 data data_count →
      (s0.is_null = true →
        _kvad_node_walk (some kvad_record) (sample_tree1.root_node.descend path) []
            = some ((data.map kvad_data.triple).length, data.map kvad_data.triple) ∧
        ∀ qx qy width height,
          _kvad_node_find_fl round_double ⟨⟨qx, qy⟩, ⟨width, height⟩⟩ (some kvad_record)
              (sample_tree1.root_node.descend path) []
            = some (((data.map kvad_data.triple).filter
                  (fun e => kvad_in_query_fl round_double qx qy width height e)).length,
                (data.map kvad_data.triple).filter
                  (fun e => kvad_in_query_fl round_double qx qy width height e))) ∧
      (s0.is_null = false →
        (∃ w0 w1 w2 w3 : List (ℚ × ℚ × Nat),
          _kvad_node_walk (some kvad_record) s0 [] = some (w0.length, w0) ∧
          _kvad_node_walk (some kvad_record) s1 [] = some (w1.length, w1) ∧
          _kvad_node_walk (some kvad_record) s2 [] = some (w2.length, w2) ∧
          _kvad_node_walk (some kvad_record) s3 [] = some (w3.length, w3) ∧
          _kvad_node_walk (some kvad_record) (sample_tree1.root_node.descend path) []
            = some ((w0 ++ w1 ++ w2 ++ w3).length, w0 ++ w1 ++ w2 ++ w3)) ∧
        ∀ qx qy width height, ∃ f0 f1 f2 f3 : List (ℚ × ℚ × Nat),
          kvad_find_below_fl round_double ⟨⟨qx, qy⟩, ⟨width, height⟩⟩ s0 = some f0 ∧
          kvad_find_below_fl round_double ⟨⟨qx, qy⟩, ⟨width, height⟩⟩ s1 = some f1 ∧
          kvad_find_below_fl round_double ⟨⟨qx, qy⟩, ⟨width, height⟩⟩ s2 = some f2 ∧
          kvad_find_below_fl round_double ⟨⟨qx, qy⟩, ⟨width, height⟩⟩ s3 = some f3 ∧
          _kvad_node_find_fl round_double ⟨⟨qx, qy⟩, ⟨width, height⟩⟩ (some kvad_record)
              (sample_tree1.root_node.descend path) []
            = some ((f0 ++ f1 ++ f2 ++ f3).length, f0 ++ f1 ++ f2 ++ f3))) ∧
    kvad_tree_insert_all_fl round_double sample_tree0 [(1, 1, 7), (2, 2, 7)]
      = some sample_tree2 ∧
    kvad_tree_walk sample_tree2 (some kvad_record) [] = some (2, [(2, 2, 7), (1, 1, 7)]) ∧
    kvad_tree_find_fl round_double sample_tree2 0 0 100 100 (some kvad_record) []
      = some (2, [(2, 2, 7), (1, 1, 7)]) ∧
    kvad_tree_insert_fl round_double sample_tree2 3 3 8 = some sample_tree3 ∧
    sample_tree3.root_node.passes_fl round_double ⟨60, 60⟩ = true ∧
    sample_tree3.root_node.passes_fl round_double ⟨70, 70⟩ = true ∧
    (kvad_tree_insert_all_fl round_double sample_tree3 [(60, 60, 9), (70, 70, 5)]).map
        (fun t => (t.root_node.leaf_at_fl round_double ⟨70, 70⟩).entries)
      = some [⟨⟨70, 70⟩, 5⟩, ⟨⟨60, 60⟩, 9⟩]) :=
  ⟨sample_tree1_reachable_fl, C9_leaf_order_until_split round_double sample_tree1 sample_tree1_reachable_fl⟩

end Kvad
